import Mathlib

/-!
# SharedEditor server: a shallow embedding of `Server/server.cpp`

The server keeps, for every open file, the list of sessions working on it
(`mapFileWorkers`), the symbols of the file keyed by the text of their position
(`symbols_list`) and a dirty flag (`changed`).  The definitions below follow the
member functions of `Server` one by one.  A handler returns `none` where the C++
has no defined result (a null pointer is dereferenced, an exception leaves the
handler, a loop repeats the same state for ever).
-/

namespace SharedEditor

/-! ## Qt value types -/

/-- A `QString` is a sequence of UTF-16 code units, each kept as a natural number. -/
abbrev QString := List Nat

/-- A `QByteArray` is a sequence of bytes, each kept as a natural number. -/
abbrev QByteArray := List Nat

/-- The call `QLatin1String("...")` / `QStringLiteral("...")` of a literal: one code unit per character. -/
def QLatin1String (s : String) : QString := s.toList.map Char.toNat

/-- Case folding of one code unit.  Only the code units whose fold is an ASCII letter are
    moved (`A`..`Z`, the Kelvin sign and the long s); this is all a comparison against an
    ASCII literal can see. -/
def foldCase (u : Nat) : Nat :=
  if 65 ≤ u ∧ u ≤ 90 then u + 32
  else if u = 0x212A then 107
  else if u = 0x17F then 115
  else u

/-- The test `s.compare(QLatin1String(lit), Qt::CaseInsensitive) == 0` for an ASCII literal. -/
def compareCI (s : QString) (lit : String) : Bool :=
  s.map foldCase == (QLatin1String lit).map foldCase

/-- The function `QChar::isSpace`. -/
def isSpace (u : Nat) : Bool :=
  u == 0x20 || (0x09 ≤ u && u ≤ 0x0d) || u == 0x85 || u == 0xa0 || u == 0x1680 ||
  (0x2000 ≤ u && u ≤ 0x200a) || u == 0x2028 || u == 0x2029 || u == 0x202f ||
  u == 0x205f || u == 0x3000

/-- Worker of `simplified`: `started` says a word has been written, `pending` that
    whitespace was met after it. -/
def simplifiedFrom (started pending : Bool) : QString → QString
  | [] => []
  | u :: t =>
    if isSpace u then simplifiedFrom started started t
    else (if pending then [32, u] else [u]) ++ simplifiedFrom true false t

/-- The function `QString::simplified`: whitespace stripped at both ends, inner runs become one space. -/
def simplified (s : QString) : QString := simplifiedFrom false false s

/-- The function `QString::lastIndexOf(ch)`: index of the last occurrence, `-1` when there is none. -/
def lastIndexOf (s : QString) (ch : Nat) : Int :=
  match (s.reverse.indexOf? ch) with
  | some i => (s.length : Int) - 1 - i
  | none => -1

/-- The function `QString::left(n)`: the whole string when `n` is negative or not below the size. -/
def left (s : QString) (n : Int) : QString :=
  if n < 0 ∨ (s.length : Int) ≤ n then s else s.take n.toNat

/-- The function `QString::right(n)`: the whole string when `n` is negative or not below the size. -/
def right (s : QString) (n : Int) : QString :=
  if n < 0 ∨ (s.length : Int) ≤ n then s else s.drop (s.length - n.toNat)

/-- The four bytes of a `quint32` as laid out in memory by
    `QByteArray((const char *)&x, sizeof(x))` on a little-endian machine. -/
def quint32Bytes (x : Nat) : QByteArray :=
  let y := x % 2 ^ 32
  [y % 256, y / 256 % 256, y / 65536 % 256, y / 16777216 % 256]

/-- The call `qFromLittleEndian<qint32>` read into a `quint32`: missing bytes count as zero. -/
def qFromLittleEndian (b : QByteArray) : Nat :=
  (b.getD 0 0 + 256 * b.getD 1 0 + 65536 * b.getD 2 0 + 16777216 * b.getD 3 0) % 2 ^ 32

/-- A `quint32` as `QDataStream` writes it (big-endian). -/
def streamUInt32 (x : Nat) : QByteArray :=
  (quint32Bytes x).reverse

/-! ## JSON -/

/-- A `QJsonValue`.  Numbers are the integral ones: the server reads numbers with `toInt`
    only and writes only `int`s. -/
inductive QJsonValue where
  | null
  | bool (b : Bool)
  | double (n : Int)
  | string (s : QString)
  | array (a : List QJsonValue)
  | object (o : List (QString × QJsonValue))
  | undefined
  deriving Repr

/-- A `QJsonArray`. -/
abbrev QJsonArray := List QJsonValue

/-- A `QJsonObject`: its members, sorted by key. -/
abbrev QJsonObject := List (QString × QJsonValue)

namespace QJsonValue

/-- The call `isString()`. -/
def isString : QJsonValue → Bool
  | .string _ => true
  | _ => false

/-- The call `isNull()`. -/
def isNull : QJsonValue → Bool
  | .null => true
  | _ => false

/-- The call `toString()`: the null string unless the value is a string. -/
def toQString : QJsonValue → QString
  | .string s => s
  | _ => []

/-- The call `toInt()`: `0` unless the value is a number that is an `int`. -/
def toInt : QJsonValue → Int
  | .double n => if -2147483648 ≤ n ∧ n ≤ 2147483647 then n else 0
  | _ => 0

/-- The call `toObject()`: the empty object unless the value is an object. -/
def toObject : QJsonValue → QJsonObject
  | .object o => o
  | _ => []

/-- The call `toArray()`: the empty array unless the value is an array. -/
def toArray : QJsonValue → QJsonArray
  | .array a => a
  | _ => []

/-- The test `v == true`. -/
def isTrue : QJsonValue → Bool
  | .bool true => true
  | _ => false

end QJsonValue

/-- Lookup in a list of entries. -/
def lookupEntry {K V : Type} [LinearOrder K] (k : K) : List (K × V) → Option V
  | [] => none
  | (k', v) :: t => if k = k' then some v else lookupEntry k t

/-- Insertion into a list of entries sorted by key; an entry with the same key is replaced. -/
def insertEntry {K V : Type} [LinearOrder K] (k : K) (v : V) : List (K × V) → List (K × V)
  | [] => [(k, v)]
  | (k', v') :: t =>
    if k < k' then (k, v) :: (k', v') :: t
    else if k' < k then (k', v') :: insertEntry k v t
    else (k, v) :: t

/-- Removal of a key from a list of entries. -/
def removeEntry {K V : Type} [LinearOrder K] (k : K) : List (K × V) → List (K × V)
  | [] => []
  | (k', v') :: t => if k = k' then removeEntry k t else (k', v') :: removeEntry k t

namespace QJsonObject

/-- The call `obj.value(key)` and `obj[key]` on a constant object: `Undefined` when the key is absent. -/
def value (o : QJsonObject) (key : String) : QJsonValue :=
  (lookupEntry (QLatin1String key) o).getD .undefined

/-- The assignment `obj[key] = v`. -/
def set (o : QJsonObject) (key : String) (v : QJsonValue) : QJsonObject :=
  insertEntry (QLatin1String key) v o

/-- What reading `obj[key]` does to an object that is not constant: a member that is missing
    is created, with the value `Null`. -/
def touch (o : QJsonObject) (key : String) : QJsonObject :=
  match lookupEntry (QLatin1String key) o with
  | some _ => o
  | none => o.set key .null

end QJsonObject

/-- The call `QByteArray(n, ' ')` as text. -/
def spaces (n : Nat) : QString := List.replicate n 32

/-- A hexadecimal digit, lower case. -/
def hexdig (u : Nat) : Nat := if u < 10 then 48 + u else 97 + u - 10

/-- The decimal digits of `n`, the first digit first; `fuel` bounds the number of digits. -/
def decimalDigits : Nat → Nat → QString
  | 0, _ => []
  | fuel + 1, n => if n < 10 then [48 + n] else decimalDigits fuel (n / 10) ++ [48 + n % 10]

/-- The decimal digits of a natural number. -/
def decimal (n : Nat) : QString := decimalDigits (n + 1) n

/-- The text of a number that is an integer. -/
def numberText (n : Int) : QString :=
  if n < 0 then 45 :: decimal n.natAbs else decimal n.natAbs

/-- The JSON writer's `escapedString`, read back as text: control characters, the quote and
    the backslash are escaped, a surrogate without its partner becomes `?`. -/
def escapedString : QString → QString
  | [] => []
  | u :: t =>
    if u < 0x80 then
      (if u < 0x20 ∨ u = 0x22 ∨ u = 0x5c then
        (if u = 0x22 then [92, 34]
         else if u = 0x5c then [92, 92]
         else if u = 0x8 then [92, 98]
         else if u = 0xc then [92, 102]
         else if u = 0xa then [92, 110]
         else if u = 0xd then [92, 114]
         else if u = 0x9 then [92, 116]
         else [92, 117, 48, 48, hexdig (u / 16), hexdig (u % 16)])
      else [u]) ++ escapedString t
    else if 0xD800 ≤ u ∧ u < 0xDC00 then
      match t with
      | [] => [63]
      | lo :: t' =>
        if 0xDC00 ≤ lo ∧ lo < 0xE000 then u :: lo :: escapedString t'
        else 63 :: escapedString (lo :: t')
    else if 0xDC00 ≤ u ∧ u < 0xE000 then 63 :: escapedString t
    else u :: escapedString t

mutual
/-- The writer's `valueToJson` in the indented format. -/
def valueToJson : QJsonValue → Nat → QString
  | .bool b, _ => QLatin1String (if b then "true" else "false")
  | .double n, _ => numberText n
  | .string s, _ => [34] ++ escapedString s ++ [34]
  | .array a, indent =>
    QLatin1String "[\n" ++ arrayContentToJson a (indent + 1) ++ spaces (4 * indent) ++ [93]
  | .object o, indent =>
    [123, 10] ++ objectContentToJson o (indent + 1) ++ spaces (4 * indent) ++ [125]
  | .null, _ => QLatin1String "null"
  | .undefined, _ => QLatin1String "null"
/-- The writer's `arrayContentToJson` in the indented format. -/
def arrayContentToJson : List QJsonValue → Nat → QString
  | [], _ => []
  | [v], indent => spaces (4 * indent) ++ valueToJson v indent ++ [10]
  | v :: w :: t, indent =>
    spaces (4 * indent) ++ valueToJson v indent ++ [44, 10] ++ arrayContentToJson (w :: t) indent
/-- The writer's `objectContentToJson` in the indented format. -/
def objectContentToJson : List (QString × QJsonValue) → Nat → QString
  | [], _ => []
  | [(k, v)], indent =>
    spaces (4 * indent) ++ [34] ++ escapedString k ++ [34, 58, 32] ++ valueToJson v indent ++ [10]
  | (k, v) :: e :: t, indent =>
    spaces (4 * indent) ++ [34] ++ escapedString k ++ [34, 58, 32] ++ valueToJson v indent
      ++ [44, 10] ++ objectContentToJson (e :: t) indent
end

/-- The text of `QJsonDocument(array).toJson()`. -/
def arrayToJson (a : QJsonArray) : QString :=
  QLatin1String "[\n" ++ arrayContentToJson a 1 ++ QLatin1String "]\n"

/-- The text of `QJsonDocument(object).toJson()`. -/
def objectToJson (o : QJsonObject) : QString :=
  [123, 10] ++ objectContentToJson o 1 ++ [125, 10]

/-- UTF-8 bytes of a text. -/
def toUtf8 : QString → QByteArray
  | [] => []
  | u :: t =>
    if u < 0x80 then u :: toUtf8 t
    else if u < 0x800 then (0xC0 + u / 64) :: (0x80 + u % 64) :: toUtf8 t
    else if 0xD800 ≤ u ∧ u < 0xDC00 then
      match t with
      | [] => [63]
      | lo :: t' =>
        if 0xDC00 ≤ lo ∧ lo < 0xE000 then
          let c := 0x10000 + (u - 0xD800) * 1024 + (lo - 0xDC00)
          (0xF0 + c / 262144) :: (0x80 + c / 4096 % 64) :: (0x80 + c / 64 % 64)
            :: (0x80 + c % 64) :: toUtf8 t'
        else 63 :: toUtf8 (lo :: t')
    else if 0xDC00 ≤ u ∧ u < 0xE000 then 63 :: toUtf8 t
    else (0xE0 + u / 4096) :: (0x80 + u / 64 % 64) :: (0x80 + u % 64) :: toUtf8 t

/-- The bytes of `QJsonDocument(object).toJson()`. -/
def toJson (o : QJsonObject) : QByteArray := toUtf8 (objectToJson o)

/-! ## QMap -/

/-- A `QMap<K, V>`: its entries in key order.  A map read through a null pointer is the
    `none` of `Option (QMap K V)`. -/
structure QMap (K V : Type) where
  /-- The entries, sorted by key. -/
  entries : List (K × V)
  deriving Repr, DecidableEq

namespace QMap

variable {K V : Type}

/-- The map with no entry. -/
def empty : QMap K V := ⟨[]⟩

/-- The invariant of a map: keys strictly increasing. -/
def WF [LinearOrder K] (m : QMap K V) : Prop :=
  m.entries.Pairwise (fun a b => a.1 < b.1)

/-- Lookup of a key: `value(k)` is `find k` with `none` for the default-constructed value
    (a null pointer when `V` is a pointer type). -/
def find [LinearOrder K] (m : QMap K V) (k : K) : Option V := lookupEntry k m.entries

/-- The call `contains(k)`. -/
def contains [LinearOrder K] (m : QMap K V) (k : K) : Bool := (m.find k).isSome

/-- The call `insert(k, v)`. -/
def insert [LinearOrder K] (m : QMap K V) (k : K) (v : V) : QMap K V :=
  ⟨insertEntry k v m.entries⟩

/-- The call `remove(k)`. -/
def remove [LinearOrder K] (m : QMap K V) (k : K) : QMap K V := ⟨removeEntry k m.entries⟩

/-- The call `values()`, in key order. -/
def values (m : QMap K V) : List V := m.entries.map Prod.snd

/-- The call `keys()`, in increasing order. -/
def keys (m : QMap K V) : List K := m.entries.map Prod.fst

/-- A change made through the pointer stored under `k` (`value(k)->...`): the object the
    pointer refers to becomes `f` of itself, the map of pointers stays as it is. -/
def update [LinearOrder K] (m : QMap K V) (k : K) (f : V → V) : QMap K V :=
  ⟨m.entries.map (fun e => if e.1 = k then (e.1, f e.2) else e)⟩

end QMap

/-! ## The server's collaborators -/

/-- Modelled from the spec: the result codes of the credential and file store, whose
    header `database.h` is not among the sources; these are the codes `server.cpp` names. -/
inductive DatabaseError where
  | SUCCESS
  | CONNECTION_ERROR
  | QUERY_ERROR
  | ALREADY_EXISTING_USER
  | NON_EXISTING_USER
  | WRONG_PASSWORD
  | NO_FILES_AVAILABLE
  | NON_EXISTING_FILE
  | ALREADY_EXISTING_FILE
  deriving DecidableEq, Repr

/-- Modelled from the spec: the credential/profile store and the durable file store
    (class `Database`, not among the sources), as the answers it gives to the calls of
    `server.cpp`; reference parameters that a call fills in are returned next to the result. -/
structure Database where
  checkAlreadyExistingUsername : QString → DatabaseError
  login : QString → QString → DatabaseError × QString
  updateNickname : QString → QString → DatabaseError
  updatePassword : QString → QString → QString → DatabaseError
  checkOldPassword : QString → QString → DatabaseError
  getFiles : QString → Bool → DatabaseError × List (QString × QString)
  getFilenameFromSharedLink : QString → QString → DatabaseError × QString
  newFile : QString → QString → DatabaseError × QString
  insertNewFile : QString → Bool
  retrieveFile : QString → Bool × List QJsonObject
  getSharedLink : QString → QString → QString

/-- Modelled from the spec: the operation codes `INSERT`, `DELETE`, `CHANGE`, `ALIGN` and
    `PASTE`, declared in a header that is not among the sources: five different integers. -/
structure OperationCodes where
  INSERT : Int
  DELETE : Int
  CHANGE : Int
  ALIGN : Int
  PASTE : Int
  distinct : [INSERT, DELETE, CHANGE, ALIGN, PASTE].Nodup

/-- What the server code takes from outside itself. -/
structure Env where
  /-- The operation codes. -/
  codes : OperationCodes
  /-- The store. -/
  db : Database
  /-- Whether `QJsonArray::append` stores the value in the array: Qt leaves the array as it
      is when the value does not fit the array's storage. -/
  appendFits : QJsonArray → QJsonValue → Bool
  /-- The PNG bytes of a user's profile image, when the image file exists. -/
  profileImage : QString → Option QByteArray

/-- Modelled from the spec: a session (`ServerWorker`, whose implementation file is not among
    the sources) as the three strings its getters and setters read and write. -/
structure ServerWorker where
  username : QString
  nickname : QString
  filename : QString
  deriving DecidableEq, Repr

/-- What a handler hands to the sessions and to the store, in call order. -/
inductive Event where
  /-- The call `sendJson(destination, message)`. -/
  | sendJson (destination : Nat) (message : QJsonObject)
  /-- The call `sendByteArray(destination, toSend)`. -/
  | sendByteArray (destination : Nat) (toSend : QByteArray)
  /-- The call `db.saveFile(filename, data)`. -/
  | dbSaveFile (filename : QString) (data : QByteArray)

/-- The state of the `Server` object; a `ServerWorker *` is a natural number and `workers`
    gives the object behind it. -/
structure Server where
  m_idealThreadCount : Nat
  m_threadsLoad : List Int
  /-- The number of threads in the pool `m_availableThreads`; the load of each is in
      `m_threadsLoad`, which grows together with the pool. -/
  m_availableThreads : Nat := m_threadsLoad.length
  m_clients : List Nat
  workers : Nat → ServerWorker
  mapFileWorkers : QMap QString (List Nat)
  symbols_list : QMap QString (QMap QString QJsonObject)
  changed : QMap QString Bool

namespace Server

/-- The call `sender->setUsername(username)`. -/
def setUsername (st : Server) (w : Nat) (s : QString) : Server :=
  { st with workers := Function.update st.workers w { st.workers w with username := s } }

/-- The call `sender->setNickname(nickname)`. -/
def setNickname (st : Server) (w : Nat) (s : QString) : Server :=
  { st with workers := Function.update st.workers w { st.workers w with nickname := s } }

/-- The call `sender->setFilename(filename)`. -/
def setFilename (st : Server) (w : Nat) (s : QString) : Server :=
  { st with workers := Function.update st.workers w { st.workers w with filename := s } }

/-- Modelled from the spec: `sender->closeFile()`, file-open becomes authenticated/no-file,
    so the session is bound to no file afterwards. -/
def closeWorkerFile (st : Server) (w : Nat) : Server := st.setFilename w []

end Server

/-- A response that reports a failure: `success` false and the reason. -/
def failure (message : QJsonObject) (reason : String) : QJsonObject :=
  (message.set "success" (.bool false)).set "reason" (.string (QLatin1String reason))

/-- A new response object with its `type`. -/
def response (type : String) : QJsonObject :=
  QJsonObject.set [] "type" (.string (QLatin1String type))

/-! ## Framing and sending -/

/-- The member function `Server::createByteArrayJsonImage`. -/
def createByteArrayJsonImage (message : QJsonObject) (v : List QByteArray) : QByteArray :=
  let byte_array := toJson message
  let size_json := byte_array.length % 2 ^ 32
  let ba := quint32Bytes size_json ++ byte_array
  let ba := if v.length = 0 then ba ++ quint32Bytes 0 else ba
  v.foldl (fun ba a =>
    let size_img := a.length % 2 ^ 32
    let p := quint32Bytes size_img
    let p := if size_img ≠ 0 then p ++ a else p
    ba ++ p) ba

/-- The member function `Server::broadcast`: `none` when no session list is registered under the sender's file
    (the null pointer is dereferenced). -/
def broadcast (st : Server) (message : QJsonObject) (exclude : Nat) : Option (List Event) :=
  let filename := (st.workers exclude).filename
  match st.mapFileWorkers.find filename with
  | none => none
  | some active_clients =>
    some (active_clients.flatMap fun worker =>
      if worker = exclude then [] else [Event.sendJson worker message])

/-- The member function `Server::broadcastByteArray`. -/
def broadcastByteArray (st : Server) (message : QJsonObject) (bArray : QByteArray)
    (exclude : Nat) : Option (List Event) :=
  let byte_array := toJson message
  let size_json := byte_array.length % 2 ^ 32
  let ba := quint32Bytes size_json ++ byte_array
  let ba :=
    if bArray.length ≠ 0 then ba ++ (quint32Bytes (bArray.length % 2 ^ 32) ++ bArray)
    else ba ++ quint32Bytes 0
  let filename := (st.workers exclude).filename
  match st.mapFileWorkers.find filename with
  | none => none
  | some active_clients =>
    some (active_clients.flatMap fun worker =>
      if worker = exclude then [] else [Event.sendByteArray worker ba])

/-! ## Accounts -/

/-- The member function `Server::checkAlreadyExistingUsername`; `none` where the function ends without a
    `return`. -/
def checkAlreadyExistingUsername (env : Env) (doc : QJsonObject) : Option QJsonObject :=
  let user := doc.value "username"
  let message := response "check_username"
  if user.isNull || !user.isString then some (failure message "Wrong username format")
  else
    let username := simplified user.toQString
    if username.isEmpty then some (failure message "Empty username")
    else
      let result := env.db.checkAlreadyExistingUsername username
      if result = .CONNECTION_ERROR ∨ result = .QUERY_ERROR then
        some (failure message "Database error")
      else if result = .ALREADY_EXISTING_USER then
        some ((((message.set "success" (.bool false)).set "username" (.string username)).set
          "reason" (.string (QLatin1String "The username already exists"))))
      else if result = .SUCCESS then
        some ((message.set "success" (.bool true)).set "username" (.string username))
      else none

/-- The member function `Server::checkCredentials`. -/
def checkCredentials (env : Env) (st : Server) (sender : Nat) (doc : QJsonObject) :
    Server × QJsonObject :=
  let user := doc.value "username"
  let message := response "login"
  if user.isNull || !user.isString then (st, failure message "Wrong username format")
  else
    let username := simplified user.toQString
    if username.isEmpty then (st, failure message "Empty email")
    else if st.m_clients.any (fun client => (st.workers client).username = username) then
      (st, failure message "Already connected from another device")
    else
      let pass := doc.value "password"
      if pass.isNull || !pass.isString then (st, failure message "Wrong password format")
      else
        let password := simplified pass.toQString
        if password.isEmpty then (st, failure message "Empty password")
        else
          let r := env.db.login username password
          if r.1 = .SUCCESS then
            ((st.setUsername sender username).setNickname sender r.2,
              ((message.set "success" (.bool true)).set "username" (.string username)).set
                "nickname" (.string r.2))
          else if r.1 = .NON_EXISTING_USER then
            (st, failure message "Invalid username and/or password")
          else if r.1 = .WRONG_PASSWORD then
            (st, failure message "Invalid username and/or password")
          else (st, failure message "Database error")

/-- The member function `Server::jsonFromLoggedOut`. -/
def jsonFromLoggedOut (env : Env) (st : Server) (sender : Nat) (docObj : QJsonObject) :
    Option (Server × List Event) :=
  let typeVal := docObj.value "type"
  if typeVal.isNull || !typeVal.isString then some (st, [])
  else if compareCI typeVal.toQString "login" then
    let r := checkCredentials env st sender docObj
    let tmp : List QByteArray :=
      if (r.2.value "success").isTrue then
        match env.profileImage (r.1.workers sender).username with
        | some bArray => [bArray]
        | none => []
      else []
    some (r.1, [Event.sendByteArray sender (createByteArrayJsonImage r.2 tmp)])
  else if compareCI typeVal.toQString "check_username" then
    (checkAlreadyExistingUsername env docObj).map fun message =>
      (st, [Event.sendJson sender message])
  else some (st, [])

/-- The member function `Server::updateNick`. -/
def updateNick (env : Env) (st : Server) (sender : Nat) (doc : QJsonObject) :
    Server × QJsonObject :=
  let user := doc.value "username"
  let message := response "nickname"
  if user.isNull || !user.isString then (st, failure message "Wrong username format")
  else
    let username := simplified user.toQString
    if username.isEmpty then (st, failure message "Empty email")
    else
      let nick := doc.value "nickname"
      if nick.isNull || !nick.isString then (st, failure message "Wrong nickname format")
      else
        let nickname := simplified nick.toQString
        if nickname.isEmpty then (st, failure message "Empty nickname")
        else
          let st := st.setNickname sender nickname
          let result := env.db.updateNickname username nickname
          if result = .CONNECTION_ERROR ∨ result = .QUERY_ERROR then
            (st, failure message "Database error")
          else if result = .NON_EXISTING_USER then
            (st, failure message "The username doens't exists")
          else (st, message.set "success" (.bool true))

/-- The member function `Server::updatePass`. -/
def updatePass (env : Env) (doc : QJsonObject) : QJsonObject :=
  let user := doc.value "username"
  let message := response "password"
  if user.isNull || !user.isString then failure message "Wrong username format"
  else
    let username := simplified user.toQString
    if username.isEmpty then failure message "Empty email"
    else
      let oldpass := doc.value "oldpass"
      if oldpass.isNull || !oldpass.isString then failure message "Wrong old password format"
      else
        let oldpassword := simplified oldpass.toQString
        if oldpassword.isEmpty then failure message "Empty old password"
        else
          let newpass := doc.value "newpass"
          if newpass.isNull || !newpass.isString then
            failure message "Wrong new password format"
          else
            let newpassword := simplified newpass.toQString
            if newpassword.isEmpty then failure message "Empty new password"
            else
              let result := env.db.updatePassword username oldpassword newpassword
              if result = .NON_EXISTING_USER then
                failure message "No account found for this username"
              else if result = .WRONG_PASSWORD then failure message "Wrong password"
              else message.set "success" (.bool true)

/-- The member function `Server::checkOldPass`. -/
def checkOldPass (env : Env) (doc : QJsonObject) : QJsonObject :=
  let message := response "old_password_checked"
  let user := doc.value "username"
  if user.isNull || !user.isString then failure message "Wrong username format"
  else
    let username := simplified user.toQString
    if username.isEmpty then failure message "Empty email"
    else
      let old_pass := doc.value "old_password"
      if old_pass.isNull || !old_pass.isString then failure message "Wrong password format"
      else
        let old_password := simplified old_pass.toQString
        if old_password.isEmpty then failure message "Empty password"
        else
          let result := env.db.checkOldPassword username old_password
          if result = .CONNECTION_ERROR ∨ result = .QUERY_ERROR then
            failure message "Database error"
          else if result = .NON_EXISTING_USER then
            failure message "The username doens't exists"
          else if result = .WRONG_PASSWORD then failure message "Wrong password"
          else message.set "success" (.bool true)

/-- The member function `Server::getFiles`. -/
def getFiles (env : Env) (doc : QJsonObject) (shared : Bool) : QJsonObject :=
  let user := doc.value "username"
  let message := response "list_files"
  if user.isNull || !user.isString then failure message "Wrong username format"
  else
    let username := simplified user.toQString
    if username.isEmpty then failure message "Empty username"
    else
      let r := env.db.getFiles username shared
      if r.1 = .CONNECTION_ERROR ∨ r.1 = .QUERY_ERROR then failure message "Database error."
      else if r.1 = .NO_FILES_AVAILABLE then failure message "You don't have files yet."
      else
        let array_files : QJsonArray := r.2.map fun i =>
          QJsonValue.object
            ((QJsonObject.set [] "name" (.string i.1)).set "owner" (.string i.2))
        ((message.set "shared" (.bool shared)).set "success" (.bool true)).set "files"
          (.array array_files)

/-- The member function `Server::getFilenameFromSharedLink`. -/
def getFilenameFromSharedLink (env : Env) (doc : QJsonObject) (user : QString) : QJsonObject :=
  let message := response "filename_from_sharedLink"
  let sharedLink_json := doc.value "sharedLink"
  if sharedLink_json.isNull || !sharedLink_json.isString then
    failure message "Wrong shared link format"
  else
    let sharedLink := simplified sharedLink_json.toQString
    if sharedLink.isEmpty then failure message "Empty shared link"
    else
      let r := env.db.getFilenameFromSharedLink sharedLink user
      if r.1 = .CONNECTION_ERROR ∨ r.1 = .QUERY_ERROR then failure message "Database error."
      else if r.1 = .NON_EXISTING_FILE then
        failure message "No file corresponding to shared link."
      else (message.set "success" (.bool true)).set "filename" (.string r.2)

/-! ## Operations on the symbols of a file -/

/-- The member function `Server::fromJsonArraytoString`: the indented JSON text of the array. -/
def fromJsonArraytoString (data : QJsonArray) : QString := arrayToJson data

/-- The key under which the server files a symbol: the text of its `position`. -/
def positionKey (symbol : QJsonObject) : QString :=
  fromJsonArraytoString (symbol.value "position").toArray

/-- The branches of the operation handler of `Server::jsonFromLoggedIn` (INSERT, DELETE,
    CHANGE, ALIGN, PASTE) on the map `*symbols_list.value(sender->getFilename())`.  The local
    `symbol` is not constant, so reading `symbol["position"]` creates the member when it is
    missing, and it is this object that is filed. -/
def applyOperation (codes : OperationCodes) (m : QMap QString QJsonObject)
    (docObj : QJsonObject) : QMap QString QJsonObject :=
  let operation_type := (docObj.value "operation_type").toInt
  if operation_type = codes.INSERT then
    let symbol := (docObj.value "symbol").toObject
    m.insert (positionKey symbol) (symbol.touch "position")
  else if operation_type = codes.DELETE then
    let symbols := (docObj.value "symbols").toArray
    symbols.foldl (fun m s => m.remove (positionKey s.toObject)) m
  else if operation_type = codes.CHANGE then
    let symbol := (docObj.value "symbol").toObject
    m.insert (positionKey symbol) (symbol.touch "position")
  else if operation_type = codes.ALIGN then
    let symbol := (docObj.value "symbol").toObject
    m.insert (positionKey symbol) (symbol.touch "position")
  else if operation_type = codes.PASTE then
    let symbols := (docObj.value "symbols").toArray
    symbols.foldl (fun m s =>
      m.insert (positionKey s.toObject) (s.toObject.touch "position")) m
  else m

/-- Whether the operation handler goes through the pointer
    `symbols_list.value(sender->getFilename())` at least once. -/
def operationDereferences (codes : OperationCodes) (docObj : QJsonObject) : Bool :=
  let operation_type := (docObj.value "operation_type").toInt
  if operation_type = codes.INSERT then true
  else if operation_type = codes.DELETE then !(docObj.value "symbols").toArray.isEmpty
  else if operation_type = codes.CHANGE then true
  else if operation_type = codes.ALIGN then true
  else if operation_type = codes.PASTE then !(docObj.value "symbols").toArray.isEmpty
  else false

/-- The `operation` branch of `Server::jsonFromLoggedIn`: the symbols of the sender's file
    are updated, the file is marked dirty and the message is broadcast. -/
def handleOperation (env : Env) (st : Server) (sender : Nat) (docObj : QJsonObject) :
    Option (Server × List Event) :=
  let filename := (st.workers sender).filename
  let updated : Option Server :=
    match st.symbols_list.find filename with
    | some _ =>
      some { st with symbols_list :=
        st.symbols_list.update filename (fun m => applyOperation env.codes m docObj) }
    | none => if operationDereferences env.codes docObj then none else some st
  updated.bind fun st =>
    let st := { st with changed := st.changed.insert filename true }
    (broadcast st docObj sender).map fun events => (st, events)

/-! ## Files -/

/-- The member function `Server::createNewFile`; `none` when the exception is thrown. -/
def createNewFile (env : Env) (st : Server) (sender : Nat) (doc : QJsonObject) :
    Option (Server × QJsonObject) :=
  let message := response "new_file"
  let user := doc.value "author"
  if user.isNull || !user.isString then some (st, failure message "Wrong username format")
  else
    let username := simplified user.toQString
    if username.isEmpty then some (st, failure message "Empty username")
    else
      let name := doc.value "filename"
      if name.isNull || !name.isString then some (st, failure message "Wrong filename format")
      else
        let filename := simplified name.toQString
        if filename.isEmpty then some (st, failure message "Empty old password")
        else
          let r := env.db.newFile username filename
          if r.1 = .CONNECTION_ERROR ∨ r.1 = .QUERY_ERROR then
            some (st, failure message "Database error.")
          else if r.1 = .ALREADY_EXISTING_FILE then
            some (st, failure message
              "This file already exists. Please enter a new filename.")
          else
            let key := filename ++ QLatin1String "," ++ username
            let st := st.setFilename sender key
            if !env.db.insertNewFile filename then none
            else
              let st := { st with mapFileWorkers := st.mapFileWorkers.insert key [sender] }
              let st :=
                if !st.symbols_list.contains (st.workers sender).filename then
                  { st with
                    symbols_list := st.symbols_list.insert (st.workers sender).filename QMap.empty
                    changed := st.changed.insert (st.workers sender).filename true }
                else st
              some (st, (message.set "success" (.bool true)).set "shared_link" (.string r.2))

/-- The body of the loop of `Server::storeSymbolsServerMemory`, for one symbol. -/
def storeSymbol (sender : Nat) (st : Server) (symbol : QJsonObject) : Server :=
  let position := positionKey symbol
  let filename := (st.workers sender).filename
  let st :=
    if !st.symbols_list.contains filename then
      { st with symbols_list := st.symbols_list.insert filename QMap.empty }
    else st
  let st := { st with symbols_list :=
    st.symbols_list.update filename (fun m => m.insert position symbol) }
  { st with changed := st.changed.insert filename false }

/-- The member function `Server::storeSymbolsServerMemory`. -/
def storeSymbolsServerMemory (st : Server) (sender : Nat) (array : List QJsonObject) : Server :=
  array.foldl (storeSymbol sender) st

/-- The `for` loop of `Server::sendFile` that fills one batch: `n` symbols are left before the
    loop bound, `i` is the loop index.  The result is the batch, the index at which the loop
    stopped and whether it stopped at the `break` (the append left the array as it was);
    `none` when `l[i]` is read past the end of `l`. -/
def fillBatch (env : Env) (l : List QJsonObject) :
    Nat → Nat → QJsonArray → Option (QJsonArray × Nat × Bool)
  | 0, i, symbols => some (symbols, i, false)
  | n + 1, i, symbols =>
    match l[i]? with
    | none => none
    | some o =>
      if env.appendFits symbols (.object o) then
        fillBatch env l n (i + 1) (symbols ++ [.object o])
      else some (symbols, i, true)

/-- The `while (cont && success)` loop of `Server::sendFile`, entered with `cont` true: the
    responses it sends, in order.  `bound` is `symbols_list.value(filename)->values().size()`.
    The loop leaves `start` unchanged only when nothing else changes either, so that it would
    repeat the same iteration for ever: the result is then `none`.  `fuel` bounds the number
    of iterations. -/
def sendRemaining (env : Env) (l : List QJsonObject) (filename : QString) (tot_symbols : Nat)
    (bound : Nat) : Nat → Nat → Option (List QJsonObject)
  | 0, _ => none
  | fuel + 1, start =>
    match fillBatch env l (bound - start) start [] with
    | none => none
    | some (symbols, i, stopped) =>
      let message := (((response "file_to_open").set "success" (.bool true)).set "filename"
        (.string filename)).set "tot_symbols" (.double tot_symbols)
      let message := message.set "content" (.array symbols)
      if i = bound then some [message]
      else if stopped ∧ i ≠ start then
        (sendRemaining env l filename tot_symbols bound fuel i).map fun rest => message :: rest
      else none

/-- The users part of `Server::sendFile`: for every session of the file with another
    username than the sender's, its entry in `users` and its image (empty when it has none). -/
def connectedUsers (env : Env) (st : Server) (sender : Nat) (list : List Nat) :
    QJsonArray × List QByteArray :=
  list.foldl (fun acc i =>
    if (st.workers sender).username = (st.workers i).username then acc
    else
      let data := (QJsonObject.set [] "username" (.string (st.workers i).username)).set
        "nickname" (.string (st.workers i).nickname)
      (acc.1 ++ [QJsonValue.object data],
        acc.2 ++ [(env.profileImage (st.workers i).username).getD []])) ([], [])

/-- The part of `Server::sendFile` that binds the session to the file and registers it in
    the session list of the file. -/
def registerSession (st : Server) (sender : Nat) (filename : QString) : Server :=
  let st := st.setFilename sender filename
  if st.mapFileWorkers.contains filename then
    { st with mapFileWorkers := st.mapFileWorkers.update filename (fun c => c ++ [sender]) }
  else { st with mapFileWorkers := st.mapFileWorkers.insert filename [sender] }

/-- The part of `Server::sendFile` that finds the symbols to serve: the values of the file's
    map when the server holds one, else what the store provides, which is then stored in
    memory.  The result is the state, `success` and the list `l`. -/
def loadSymbols (env : Env) (st : Server) (sender : Nat) (filename : QString) :
    Server × Bool × List QJsonObject :=
  match st.symbols_list.find filename with
  | some m => (st, true, m.values)
  | none =>
    let r := env.db.retrieveFile filename
    (storeSymbolsServerMemory st sender r.2, r.1, r.2)

/-- The part of `Server::sendFile` that builds the responses: the first one, which goes out
    with the images `v`, and those of the `while` loop, which go out with no blob.  `table`
    is `symbols_list.value(filename)`, read by the `while` loop only. -/
def snapshotFrames (env : Env) (filename : QString) (users : QJsonArray) (v : List QByteArray)
    (sharedLink : QString) (success : Bool) (l : List QJsonObject)
    (table : Option (QMap QString QJsonObject)) : Option (List (QJsonObject × List QByteArray)) :=
  let tot_symbols := l.length
  match fillBatch env l l.length 0 [] with
  | none => none
  | some (symbols, start, cont) =>
    let message :=
      if success then
        (((((((response "file_to_open").set "success" (.bool true)).set "content"
          (.array symbols)).set "filename" (.string filename)).set "tot_symbols"
          (.double tot_symbols)).set "info" (.bool true)).set "users" (.array users)).set
          "shared_link" (.string sharedLink)
      else failure (response "file_to_open") "File content different form json array"
    if cont ∧ success then
      match table with
      | none => none
      | some m =>
        (sendRemaining env l filename tot_symbols m.values.length (l.length + 1) start).map
          fun more => (message, v) :: more.map fun msg => (msg, [])
    else some [(message, v)]

/-- The member function `Server::sendFile`: the state afterwards, what was sent, and the returned response. -/
def sendFile (env : Env) (st : Server) (sender : Nat) (doc : QJsonObject) :
    Option (Server × List Event × QJsonObject) :=
  let message := response "file_to_open"
  let name := doc.value "filename"
  if name.isNull || !name.isString then
    let message := failure message "Wrong filename format"
    some (st, [Event.sendByteArray sender (createByteArrayJsonImage message [])], message)
  else
    let filename := simplified name.toQString
    if filename.isEmpty then
      let message := failure message "Empty filename"
      some (st, [Event.sendByteArray sender (createByteArrayJsonImage message [])], message)
    else
      let pos := lastIndexOf filename 44
      let file := left filename pos
      let author := right filename ((filename.length : Int) - pos - 1)
      let st := registerSession st sender filename
      let list := (st.mapFileWorkers.find filename).getD []
      let users := connectedUsers env st sender list
      let loaded := loadSymbols env st sender filename
      let st := loaded.1
      let sharedLink := env.db.getSharedLink author file
      match snapshotFrames env filename users.1 users.2 sharedLink loaded.2.1 loaded.2.2
          (st.symbols_list.find filename) with
      | none => none
      | some frames =>
        let sent := frames.map fun f =>
          Event.sendByteArray sender (createByteArrayJsonImage f.1 f.2)
        let message := (frames.getLast?.map Prod.fst).getD message
        let message_broadcast := (((response "connection").set "filename"
          (.string filename)).set "username" (.string (st.workers sender).username)).set
          "nickname" (.string (st.workers sender).nickname)
        let bArray := (env.profileImage (st.workers sender).username).getD []
        match broadcastByteArray st message_broadcast bArray sender with
        | none => none
        | some notices => some (st, sent ++ notices, message)

/-- The output `QDataStream << QVector<QByteArray>`: the count, then each array after its size. -/
def streamQVector (qvector : List QByteArray) : QByteArray :=
  streamUInt32 qvector.length ++ qvector.flatMap fun a => streamUInt32 a.length ++ a

/-- The member function `Server::saveFile`. -/
def saveFile (st : Server) : Server × List Event :=
  st.symbols_list.keys.foldl (fun acc filename =>
    let st := acc.1
    let events :=
      if (st.changed.find filename).getD false = true then
        let qvector := (((st.symbols_list.find filename).map QMap.values).getD []).map toJson
        acc.2 ++ [Event.dbSaveFile filename (streamQVector qvector)]
      else acc.2
    ({ st with changed := st.changed.insert filename false }, events)) (st, [])

/-- The member function `Server::udpateSymbolListAndCommunicateDisconnection`. -/
def udpateSymbolListAndCommunicateDisconnection (st : Server) (filename : QString)
    (sender : Nat) : Option (Server × List Event × Bool) :=
  match st.mapFileWorkers.find filename with
  | none => some (st, [], false)
  | some clients =>
    if sender ∉ clients then some (st, [], false)
    else
      let st := { st with mapFileWorkers :=
        st.mapFileWorkers.update filename (fun c => c.erase sender) }
      if (clients.erase sender).isEmpty then
        let st := { st with mapFileWorkers := st.mapFileWorkers.remove filename }
        let saved := saveFile st
        let st := saved.1
        some ({ st with
          symbols_list := st.symbols_list.remove (st.workers sender).filename
          changed := st.changed.remove (st.workers sender).filename }, saved.2, true)
      else
        let message_broadcast := ((((QJsonObject.set [] "type"
          (.string (QLatin1String "disconnection"))).set "filename" (.string filename)).set
          "user" (.string (st.workers sender).username)).set "nickname"
          (.string (st.workers sender).nickname))
        (broadcast st message_broadcast sender).map fun events => (st, events, true)

/-- The member function `Server::closeFile`. -/
def closeFile (st : Server) (sender : Nat) (doc : QJsonObject) :
    Option (Server × List Event × QJsonObject) :=
  let message := response "close"
  let name := doc.value "filename"
  if name.isNull || !name.isString then some (st, [], failure message "Wrong filename format")
  else
    let filename := simplified name.toQString
    if filename.isEmpty then some (st, [], failure message "Empty old password")
    else
      let user := doc.value "username"
      if user.isNull || !user.isString then
        some (st, [], failure message "Wrong username format")
      else
        let username := simplified user.toQString
        if username.isEmpty then some (st, [], failure message "Empty username")
        else
          let nick := doc.value "nickname"
          if nick.isNull || !nick.isString then
            some (st, [], failure message "Wrong nickname format")
          else
            let nickname := simplified nick.toQString
            if nickname.isEmpty then some (st, [], failure message "Empty nickname")
            else
              (udpateSymbolListAndCommunicateDisconnection st filename sender).map fun r =>
                if !r.2.2 then (r.1, r.2.1, failure message "File not exist")
                else (r.1.closeWorkerFile sender, r.2.1, message.set "success" (.bool true))

/-- One `if (type == ...)` of `Server::jsonFromLoggedIn`: when the test holds, `f` runs on the
    state reached so far and what it sends comes after what was sent before. -/
def branch (c : Bool) (f : Server → Option (Server × List Event))
    (r : Option (Server × List Event)) : Option (Server × List Event) :=
  r.bind fun p => if c then (f p.1).map fun q => (q.1, p.2 ++ q.2) else some p

/-- The member function `Server::jsonFromLoggedIn`. -/
def jsonFromLoggedIn (env : Env) (st : Server) (sender : Nat) (docObj : QJsonObject) :
    Option (Server × List Event) :=
  let typeVal := docObj.value "type"
  if typeVal.isNull || !typeVal.isString then some (st, [])
  else
    let type := typeVal.toQString
    some (st, [])
    |> branch (compareCI type "nickname") (fun st =>
        let r := updateNick env st sender docObj
        some (r.1, [Event.sendJson sender r.2]))
    |> branch (compareCI type "password") (fun st =>
        some (st, [Event.sendJson sender (updatePass env docObj)]))
    |> branch (compareCI type "check_old_password") (fun st =>
        some (st, [Event.sendJson sender (checkOldPass env docObj)]))
    |> branch (compareCI type "list_files") (fun st =>
        some (st, [Event.sendJson sender (getFiles env docObj false)]))
    |> branch (compareCI type "list_shared_files") (fun st =>
        some (st, [Event.sendJson sender (getFiles env docObj true)]))
    |> branch (compareCI type "operation") (fun st => handleOperation env st sender docObj)
    |> branch (compareCI type "new_file") (fun st =>
        (createNewFile env st sender docObj).map fun r =>
          (r.1, [Event.sendJson sender r.2]))
    |> branch (compareCI type "file_to_open") (fun st =>
        (sendFile env st sender docObj).map fun r => (r.1, r.2.1))
    |> branch (compareCI type "close") (fun st =>
        (closeFile st sender docObj).map fun r =>
          (r.1, r.2.1 ++ [Event.sendJson sender r.2.2]))
    |> branch (compareCI type "filename_from_sharedLink") (fun st =>
        some (st, [Event.sendJson sender
          (getFilenameFromSharedLink env docObj (st.workers sender).username)]))

/-- The member function `Server::jsonReceived`. -/
def jsonReceived (env : Env) (st : Server) (sender : Nat) (json : QJsonObject) :
    Option (Server × List Event) :=
  if (st.workers sender).nickname.isEmpty then jsonFromLoggedOut env st sender json
  else jsonFromLoggedIn env st sender json

/-! ## Sample data -/

/-- Sample operation codes. -/
def sampleCodes : OperationCodes := ⟨0, 1, 2, 3, 4, by decide⟩

/-- A sample store: it knows no user and no file. -/
def sampleDatabase : Database where
  checkAlreadyExistingUsername _ := .SUCCESS
  login _ _ := (.NON_EXISTING_USER, [])
  updateNickname _ _ := .SUCCESS
  updatePassword _ _ _ := .SUCCESS
  checkOldPassword _ _ := .SUCCESS
  getFiles _ _ := (.NO_FILES_AVAILABLE, [])
  getFilenameFromSharedLink _ _ := (.NON_EXISTING_FILE, [])
  newFile _ _ := (.SUCCESS, [])
  insertNewFile _ := true
  retrieveFile _ := (true, [])
  getSharedLink _ _ := []

/-- A sample environment: every append is stored and no user has a profile image. -/
def sampleEnv : Env where
  codes := sampleCodes
  db := sampleDatabase
  appendFits _ _ := true
  profileImage _ := none

/-- The position `[[level, site]]` as a JSON value. -/
def samplePosition (level site : Int) : QJsonValue :=
  .array [.array [.double level, .double site]]

/-- A sample symbol: a position and a colour. -/
def sampleSymbol (level site color : Int) : QJsonObject :=
  (QJsonObject.set [] "position" (samplePosition level site)).set "color" (.double color)

/-- A sample operation message about one symbol. -/
def sampleOperation (operation_type : Int) (symbol : QJsonObject) : QJsonObject :=
  ((QJsonObject.set [] "type" (.string (QLatin1String "operation"))).set "operation_type"
    (.double operation_type)).set "symbol" (.object symbol)

/-- A sample erase message about one symbol. -/
def sampleErase (symbol : QJsonObject) : QJsonObject :=
  ((QJsonObject.set [] "type" (.string (QLatin1String "operation"))).set "operation_type"
    (.double 1)).set "symbols" (.array [.object symbol])

/-- The file key of the sample file. -/
def sampleFile : QString := QLatin1String "notes,ann"

/-- A sample server state: sessions 1 and 2 work on the sample file, which holds no symbol,
    session 3 works on another file and session 0 has not logged in. -/
def sampleServer : Server where
  m_idealThreadCount := 1
  m_threadsLoad := [4]
  m_clients := [0, 1, 2, 3]
  workers w :=
    if w = 1 then ⟨QLatin1String "ann", QLatin1String "Ann", sampleFile⟩
    else if w = 2 then ⟨QLatin1String "bob", QLatin1String "Bob", sampleFile⟩
    else if w = 3 then ⟨QLatin1String "eve", QLatin1String "Eve", QLatin1String "todo,eve"⟩
    else ⟨[], [], []⟩
  mapFileWorkers := (QMap.empty.insert sampleFile [1, 2]).insert (QLatin1String "todo,eve") [3]
  symbols_list := (QMap.empty.insert sampleFile QMap.empty).insert (QLatin1String "todo,eve")
    QMap.empty
  changed := (QMap.empty.insert sampleFile false).insert (QLatin1String "todo,eve") false

/-- The server handling the messages it receives, one after the other in receipt order;
    each message comes with the session it was received from. -/
def receiveAll (env : Env) (st : Server) : List (Nat × QJsonObject) → Option (Server × List Event)
  | [] => some (st, [])
  | (sender, json) :: rest =>
    (jsonReceived env st sender json).bind fun r =>
      (receiveAll env r.1 rest).map fun r' => (r'.1, r.2 ++ r'.2)

/-- Two sample symbols filed under their positions. -/
def sampleSymbols : QMap QString QJsonObject :=
  (QMap.empty.insert (positionKey (sampleSymbol 1 1 7)) (sampleSymbol 1 1 7)).insert
    (positionKey (sampleSymbol 2 1 8)) (sampleSymbol 2 1 8)

/-- The sample server state with two symbols in the sample file. -/
def sampleServerWithSymbols : Server :=
  { sampleServer with
    symbols_list := (QMap.empty.insert sampleFile sampleSymbols).insert
      (QLatin1String "todo,eve") QMap.empty }

/-- A sample request to open the sample file. -/
def sampleOpen : QJsonObject :=
  (QJsonObject.set [] "type" (.string (QLatin1String "file_to_open"))).set "filename"
    (.string sampleFile)

/-- A sample request of user `ann` to create the file `notes`. -/
def sampleNewFile : QJsonObject :=
  ((QJsonObject.set [] "type" (.string (QLatin1String "new_file"))).set "filename"
    (.string (QLatin1String "notes"))).set "author" (.string (QLatin1String "ann"))

/-- A sample request of user `ann` to close the sample file. -/
def sampleClose : QJsonObject :=
  (((QJsonObject.set [] "type" (.string (QLatin1String "close"))).set "filename"
    (.string sampleFile)).set "username" (.string (QLatin1String "ann"))).set "nickname"
    (.string (QLatin1String "Ann"))

/-- A sample server state with one logged-in session, 1, and no open file. -/
def freshServer : Server where
  m_idealThreadCount := 1
  m_threadsLoad := [1]
  m_clients := [1]
  workers w := if w = 1 then ⟨QLatin1String "ann", QLatin1String "Ann", []⟩ else ⟨[], [], []⟩
  mapFileWorkers := QMap.empty
  symbols_list := QMap.empty
  changed := QMap.empty

/-- The store calls among the events: the file name and the data of each `db.saveFile`. -/
def savedFiles : List Event → List (QString × QByteArray)
  | [] => []
  | Event.dbSaveFile filename data :: rest => (filename, data) :: savedFiles rest
  | _ :: rest => savedFiles rest

/-! ## Identifiers -/

/-- Modelled from the spec: an Identifier (the CRDT classes are not among the sources), a
    sequence of `(level, site)` pairs of integers. -/
abbrev Identifier := List (Int × Int)

namespace Identifier

/-- Modelled from the spec: the comparison of Identifiers, which the CRDT classes (not among
    the sources) implement: lexicographically component by component, then by length, the
    shorter one first. -/
def lt : Identifier → Identifier → Bool
  | [], [] => false
  | [], _ :: _ => true
  | _ :: _, [] => false
  | x :: ta, y :: tb =>
    if x.1 < y.1 then true
    else if y.1 < x.1 then false
    else if x.2 < y.2 then true
    else if y.2 < x.2 then false
    else lt ta tb

/-- Modelled from the spec: the serialized position of an Identifier (written by the client,
    whose serializer is not among the sources): its component sequence, each component as
    the array of its level and its site. -/
def toPosition (a : Identifier) : QJsonArray :=
  a.map fun c => QJsonValue.array [.double c.1, .double c.2]

/-- The key under which the server files a symbol with this Identifier. -/
def key (a : Identifier) : QString := fromJsonArraytoString a.toPosition

/-- Every level is a non-negative number of `d1` decimal digits and every site a non-negative
    number of `d2` decimal digits. -/
def SameDigits (d1 d2 : Nat) (a : Identifier) : Prop :=
  ∀ c ∈ a, 0 ≤ c.1 ∧ 0 ≤ c.2 ∧ (decimal c.1.natAbs).length = d1 ∧
    (decimal c.2.natAbs).length = d2

end Identifier

/-- The text of one component in a key, for a level and a site that are not negative. -/
def componentText (c : Int × Int) : QString :=
  (spaces 4 ++ [91, 10] ++ spaces 8) ++ (decimal c.1.natAbs ++ (([44, 10] ++ spaces 8)
    ++ (decimal c.2.natAbs ++ ([10] ++ spaces 4 ++ [93]))))

/-- The text of a key from its first component on. -/
def keyFrom : Identifier → QString
  | [] => []
  | [c] => componentText c ++ [10, 93, 10]
  | c :: d :: t => componentText c ++ ([44, 10] ++ keyFrom (d :: t))

/-- What follows the text of a component in a key: the end of the array after the last
    component, a comma and the next components otherwise. -/
def keyRest : Identifier → QString
  | [] => [10, 93, 10]
  | d :: t => [44, 10] ++ keyFrom (d :: t)

/-- The position keys that the operation handler writes (files or removes) for a message. -/
def operationKeys (codes : OperationCodes) (docObj : QJsonObject) : List QString :=
  let operation_type := (docObj.value "operation_type").toInt
  if operation_type = codes.INSERT then [positionKey (docObj.value "symbol").toObject]
  else if operation_type = codes.DELETE then
    (docObj.value "symbols").toArray.map fun s => positionKey s.toObject
  else if operation_type = codes.CHANGE then [positionKey (docObj.value "symbol").toObject]
  else if operation_type = codes.ALIGN then [positionKey (docObj.value "symbol").toObject]
  else if operation_type = codes.PASTE then
    (docObj.value "symbols").toArray.map fun s => positionKey s.toObject
  else []

/-- The operation handler's effect on a file's map for a sequence of received messages. -/
def applyOperations (codes : OperationCodes) (m : QMap QString QJsonObject)
    (msgs : List (Nat × QJsonObject)) : QMap QString QJsonObject :=
  msgs.foldl (fun m x => applyOperation codes m x.2) m

/-- Whether the array `acc` takes the values of a list when they are appended one after the
    other. -/
def acceptedFrom (env : Env) : QJsonArray → QJsonArray → Bool
  | _, [] => true
  | acc, x :: t => env.appendFits acc x && acceptedFrom env (acc ++ [x]) t

/-- The serialized size of a batch: the number of bytes of `QJsonDocument(batch).toJson()`. -/
def batchSize (batch : QJsonArray) : Nat := (toUtf8 (arrayToJson batch)).length

/-! ## Leaving a file, signing up -/

/-- The member function `Server::userDisconnected`; `none` when `threadIdx` is no index of
    `m_threadsLoad`.  The session object is deleted later (`deleteLater`): its strings stay
    as they are. -/
def userDisconnected (st : Server) (sender : Nat) (threadIdx : Nat) :
    Option (Server × List Event) :=
  match st.m_threadsLoad[threadIdx]? with
  | none => none
  | some load =>
    let st := { st with
      m_threadsLoad := st.m_threadsLoad.set threadIdx (load - 1)
      m_clients := st.m_clients.filter (fun client => client ≠ sender) }
    if !(st.workers sender).filename.isEmpty then
      (udpateSymbolListAndCommunicateDisconnection st (st.workers sender).filename sender).map
        fun r => (r.1, r.2.1)
    else some (st, [])

/-- The call `QByteArray::mid(pos, len)` for a position that is not negative; the length is
    compared as an unsigned number, so that a negative `int` stands for the rest. -/
def mid (b : QByteArray) (pos len : Nat) : QByteArray := (b.drop pos).take len

/-- The image part of `Server::signup_updateImage`: the image that is written, as the
    username of its path and the bytes it is loaded from; `none` when no image is written.
    The position `4 + size` is computed as a `quint32` and passed as an `int`; for a negative
    position and length `mid` gives the whole array. -/
def receivedImage (json_data : QByteArray) (size : Nat) (username : QString) :
    Option (QString × QByteArray) :=
  let pos := (4 + size) % 2 ^ 32
  let image_array := if pos < 2 ^ 31 then mid json_data pos (2 ^ 32 - 1) else json_data
  let img_size := qFromLittleEndian (left image_array 4)
  if img_size ≠ 0 then some (username, mid image_array 4 img_size) else none

/-- The end of `Server::signup_updateImage`, reached when no check has returned before: the
    image is written and a `signup` request is answered. -/
def signupDone (sender : Nat) (json_data : QByteArray) (size : Nat) (message : QJsonObject)
    (username typeValS : QString) : List Event × Option (QString × QByteArray) :=
  (if compareCI typeValS "signup" then
      [Event.sendJson sender (message.set "success" (.bool true))]
    else [],
    receivedImage json_data size username)

/-- The member function `Server::signup_updateImage`.  The argument `fromJson` is
    `QJsonDocument::fromJson` together with the test `isObject()`: `none` for a parse error
    and for a document that is no object.  The argument `signup` is the call `db.signup`.
    The result is what is sent, and the image that is written. -/
def signup_updateImage (fromJson : QByteArray → Option QJsonObject)
    (signup : QString → QString → DatabaseError) (sender : Nat) (json_data : QByteArray) :
    List Event × Option (QString × QByteArray) :=
  let message : QJsonObject := []
  let size := qFromLittleEndian (left json_data 4)
  match fromJson (mid json_data 4 size) with
  | none => ([Event.sendJson sender (failure message "JSON error")], none)
  | some docObj =>
    let typeVal := docObj.value "type"
    if typeVal.isNull || !typeVal.isString then
      ([Event.sendJson sender (failure message "Wrong format")], none)
    else
      let typeValS := typeVal.toQString
      if compareCI typeValS "signup" || compareCI typeValS "update_image" then
        let user := docObj.value "username"
        let username := simplified user.toQString
        if username.isEmpty then
          (if compareCI typeValS "signup" then
              [Event.sendJson sender (failure message "Empty email")]
            else [], none)
        else if compareCI typeValS "signup" then
          let message := response "signup"
          if user.isNull || !user.isString then
            ([Event.sendJson sender (failure message "Wrong username format")], none)
          else
            let pass := docObj.value "password"
            if pass.isNull || !pass.isString then
              ([Event.sendJson sender (failure message "Wrong password format")], none)
            else
              let password := simplified pass.toQString
              if password.isEmpty then
                ([Event.sendJson sender (failure message "Empty password")], none)
              else
                let result := signup username password
                if result = .CONNECTION_ERROR ∨ result = .QUERY_ERROR then
                  ([Event.sendJson sender (failure message "Database error")], none)
                else if result = .ALREADY_EXISTING_USER then
                  ([Event.sendJson sender (failure message "The username already exists")],
                    none)
                else signupDone sender json_data size message username typeValS
        else signupDone sender json_data size message username typeValS
      else signupDone sender json_data size message [] typeValS

/-- The call `isBool()`. -/
def QJsonValue.isBool : QJsonValue → Bool
  | .bool _ => true
  | _ => false

/-- The shape of a response: a string `type`, a boolean `success`, and a string `reason`
    when `success` is not true. -/
def wellShaped (message : QJsonObject) : Bool :=
  (message.value "type").isString && (message.value "success").isBool &&
    ((message.value "success").isTrue || (message.value "reason").isString)

/-- The messages sent as JSON among the events. -/
def sentJson : List Event → List QJsonObject
  | [] => []
  | Event.sendJson _ message :: rest => message :: sentJson rest
  | _ :: rest => sentJson rest

/-- The sessions that the events send something to, in order. -/
def destinations : List Event → List Nat
  | [] => []
  | Event.sendJson destination _ :: rest => destination :: destinations rest
  | Event.sendByteArray destination _ :: rest => destination :: destinations rest
  | _ :: rest => destinations rest

/-! ## More sample data -/

/-- A sample environment whose store provides no file: `retrieveFile` fails. -/
def missingFileEnv : Env :=
  { sampleEnv with db := { sampleDatabase with retrieveFile := fun _ => (false, []) } }

/-- A sample server state: sessions 1 and 2 have logged in and no file is open. -/
def lobbyServer : Server where
  m_idealThreadCount := 1
  m_threadsLoad := [2]
  m_clients := [1, 2]
  workers w :=
    if w = 1 then ⟨QLatin1String "ann", QLatin1String "Ann", []⟩
    else if w = 2 then ⟨QLatin1String "bob", QLatin1String "Bob", []⟩
    else ⟨[], [], []⟩
  mapFileWorkers := QMap.empty
  symbols_list := QMap.empty
  changed := QMap.empty

/-- A sample request to open a file that the store does not have. -/
def sampleOpenMissing : QJsonObject :=
  (QJsonObject.set [] "type" (.string (QLatin1String "file_to_open"))).set "filename"
    (.string (QLatin1String "ghost,ann"))

/-- A sample request to open the file `todo,eve`. -/
def sampleOpenTodo : QJsonObject :=
  (QJsonObject.set [] "type" (.string (QLatin1String "file_to_open"))).set "filename"
    (.string (QLatin1String "todo,eve"))

/-- A sample request of user `eve` to close the file `todo,eve`. -/
def sampleCloseTodo : QJsonObject :=
  (((QJsonObject.set [] "type" (.string (QLatin1String "close"))).set "filename"
    (.string (QLatin1String "todo,eve"))).set "username" (.string (QLatin1String "eve"))).set
    "nickname" (.string (QLatin1String "Eve"))

/-- A sample operation message with the code of an insertion and no `symbol`. -/
def sampleMalformed : QJsonObject :=
  (QJsonObject.set [] "type" (.string (QLatin1String "operation"))).set "operation_type"
    (.double 0)

/-- A sample `signup` request with an empty username. -/
def sampleSignup : QJsonObject :=
  ((QJsonObject.set [] "type" (.string (QLatin1String "signup"))).set "username"
    (.string [])).set "password" (.string (QLatin1String "secret"))

/-- A sample parser: it reads the text of the sample `signup` request and nothing else. -/
def sampleFromJson (json : QByteArray) : Option QJsonObject :=
  if json = toJson sampleSignup then some sampleSignup else none

/-- A frame as `signup_updateImage` receives it: the size of the JSON text, the text, and
    the size `0` of an image that is not there. -/
def sampleFrame (json : QByteArray) : QByteArray :=
  quint32Bytes json.length ++ json ++ quint32Bytes 0

/-- A sample state with a dirty file: the sample server with its two symbols, the sample
    file marked as changed. -/
def dirtyServer : Server :=
  { sampleServerWithSymbols with changed := sampleServerWithSymbols.changed.insert sampleFile true }

/-! ## Runs of file requests -/

/-- A request about files, or the end of a connection. -/
inductive Request where
  /-- The message `new_file`. -/
  | newFile (doc : QJsonObject)
  /-- The message `file_to_open`. -/
  | openFile (doc : QJsonObject)
  /-- The message `close`. -/
  | close (doc : QJsonObject)
  /-- The signal `disconnectedFromClient`, bound to `userDisconnected` with this thread index. -/
  | disconnect (threadIdx : Nat)

/-- The server serving one request of a session: the state afterwards. -/
def serve (env : Env) (st : Server) (sender : Nat) : Request → Option Server
  | .newFile doc => (createNewFile env st sender doc).map fun r => r.1
  | .openFile doc => (sendFile env st sender doc).map fun r => r.1
  | .close doc => (closeFile st sender doc).map fun r => r.1
  | .disconnect threadIdx => (userDisconnected st sender threadIdx).map fun r => r.1

/-- The server serving requests one after the other; each comes with the session it is from
    and with what the store answers while it is served. -/
def serveAll (st : Server) : List (Env × Nat × Request) → Option Server
  | [] => some st
  | (env, sender, request) :: rest => (serve env st sender request).bind fun st => serveAll st rest

/-- Whether a request opens a file for the session. -/
def Request.opens : Request → Bool
  | .newFile _ => true
  | .openFile _ => true
  | _ => false

/-- Whether every `new_file` and `file_to_open` of the run comes from a session that is
    bound to no file when the request is served. -/
def opensUnbound (st : Server) : List (Env × Nat × Request) → Bool
  | [] => true
  | (env, sender, request) :: rest =>
    (!request.opens || (st.workers sender).filename.isEmpty) &&
      match serve env st sender request with
      | none => true
      | some st => opensUnbound st rest

/-- Each session occurs in the session list of at most one file key, at most once, and that
    key is the filename of the session: every list is free of repetitions and holds only
    sessions whose filename is its key. -/
def BoundToOne (st : Server) : Prop :=
  ∀ k clients, st.mapFileWorkers.find k = some clients →
    clients.Nodup ∧ ∀ s ∈ clients, (st.workers s).filename = k

/-- A sample environment whose store accepts every login and names the user `Zoe`. -/
def loginEnv : Env :=
  { sampleEnv with
    db := { sampleDatabase with login := fun _ _ => (.SUCCESS, QLatin1String "Zoe") } }

/-- A sample `login` request of user `zoe`. -/
def sampleLogin : QJsonObject :=
  ((QJsonObject.set [] "type" (.string (QLatin1String "login"))).set "username"
    (.string (QLatin1String " zoe "))).set "password" (.string (QLatin1String "pw"))

/-- A sample run: session 1 creates the sample file, session 2 opens it, session 1 closes it
    and session 2 is disconnected. -/
def sampleRun : List (Env × Nat × Request) :=
  [(sampleEnv, 1, .newFile sampleNewFile), (sampleEnv, 2, .openFile sampleOpen),
    (sampleEnv, 1, .close sampleClose), (sampleEnv, 2, .disconnect 0)]

/-- A sample environment whose store fails: the password update returns `CONNECTION_ERROR`. -/
def brokenStoreEnv : Env :=
  { sampleEnv with
    db := { sampleDatabase with updatePassword := fun _ _ _ => .CONNECTION_ERROR } }

/-- A sample `password` request of user `ann`. -/
def samplePassword : QJsonObject :=
  (((QJsonObject.set [] "type" (.string (QLatin1String "password"))).set "username"
    (.string (QLatin1String "ann"))).set "oldpass" (.string (QLatin1String "old"))).set
    "newpass" (.string (QLatin1String "new"))

/-- A sample `change` message in the wire format of the spec: the symbol carries its
    position, a font and a colour, and no value. -/
def sampleChange : QJsonObject :=
  ((QJsonObject.set [] "type" (.string (QLatin1String "operation"))).set "operation_type"
    (.double 2)).set "symbol" (.object
      (((QJsonObject.set [] "position" (samplePosition 1 1)).set "font"
        (.string (QLatin1String "Arial"))).set "color" (.double 9)))

/-- A sample stored symbol with a value, a font and a colour. -/
def sampleStored : QJsonObject :=
  (((QJsonObject.set [] "position" (samplePosition 1 1)).set "value" (.double 97)).set "font"
    (.string (QLatin1String "Times"))).set "color" (.double 7)

/-- The sample server state with the sample stored symbol in the sample file. -/
def sampleServerWithStored : Server :=
  { sampleServer with
    symbols_list := (QMap.empty.insert sampleFile
      (QMap.empty.insert (positionKey sampleStored) sampleStored)).insert
      (QLatin1String "todo,eve") QMap.empty }

/-- Whether every entry of a symbol map is filed under the text of the position of its symbol. -/
def KeysOfPositions (m : QMap QString QJsonObject) : Prop :=
  ∀ p ∈ m.entries, p.1 = positionKey p.2

/-- Whether every entry of every file's symbol map is filed under the text of the position
    of its symbol: `k = fromJsonArraytoString(s["position"].toArray())`. -/
def KeysMatch (st : Server) : Prop :=
  ∀ e ∈ st.symbols_list.entries, KeysOfPositions e.2

/-! ## The frame that `signup_updateImage` reads -/

/-- The size of the JSON text as `signup_updateImage` reads it: the first four bytes of the frame,
    `qFromLittleEndian<qint32>(json_data.left(4))`. -/
def frameJsonSize (json_data : QByteArray) : Nat := qFromLittleEndian (left json_data 4)

/-- The JSON text as `signup_updateImage` reads it: `json_data.mid(4, size)`. -/
def frameJson (json_data : QByteArray) : QByteArray := mid json_data 4 (frameJsonSize json_data)

/-- The rest of the frame as `signup_updateImage` reads it: `json_data.mid(4 + size, -1)`. -/
def frameImageArray (json_data : QByteArray) : QByteArray :=
  let pos := (4 + frameJsonSize json_data) % 2 ^ 32
  if pos < 2 ^ 31 then mid json_data pos (2 ^ 32 - 1) else json_data

/-- The size of the image as `signup_updateImage` reads it: the first four bytes of the rest. -/
def frameImageSize (json_data : QByteArray) : Nat :=
  qFromLittleEndian (left (frameImageArray json_data) 4)

/-- The image bytes as `signup_updateImage` reads them: `image_array.mid(4, img_size)`. -/
def frameImage (json_data : QByteArray) : QByteArray :=
  mid (frameImageArray json_data) 4 (frameImageSize json_data)

/-! ## The thread pool -/

/-- The value `qMax(QThread::idealThreadCount(), 1)` that the constructor gives to
    `m_idealThreadCount`. -/
def idealThreadCount (qthreadIdeal : Int) : Nat := (max qthreadIdeal 1).toNat

/-- The state of the server after its constructor: no thread, no client, no file. -/
def newServer (qthreadIdeal : Int) : Server where
  m_idealThreadCount := idealThreadCount qthreadIdeal
  m_threadsLoad := []
  m_availableThreads := 0
  m_clients := []
  workers _ := ⟨[], [], []⟩
  mapFileWorkers := QMap.empty
  symbols_list := QMap.empty
  changed := QMap.empty

/-- The loop of `std::min_element`: `best` is the index of the smallest element so far,
    `bestVal` its value, `i` the index of the next element. -/
def minElementFrom : Nat → Int → Nat → List Int → Nat
  | best, _, _, [] => best
  | best, bestVal, i, x :: t =>
    if x < bestVal then minElementFrom i x (i + 1) t else minElementFrom best bestVal (i + 1) t

/-- The value `std::distance(v.cbegin(), std::min_element(v.cbegin(), v.cend()))`: the index
    of the first smallest element, and `0` for the empty vector. -/
def minElementIndex : List Int → Nat
  | [] => 0
  | x :: t => minElementFrom 0 x 1 t

/-- The member function `Server::incomingConnection` for the new session `worker`; `accepted` is the
    result of `setSocketDescriptor`.  The result is the state and the thread index that the
    session is bound to; `none` when a vector is indexed out of its range. -/
def incomingConnection (st : Server) (worker : Nat) (accepted : Bool) :
    Option (Server × Option Nat) :=
  if !accepted then some (st, none)
  else
    let threadIdx := st.m_availableThreads
    if threadIdx < st.m_idealThreadCount then
      let st := { st with
        m_availableThreads := st.m_availableThreads + 1
        m_threadsLoad := st.m_threadsLoad ++ [1] }
      some ({ st with m_clients := st.m_clients ++ [worker] }, some threadIdx)
    else
      let threadIdx := minElementIndex st.m_threadsLoad
      match st.m_threadsLoad[threadIdx]? with
      | none => none
      | some load =>
        let st := { st with m_threadsLoad := st.m_threadsLoad.set threadIdx (load + 1) }
        if threadIdx < st.m_availableThreads then
          some ({ st with m_clients := st.m_clients ++ [worker] }, some threadIdx)
        else none

/-- The loads of the threads that a new connection can go to: those of the pool, and load 0
    for the thread that `incomingConnection` creates when the pool is not full. -/
def poolLoads (st : Server) : List Int :=
  if st.m_availableThreads < st.m_idealThreadCount then st.m_threadsLoad ++ [0]
  else st.m_threadsLoad

/-! ## The editor: site ids -/

/-- The call `QString::toLatin1()`: a code unit that Latin-1 does not have becomes `?`. -/
def toLatin1 (s : QString) : QByteArray := s.map fun u => if u < 256 then u else 63

/-- The input `QDataStream >> int`: four bytes, the most significant first, read as a signed
    32-bit integer; `0` when the stream holds fewer than four bytes. -/
def streamInt32 : QByteArray → Int
  | b0 :: b1 :: b2 :: b3 :: _ =>
    let u := b0 % 256 * 16777216 + b1 % 256 * 65536 + b2 % 256 * 256 + b3 % 256
    if u < 2 ^ 31 then (u : Int) else (u : Int) - 2 ^ 32
  | _ => 0

/-- The member function `Editor::fromStringToIntegerHash`; `md5` is the library function
    `QCryptographicHash::hash(·, QCryptographicHash::Md5)`. -/
def fromStringToIntegerHash (md5 : QByteArray → QByteArray) (str : QString) : Int :=
  streamInt32 (md5 (toLatin1 str))

/-- What the site id of an `Editor` depends on and goes to: the username of its client
    (`client->getUsername()`), the id of its CRDT (`crdt->setId`) and the local site of its
    highlighter (`highlighter->addLocal`). -/
structure Editor where
  username : QString
  crdtId : Int
  highlighterLocal : Option Int
  deriving DecidableEq, Repr

/-- The slot that the constructor of `Editor` connects to `Client::loggedIn`. -/
def Editor.loggedIn (md5 : QByteArray → QByteArray) (editor : Editor) : Editor :=
  let site_id := fromStringToIntegerHash md5 editor.username
  { editor with crdtId := site_id, highlighterLocal := some site_id }

/-- The member function `Editor::exit`, as far as the site id goes. -/
def Editor.exit (md5 : QByteArray → QByteArray) (editor : Editor) : Editor :=
  { editor with
    crdtId := fromStringToIntegerHash md5 editor.username
    highlighterLocal := some (fromStringToIntegerHash md5 editor.username) }

/-- Modelled from the spec: `allocateBetween(lo, hi, site)` of the CRDT classes, which are not
    among the sources.  The two sequences are walked component by component.  At the first
    level where an integer is free between the level of `lo` and the level of `hi`, such an
    integer is picked and tagged with the site.  Where `lo` has ended, a new level below the
    one of `hi` is taken.  Where the two components differ with no integer free between
    their levels, a new trailing level is appended to `lo`. -/
def allocateBetween : Identifier → Identifier → Int → Identifier
  | [], [], site => [(0, site)]
  | [], h :: _, site => [(h.1 - 1, site)]
  | l :: _, [], site => [(l.1 + 1, site)]
  | l :: lo, h :: hi, site =>
    if l.1 + 1 < h.1 then [(l.1 + 1, site)]
    else if l = h then l :: allocateBetween lo hi site
    else l :: (lo ++ [(0, site)])

/-- Modelled from the spec: repeated allocations into one gap, each one between `lo` and the
    Identifier allocated before it (the first one between `lo` and `hi`), one for each site
    of the list. -/
def allocateChain (lo hi : Identifier) : List Int → Identifier
  | [] => hi
  | site :: sites => allocateChain lo (allocateBetween lo hi site) sites

/-! ## The editor: local changes -/

/-- A call of the editor to its CRDT; `F`, `C` and `A` are the types of fonts, colours and
    alignments. -/
inductive CrdtCall (F C A : Type) where
  /-- The call `crdt->localInsert(line, index, value, font, color, align)`. -/
  | localInsert (line index : Int) (value : Nat) (font : F) (color : C) (align : A)
  /-- The call `crdt->localInsertGroup(line, index, text, font, color, align)`. -/
  | localInsertGroup (line index : Int) (text : QString) (font : F) (color : C) (align : A)
  /-- The call `crdt->localErase(line, index, lenght)`. -/
  | localErase (line index : Int) (lenght : Nat)
  /-- The call `crdt->localChangeGroup(startLine, endLine, startIndex, endIndex, font, color)`. -/
  | localChangeGroup (startLine endLine startIndex endIndex : Int) (font : F) (color : C)
  /-- The call `crdt->localChangeAlignment(line, align)`. -/
  | localChangeAlignment (line : Int) (align : A)
  deriving DecidableEq, Repr

/-- What `Editor::on_contentsChange` reads, for one notification, from the text widget, its
    document, a cursor set at the position of the notification, the CRDT and the editor. -/
structure EditorView (F C A : Type) where
  /-- The text `ui->textEdit->toPlainText()`. -/
  toPlainText : QString
  /-- The size `crdt->getSize()`. -/
  crdtSize : Int
  /-- The flag `ui->textEdit->getSelected()`. -/
  selected : Bool
  /-- The flag `ui->textEdit->getInserted()`. -/
  inserted : Bool
  /-- The member `undoFlag`. -/
  undoFlag : Bool
  /-- The member `redoFlag`. -/
  redoFlag : Bool
  /-- The text `document()->toPlainText()` after `document()->undo()`. -/
  undoneText : QString
  /-- The text `document()->toPlainText()` after `document()->redo()`. -/
  redoneText : QString
  /-- The value `blockNumber()` of a cursor set at the position. -/
  cursorLine : Int
  /-- The value `positionInBlock()` of a cursor set at the position. -/
  cursorIndex : Int
  /-- The font of `charFormat()` of the cursor after it has moved right `k` times. -/
  fontRight : Nat → F
  /-- The foreground colour of `charFormat()` of the cursor after it has moved right `k` times. -/
  colorRight : Nat → C
  /-- The alignment `document()->findBlockByNumber(n).blockFormat().alignment()`. -/
  blockAlignment : Int → A
  /-- The alignment `getCurrentAlignment()`. -/
  currentAlignment : A
  /-- The member `line` after `saveCursorPosition()`. -/
  line : Int
  /-- The member `index` after `saveCursorPosition()`. -/
  index : Int
  /-- A default-constructed `QFont`. -/
  defaultFont : F
  /-- A default-constructed `QColor`. -/
  defaultColor : C
  /-- A default-constructed `Qt::Alignment`. -/
  defaultAlignment : A
  /-- The calls of the branch for a format or alignment change by undo or redo, whose loops
      over the document are not modelled. -/
  formatCalls : List (CrdtCall F C A)

/-- The local variables of the loop over the added characters, and the calls made so far;
    `text` is the variable `partial`. -/
structure GroupLoop (F C A : Type) where
  calls : List (CrdtCall F C A)
  fontPrec : F
  colorPrec : C
  text : QString
  font : F
  color : C
  align : A
  alignPrec : A
  linePrec : Int
  numLines : Int

section Editor
variable {F C A : Type} [DecidableEq F] [DecidableEq C] [DecidableEq A]

/-- One iteration of the loop over the added characters, for the loop index `i`; `none` when
    `added.at(i)` is out of range. -/
def insertGroupStep (view : EditorView F C A) (line index : Int) (added : QString) (i : Nat)
    (s : GroupLoop F C A) : Option (GroupLoop F C A) :=
  match added[i]? with
  | none => none
  | some ch =>
    let font := view.fontRight (i + 1)
    let color := view.colorRight (i + 1)
    let fontPrec := if i = 0 then font else s.fontPrec
    let colorPrec := if i = 0 then color else s.colorPrec
    let align := if s.numLines ≠ s.linePrec then view.blockAlignment s.numLines else s.alignPrec
    let numLines := if ch = 10 then s.numLines + 1 else s.numLines
    if font = fontPrec ∧ color = colorPrec ∧ align = s.alignPrec then
      some { s with
        fontPrec := fontPrec, colorPrec := colorPrec, font := font, color := color
        align := align, text := s.text ++ [ch], linePrec := s.numLines, numLines := numLines }
    else
      some { s with
        calls := s.calls ++
          [CrdtCall.localInsertGroup line index s.text fontPrec colorPrec s.alignPrec]
        fontPrec := font, colorPrec := color, alignPrec := align, font := font, color := color
        align := align, text := [ch], linePrec := s.numLines, numLines := numLines }

/-- The loop over the added characters: `k` iterations from the loop index `i` on. -/
def insertGroupLoop (view : EditorView F C A) (line index : Int) (added : QString) :
    Nat → Nat → GroupLoop F C A → Option (GroupLoop F C A)
  | 0, _, s => some s
  | k + 1, i, s =>
    (insertGroupStep view line index added i s).bind
      (insertGroupLoop view line index added k (i + 1))

/-- The insertion of several characters in `on_contentsChange`: the loop over the `n` added
    characters and the call for the characters left over after it. -/
def insertGroups (view : EditorView F C A) (line index : Int) (added : QString) (n : Nat) :
    Option (List (CrdtCall F C A)) :=
  (insertGroupLoop view line index added n 0
    { calls := [], fontPrec := view.defaultFont, colorPrec := view.defaultColor, text := []
      font := view.defaultFont, color := view.defaultColor, align := view.defaultAlignment
      alignPrec := view.blockAlignment line, linePrec := line, numLines := line }).map fun s =>
    if !s.text.isEmpty then
      s.calls ++ [CrdtCall.localInsertGroup line index s.text s.font s.color s.align]
    else s.calls

/-- The part that the two insertion branches of `on_contentsChange` share, from the reading
    of `added` on, for `n` added characters: the calls, and whether the function returned
    at the test of the null character.  `none` when `added.at(i)` is out of range. -/
def localInsertion (view : EditorView F C A) (position n : Nat) :
    Option (List (CrdtCall F C A) × Bool) :=
  let added := mid view.toPlainText position n
  match added[0]? with
  | none => none
  | some first =>
    if first = 0 then some ([], true)
    else if n = 1 then
      some ([CrdtCall.localInsert view.cursorLine view.cursorIndex first (view.fontRight 1)
        (view.colorRight 1) view.currentAlignment], false)
    else
      (insertGroups view view.cursorLine view.cursorIndex added n).map fun calls =>
        (calls, false)

/-- What `on_contentsChange` leaves behind: the calls to the CRDT, in order, and the flags. -/
structure Outcome (F C A : Type) where
  calls : List (CrdtCall F C A)
  undoFlag : Bool
  redoFlag : Bool
  inserted : Bool

/-- The member function `Editor::on_contentsChange`; `none` when `added.at(i)` is out of range. -/
def on_contentsChange (view : EditorView F C A) (position charsRemoved charsAdded : Nat) :
    Option (Outcome F C A) :=
  let size : Int := view.toPlainText.length
  if (((charsAdded : Int) - charsRemoved > 0 ∧ size ≤ view.crdtSize) ∨
      ((charsRemoved : Int) - charsAdded > 0 ∧ size ≥ view.crdtSize)) then
    some ⟨[], view.undoFlag, view.redoFlag, view.inserted⟩
  else if view.selected ∧ charsAdded > 0 ∧ charsRemoved > 0 ∧ view.inserted then
    let removed := mid view.undoneText position charsRemoved
    let erased : List (CrdtCall F C A) :=
      if removed.length ≠ 0 then
        [CrdtCall.localErase view.cursorLine view.cursorIndex removed.length]
      else []
    (localInsertion view position charsAdded).map fun r =>
      ⟨erased ++ r.1, false, view.redoFlag, if r.2 then view.inserted else false⟩
  else if charsAdded > 0 ∧ (charsAdded : Int) - charsRemoved > 0 then
    (localInsertion view position (charsAdded - charsRemoved)).map fun r =>
      ⟨r.1, false, view.redoFlag, if r.2 then view.inserted else false⟩
  else if charsRemoved > 0 ∧ (charsRemoved : Int) - charsAdded > 0 then
    let removed :=
      if view.undoFlag then mid view.redoneText position charsRemoved
      else mid view.undoneText position charsRemoved
    let erased : List (CrdtCall F C A) :=
      if removed.length ≠ 0 then [CrdtCall.localErase view.line view.index removed.length]
      else []
    some ⟨erased, false, view.redoFlag, false⟩
  else if charsRemoved = charsAdded ∧ (view.undoFlag ∨ view.redoFlag) then
    some ⟨view.formatCalls, false, false, false⟩
  else some ⟨[], view.undoFlag, view.redoFlag, false⟩

/-- The line of the `i`-th added character, as the loop counts it: the line of the
    insertion and one more for every newline before the character. -/
def lineOfAdded (line : Int) (added : QString) (i : Nat) : Int :=
  line + ((added.take i).count 10 : Nat)

/-- The characters of a group insertion, each with the font, colour and alignment passed
    with the call. -/
def CrdtCall.characters : CrdtCall F C A → List (Nat × F × C × A)
  | .localInsertGroup _ _ text font color align => text.map fun ch => (ch, font, color, align)
  | _ => []

/-- The added characters, each with the font and colour read for it from the document and
    the alignment of its line. -/
def charactersRead (view : EditorView F C A) (line : Int) (added : QString) (n : Nat) :
    List (Nat × F × C × A) :=
  (List.range n).map fun i =>
    (added.getD i 0, view.fontRight (i + 1), view.colorRight (i + 1),
      view.blockAlignment (lineOfAdded line added i))

/-- Whether a call is a group insertion at the given line and index with a text that is not
    empty. -/
def CrdtCall.isGroupAt (line index : Int) : CrdtCall F C A → Bool
  | .localInsertGroup l i text _ _ _ => l = line && i = index && !text.isEmpty
  | _ => false

/-- What holds of the local variables of the loop over the added characters before the
    iteration with index `i`: the characters of the calls made and of `text`, with their
    attributes, are the first `i` added characters with the attributes read; the lines are
    counted; and after the first iteration `text` is not empty and `font`, `color` and
    `align` are those of `text`. -/
structure GroupLoop.Holds {F C A : Type} [DecidableEq F] [DecidableEq C] [DecidableEq A]
    (view : EditorView F C A) (line index : Int) (added : QString)
    (i : Nat) (s : GroupLoop F C A) : Prop where
  read : s.calls.flatMap CrdtCall.characters ++
      s.text.map (fun ch => (ch, s.fontPrec, s.colorPrec, s.alignPrec)) =
    charactersRead view line added i
  groups : ∀ c ∈ s.calls, c.isGroupAt line index = true
  numLines : s.numLines = lineOfAdded line added i
  linePrec : s.linePrec = lineOfAdded line added (i - 1)
  alignPrec : s.alignPrec = view.blockAlignment s.linePrec
  first : i = 0 → s.text = []
  later : 0 < i → s.text ≠ [] ∧ s.font = s.fontPrec ∧ s.color = s.colorPrec ∧
    s.align = s.alignPrec

/-- A sample view: the text `ab`, newline, `cd` has just been pasted at position 0 into an
    empty document whose CRDT is still empty; the first two characters have font 1, the
    others font 2, the first line has alignment 0 and the second alignment 1. -/
def sampleView : EditorView Nat Nat Nat where
  toPlainText := QLatin1String "ab" ++ [10] ++ QLatin1String "cd"
  crdtSize := 0
  selected := false
  inserted := false
  undoFlag := false
  redoFlag := false
  undoneText := []
  redoneText := QLatin1String "ab" ++ [10] ++ QLatin1String "cd"
  cursorLine := 0
  cursorIndex := 0
  fontRight k := if k ≤ 2 then 1 else 2
  colorRight _ := 0
  blockAlignment n := if n = 0 then 0 else 1
  currentAlignment := 0
  line := 1
  index := 2
  defaultFont := 0
  defaultColor := 0
  defaultAlignment := 0
  formatCalls := []

/-- A sample view after a remote insertion: the CRDT holds the five characters already. -/
def remoteView : EditorView Nat Nat Nat := { sampleView with crdtSize := 5 }

/-- A sample view in which the pasted text starts with the null character. -/
def nulView : EditorView Nat Nat Nat := { sampleView with toPlainText := [0, 97, 98] }

end Editor

/-! ## Lemmas and theorems -/

section Entries
variable {K V : Type} [LinearOrder K]

theorem lookupEntry_insertEntry_self (k : K) (v : V) (l : List (K × V)) :
    lookupEntry k (insertEntry k v l) = some v := by
  induction l with
  | nil => simp [insertEntry, lookupEntry]
  | cons e t ih =>
    obtain ⟨k', v'⟩ := e
    unfold insertEntry
    split_ifs with h1 h2
    · simp [lookupEntry]
    · simp [lookupEntry, ne_of_gt h2, ih]
    · simp [lookupEntry]

theorem lookupEntry_insertEntry_ne {k k' : K} (h : k' ≠ k) (v : V) (l : List (K × V)) :
    lookupEntry k' (insertEntry k v l) = lookupEntry k' l := by
  induction l with
  | nil => simp [insertEntry, lookupEntry, h]
  | cons e t ih =>
    obtain ⟨k0, v0⟩ := e
    unfold insertEntry
    split_ifs with h1 h2
    · simp [lookupEntry, h]
    · simp [lookupEntry, ih]
    · have hk : k0 = k := le_antisymm (not_lt.mp h1) (not_lt.mp h2)
      subst hk
      simp [lookupEntry, h]

theorem lookupEntry_removeEntry_self (k : K) (l : List (K × V)) :
    lookupEntry k (removeEntry k l) = none := by
  induction l with
  | nil => simp [removeEntry, lookupEntry]
  | cons e t ih =>
    obtain ⟨k0, v0⟩ := e
    unfold removeEntry
    split_ifs with h1
    · exact ih
    · simp [lookupEntry, h1, ih]

theorem lookupEntry_removeEntry_ne {k k' : K} (h : k' ≠ k) (l : List (K × V)) :
    lookupEntry k' (removeEntry k l) = lookupEntry k' l := by
  induction l with
  | nil => simp [removeEntry, lookupEntry]
  | cons e t ih =>
    obtain ⟨k0, v0⟩ := e
    unfold removeEntry
    split_ifs with h1
    · subst h1
      simp [lookupEntry, h, ih]
    · simp [lookupEntry, ih]

theorem mem_insertEntry {k : K} {v : V} {l : List (K × V)} {e : K × V}
    (h : e ∈ insertEntry k v l) : e = (k, v) ∨ e ∈ l := by
  induction l with
  | nil => simp [insertEntry] at h; exact Or.inl h
  | cons a t ih =>
    obtain ⟨k0, v0⟩ := a
    unfold insertEntry at h
    split_ifs at h with h1 h2
    · simpa using h
    · rcases List.mem_cons.mp h with h | h
      · right; simp [h]
      · rcases ih h with h | h
        · left; exact h
        · right; exact List.mem_cons_of_mem _ h
    · rcases List.mem_cons.mp h with h | h
      · left; exact h
      · right; exact List.mem_cons_of_mem _ h

theorem pairwise_insertEntry (k : K) (v : V) {l : List (K × V)}
    (h : l.Pairwise (fun a b => a.1 < b.1)) :
    (insertEntry k v l).Pairwise (fun a b => a.1 < b.1) := by
  induction l with
  | nil => simp [insertEntry]
  | cons a t ih =>
    obtain ⟨k0, v0⟩ := a
    have ht := (List.pairwise_cons.mp h).2
    have hh := (List.pairwise_cons.mp h).1
    unfold insertEntry
    split_ifs with h1 h2
    · refine List.pairwise_cons.mpr ⟨?_, h⟩
      intro b hb
      rcases List.mem_cons.mp hb with hb | hb
      · subst hb; exact h1
      · exact lt_trans h1 (hh b hb)
    · refine List.pairwise_cons.mpr ⟨?_, ih ht⟩
      intro b hb
      rcases mem_insertEntry hb with hb | hb
      · subst hb; exact h2
      · exact hh b hb
    · have hk : k0 = k := le_antisymm (not_lt.mp h1) (not_lt.mp h2)
      subst hk
      exact List.pairwise_cons.mpr ⟨hh, ht⟩

theorem mem_removeEntry {k : K} {l : List (K × V)} {e : K × V}
    (h : e ∈ removeEntry k l) : e ∈ l := by
  induction l with
  | nil => simp [removeEntry] at h
  | cons a t ih =>
    obtain ⟨k0, v0⟩ := a
    unfold removeEntry at h
    split_ifs at h with h1
    · exact List.mem_cons_of_mem _ (ih h)
    · rcases List.mem_cons.mp h with h | h
      · simp [h]
      · exact List.mem_cons_of_mem _ (ih h)

theorem pairwise_removeEntry (k : K) {l : List (K × V)}
    (h : l.Pairwise (fun a b => a.1 < b.1)) :
    (removeEntry k l).Pairwise (fun a b => a.1 < b.1) := by
  induction l with
  | nil => simp [removeEntry]
  | cons a t ih =>
    obtain ⟨k0, v0⟩ := a
    have ht := (List.pairwise_cons.mp h).2
    have hh := (List.pairwise_cons.mp h).1
    unfold removeEntry
    split_ifs with h1
    · exact ih ht
    · exact List.pairwise_cons.mpr ⟨fun b hb => hh b (mem_removeEntry hb), ih ht⟩

theorem lookupEntry_eq_none_of_lt {k : K} {l : List (K × V)}
    (h : ∀ e ∈ l, k < e.1) : lookupEntry k l = none := by
  induction l with
  | nil => rfl
  | cons a t ih =>
    obtain ⟨k0, v0⟩ := a
    have h0 : k < k0 := h (k0, v0) (List.mem_cons_self _ _)
    simp [lookupEntry, ne_of_lt h0, ih (fun e he => h e (List.mem_cons_of_mem _ he))]

theorem entries_ext {l1 l2 : List (K × V)}
    (h1 : l1.Pairwise (fun a b => a.1 < b.1)) (h2 : l2.Pairwise (fun a b => a.1 < b.1))
    (h : ∀ k, lookupEntry k l1 = lookupEntry k l2) : l1 = l2 := by
  induction l1 generalizing l2 with
  | nil =>
    cases l2 with
    | nil => rfl
    | cons b t2 =>
      have := h b.1
      simp [lookupEntry] at this
  | cons a t1 ih =>
    cases l2 with
    | nil =>
      have := h a.1
      simp [lookupEntry] at this
    | cons b t2 =>
      obtain ⟨ka, va⟩ := a
      obtain ⟨kb, vb⟩ := b
      have ha := List.pairwise_cons.mp h1
      have hb := List.pairwise_cons.mp h2
      have hkey : ka = kb := by
        rcases lt_trichotomy ka kb with hlt | heq | hgt
        · exfalso
          have e := h ka
          have hn : lookupEntry ka ((kb, vb) :: t2) = none :=
            lookupEntry_eq_none_of_lt (by
              intro e he
              rcases List.mem_cons.mp he with he | he
              · subst he; exact hlt
              · exact lt_trans hlt (hb.1 e he))
          rw [hn] at e
          simp [lookupEntry] at e
        · exact heq
        · exfalso
          have e := h kb
          have hn : lookupEntry kb ((ka, va) :: t1) = none :=
            lookupEntry_eq_none_of_lt (by
              intro e he
              rcases List.mem_cons.mp he with he | he
              · subst he; exact hgt
              · exact lt_trans hgt (ha.1 e he))
          rw [hn] at e
          simp [lookupEntry] at e
      subst hkey
      have hv : va = vb := by
        have e := h ka
        simpa [lookupEntry] using e
      subst hv
      have ht : t1 = t2 := by
        apply ih ha.2 hb.2
        intro k
        by_cases hk : k = ka
        · subst hk
          rw [lookupEntry_eq_none_of_lt ha.1, lookupEntry_eq_none_of_lt hb.1]
        · have e := h k
          simpa [lookupEntry, hk] using e
      rw [ht]

theorem lookupEntry_map_update (k k' : K) (f : V → V) (l : List (K × V)) :
    lookupEntry k' (l.map fun e => if e.1 = k then (e.1, f e.2) else e)
      = if k' = k then (lookupEntry k' l).map f else lookupEntry k' l := by
  induction l with
  | nil => simp [lookupEntry]
  | cons a t ih =>
    obtain ⟨k0, v0⟩ := a
    by_cases h0 : k0 = k
    · have hmap : (if (k0, v0).1 = k then ((k0, v0).1, f (k0, v0).2) else (k0, v0))
          = (k0, f v0) := if_pos h0
      rw [List.map_cons, hmap, lookupEntry, lookupEntry, ih]
      subst h0
      by_cases h1 : k' = k0 <;> simp [h1]
    · have hmap : (if (k0, v0).1 = k then ((k0, v0).1, f (k0, v0).2) else (k0, v0))
          = (k0, v0) := if_neg h0
      rw [List.map_cons, hmap, lookupEntry, lookupEntry, ih]
      by_cases h1 : k' = k0
      · subst h1; simp [h0]
      · simp [h1]

end Entries

theorem compareCI_exclusive {t : QString} {a b : String} (ha : compareCI t a = true)
    (hab : ((QLatin1String a).map foldCase == (QLatin1String b).map foldCase) = false) :
    compareCI t b = false := by
  unfold compareCI at *
  have h := eq_of_beq ha
  rw [h]; exact hab

theorem branch_false (f : Server → Option (Server × List Event)) (r) : branch false f r = r := by
  unfold branch
  cases r <;> simp

theorem branch_true_some (f : Server → Option (Server × List Event)) (st : Server) (ev : List Event) :
    branch true f (some (st, ev)) = (f st).map fun q => (q.1, ev ++ q.2) := by
  simp [branch]

theorem flatMap_exclude {α β : Type} [DecidableEq α] (L : List α) (x : α) (f : α → β) :
    (L.flatMap fun w => if w = x then [] else [f w]) = (L.filter (fun w => decide (w ≠ x))).map f := by
  induction L with
  | nil => rfl
  | cons a t ih =>
    by_cases h : a = x <;> simp [List.flatMap_cons, h, ih]

theorem isNull_of_isString {v : QJsonValue} (h : v.isString = true) : v.isNull = false := by
  cases v <;> simp_all [QJsonValue.isString, QJsonValue.isNull]

theorem jsonFromLoggedIn_operation (env : Env) (st : Server) (sender : Nat) (docObj : QJsonObject)
    (hstr : (docObj.value "type").isString = true)
    (htype : compareCI (docObj.value "type").toQString "operation" = true) :
    jsonFromLoggedIn env st sender docObj = handleOperation env st sender docObj := by
  unfold jsonFromLoggedIn
  simp only [hstr, isNull_of_isString hstr, Bool.not_true, Bool.or_self, Bool.false_eq_true, if_false]
  rw [compareCI_exclusive htype (b := "nickname") (by decide),
    compareCI_exclusive htype (b := "password") (by decide),
    compareCI_exclusive htype (b := "check_old_password") (by decide),
    compareCI_exclusive htype (b := "list_files") (by decide),
    compareCI_exclusive htype (b := "list_shared_files") (by decide),
    compareCI_exclusive htype (b := "new_file") (by decide),
    compareCI_exclusive htype (b := "file_to_open") (by decide),
    compareCI_exclusive htype (b := "close") (by decide),
    compareCI_exclusive htype (b := "filename_from_sharedLink") (by decide), htype]
  simp only [branch_false, branch_true_some]
  cases handleOperation env st sender docObj <;> simp

theorem jsonReceived_operation (env : Env) (st : Server) (sender : Nat) (docObj : QJsonObject)
    (hnick : (st.workers sender).nickname ≠ [])
    (hstr : (docObj.value "type").isString = true)
    (htype : compareCI (docObj.value "type").toQString "operation" = true) :
    jsonReceived env st sender docObj = handleOperation env st sender docObj := by
  unfold jsonReceived
  have : (st.workers sender).nickname.isEmpty = false := by
    cases h : (st.workers sender).nickname with
    | nil => exact absurd h hnick
    | cons a t => rfl
  rw [this]
  simpa using jsonFromLoggedIn_operation env st sender docObj hstr htype

theorem handleOperation_of_find (env : Env) (st : Server) (sender : Nat) (docObj : QJsonObject)
    (L : List Nat) (m : QMap QString QJsonObject)
    (hL : st.mapFileWorkers.find (st.workers sender).filename = some L)
    (hm : st.symbols_list.find (st.workers sender).filename = some m) :
    handleOperation env st sender docObj = some
      ({ st with
          symbols_list := st.symbols_list.update (st.workers sender).filename
            (fun m => applyOperation env.codes m docObj)
          changed := st.changed.insert (st.workers sender).filename true },
        (L.filter (fun w => decide (w ≠ sender))).map (fun w => Event.sendJson w docObj)) := by
  unfold handleOperation
  simp only [hm, Option.some_bind, broadcast, hL, Option.map_some', flatMap_exclude]

/-- Whenever the operation handler does not go through a null pointer it returns, and what it
    sends is the received message, to the other sessions of the sender's file. -/
theorem handleOperation_events (env : Env) (st : Server) (sender : Nat) (docObj : QJsonObject)
    (L : List Nat)
    (hL : st.mapFileWorkers.find (st.workers sender).filename = some L)
    (hdef : st.symbols_list.contains (st.workers sender).filename = true ∨
      operationDereferences env.codes docObj = false) :
    ∃ st', handleOperation env st sender docObj = some (st',
      (L.filter (fun w => decide (w ≠ sender))).map (fun w => Event.sendJson w docObj)) := by
  cases hm : st.symbols_list.find (st.workers sender).filename with
  | some m => exact ⟨_, handleOperation_of_find env st sender docObj L m hL hm⟩
  | none =>
    have hd : operationDereferences env.codes docObj = false := by
      rcases hdef with h | h
      · simp [QMap.contains, hm] at h
      · exact h
    refine ⟨{ st with changed := st.changed.insert (st.workers sender).filename true }, ?_⟩
    unfold handleOperation
    simp only [hm, hd, Bool.false_eq_true, if_false, Option.some_bind, broadcast, hL,
      Option.map_some', flatMap_exclude]

/-- C1: an operation message received from a logged-in session whose file has the session
    list `L` registered is handed by `Server::broadcast`, unchanged, to the sessions of `L`
    other than the sender and to nobody else.  (The handler has a defined result: the file has
    its symbol map, or the operation does not touch it.) -/
theorem broadcast_reaches_exactly_the_other_sessions (env : Env) (st : Server) (sender : Nat)
    (docObj : QJsonObject) (L : List Nat)
    (hnick : (st.workers sender).nickname ≠ [])
    (hstr : (docObj.value "type").isString = true)
    (htype : compareCI (docObj.value "type").toQString "operation" = true)
    (hL : st.mapFileWorkers.find (st.workers sender).filename = some L)
    (hdef : st.symbols_list.contains (st.workers sender).filename = true ∨
      operationDereferences env.codes docObj = false) :
    ∃ st' events, jsonReceived env st sender docObj = some (st', events) ∧
      events = (L.filter (fun w => decide (w ≠ sender))).map (fun w => Event.sendJson w docObj) ∧
      (∀ e ∈ events, ∃ w, e = Event.sendJson w docObj) ∧
      (∀ w, Event.sendJson w docObj ∈ events ↔ (w ∈ L ∧ w ≠ sender)) := by
  obtain ⟨st', h⟩ := handleOperation_events env st sender docObj L hL hdef
  rw [jsonReceived_operation env st sender docObj hnick hstr htype, h]
  refine ⟨_, _, rfl, rfl, ?_, ?_⟩
  · intro e he
    obtain ⟨w, _, hw⟩ := List.mem_map.mp he
    exact ⟨w, hw.symm⟩
  · intro w
    constructor
    · intro h
      obtain ⟨a, ha, hw⟩ := List.mem_map.mp h
      have : a = w := by injection hw
      subst this
      simpa using ha
    · intro h
      exact List.mem_map.mpr ⟨w, by simpa using h, rfl⟩

theorem broadcast_reaches_exactly_the_other_sessions_witness :
    ∃ st' events, jsonReceived sampleEnv sampleServer 1
        (sampleOperation 0 (sampleSymbol 1 1 7)) = some (st', events) ∧
      events = ([1, 2].filter (fun w => decide (w ≠ 1))).map
        (fun w => Event.sendJson w (sampleOperation 0 (sampleSymbol 1 1 7))) ∧
      (∀ e ∈ events, ∃ w, e = Event.sendJson w (sampleOperation 0 (sampleSymbol 1 1 7))) ∧
      (∀ w, Event.sendJson w (sampleOperation 0 (sampleSymbol 1 1 7)) ∈ events ↔
        (w ∈ [1, 2] ∧ w ≠ 1)) :=
  broadcast_reaches_exactly_the_other_sessions sampleEnv sampleServer 1
    (sampleOperation 0 (sampleSymbol 1 1 7)) [1, 2] (by decide) (by decide)
    (by decide) (by decide) (Or.inl (by decide))

/-- C10: a message whose type is neither `login` nor `check_username`, received from a session
    with an empty nickname, changes nothing in the server state (registry, symbol tables,
    dirty flags, the session's strings) and nothing is sent or broadcast. -/
theorem logged_out_session_is_inert (env : Env) (st : Server) (sender : Nat)
    (json : QJsonObject)
    (hnick : (st.workers sender).nickname = [])
    (hlogin : compareCI (json.value "type").toQString "login" = false)
    (hcheck : compareCI (json.value "type").toQString "check_username" = false) :
    jsonReceived env st sender json = some (st, []) := by
  unfold jsonReceived jsonFromLoggedOut
  simp [hnick, hlogin, hcheck]

theorem logged_out_session_is_inert_witness :
    jsonReceived sampleEnv sampleServer 0 (sampleOperation 0 (sampleSymbol 1 1 7))
      = some (sampleServer, []) :=
  logged_out_session_is_inert sampleEnv sampleServer 0 (sampleOperation 0 (sampleSymbol 1 1 7))
    (by decide) (by decide) (by decide)

theorem codes_ne (c : OperationCodes) :
    c.INSERT ≠ c.DELETE ∧ c.INSERT ≠ c.CHANGE ∧ c.INSERT ≠ c.ALIGN ∧ c.INSERT ≠ c.PASTE ∧
    c.DELETE ≠ c.CHANGE ∧ c.DELETE ≠ c.ALIGN ∧ c.DELETE ≠ c.PASTE ∧
    c.CHANGE ≠ c.ALIGN ∧ c.CHANGE ≠ c.PASTE ∧ c.ALIGN ≠ c.PASTE := by
  have h := c.distinct
  simp only [List.nodup_cons, List.mem_cons, List.mem_singleton, not_or, List.not_mem_nil,
    not_false_eq_true, List.nodup_nil, and_true] at h
  tauto

section Entries
variable {K V : Type} [LinearOrder K]

theorem insertEntry_insertEntry_self (k : K) (v : V) (l : List (K × V)) :
    insertEntry k v (insertEntry k v l) = insertEntry k v l := by
  induction l with
  | nil => simp [insertEntry]
  | cons e t ih =>
    obtain ⟨k', v'⟩ := e
    by_cases h1 : k < k'
    · simp [insertEntry, h1]
    · by_cases h2 : k' < k
      · simp [insertEntry, h1, h2, ih]
      · simp [insertEntry, h1, h2]

theorem removeEntry_comm (k k' : K) (l : List (K × V)) :
    removeEntry k (removeEntry k' l) = removeEntry k' (removeEntry k l) := by
  induction l with
  | nil => rfl
  | cons e t ih =>
    obtain ⟨k0, v0⟩ := e
    by_cases h1 : k = k0
    · subst h1
      by_cases h2 : k' = k <;> simp [removeEntry, h2, ih]
    · by_cases h2 : k' = k0
      · subst h2
        simp [removeEntry, h1, ih]
      · simp [removeEntry, h1, h2, ih]

theorem removeEntry_removeEntry_self (k : K) (l : List (K × V)) :
    removeEntry k (removeEntry k l) = removeEntry k l := by
  induction l with
  | nil => rfl
  | cons e t ih =>
    obtain ⟨k0, v0⟩ := e
    by_cases h1 : k = k0
    · subst h1
      simp [removeEntry, ih]
    · simp [removeEntry, h1, ih]

end Entries

/-- Removing the positions of a list of symbols, as the DELETE branch does. -/
theorem removeAll_remove_comm (ss : List QJsonValue) (k : QString) (m : QMap QString QJsonObject) :
    (ss.foldl (fun m s => m.remove (positionKey s.toObject)) m).remove k
      = ss.foldl (fun m s => m.remove (positionKey s.toObject)) (m.remove k) := by
  induction ss generalizing m with
  | nil => rfl
  | cons s t ih =>
    simp only [List.foldl_cons]
    rw [ih]
    congr 1
    simp only [QMap.remove, QMap.mk.injEq]
    exact removeEntry_comm _ _ _

theorem removeAll_idem (ss : List QJsonValue) (m : QMap QString QJsonObject) :
    ss.foldl (fun m s => m.remove (positionKey s.toObject))
        (ss.foldl (fun m s => m.remove (positionKey s.toObject)) m)
      = ss.foldl (fun m s => m.remove (positionKey s.toObject)) m := by
  induction ss generalizing m with
  | nil => rfl
  | cons s t ih =>
    simp only [List.foldl_cons]
    have : ((m.remove (positionKey s.toObject)).remove (positionKey s.toObject))
        = m.remove (positionKey s.toObject) := by
      simp only [QMap.remove, QMap.mk.injEq]
      exact removeEntry_removeEntry_self _ _
    rw [← removeAll_remove_comm, ih, removeAll_remove_comm, this]

theorem applyOperation_idem (c : OperationCodes) (m : QMap QString QJsonObject)
    (docObj : QJsonObject)
    (hop : (docObj.value "operation_type").toInt = c.INSERT ∨
      (docObj.value "operation_type").toInt = c.DELETE) :
    applyOperation c (applyOperation c m docObj) docObj = applyOperation c m docObj := by
  rcases hop with h | h
  · simp only [applyOperation, h, if_true, QMap.insert, QMap.mk.injEq]
    exact insertEntry_insertEntry_self _ _ _
  · have hne : c.DELETE ≠ c.INSERT := fun e => (codes_ne c).1 e.symm
    simp only [applyOperation, h, hne, if_true, if_false]
    exact removeAll_idem _ _

theorem QMap.find_update {K V : Type} [LinearOrder K] (m : QMap K V) (k k' : K) (f : V → V) :
    (m.update k f).find k' = if k' = k then (m.find k').map f else m.find k' := by
  simp only [QMap.update, QMap.find]
  exact lookupEntry_map_update k k' f m.entries

theorem QMap.update_update_idem {K V : Type} [LinearOrder K] (m : QMap K V) (k : K) (f : V → V)
    (hf : ∀ v, f (f v) = f v) : (m.update k f).update k f = m.update k f := by
  simp only [QMap.update, QMap.mk.injEq, List.map_map]
  apply List.map_congr_left
  intro e _
  by_cases h : e.1 = k <;> simp [h, hf]

/-- C3: handling the same insert operation (likewise the same erase operation) twice in a
    row leaves the symbol tables as they are after handling it once; after the first
    handling the file's map is the received operation applied to the map before. -/
theorem insert_or_erase_twice_is_once (env : Env) (st : Server) (sender : Nat)
    (docObj : QJsonObject) (L : List Nat) (m : QMap QString QJsonObject)
    (hnick : (st.workers sender).nickname ≠ [])
    (hstr : (docObj.value "type").isString = true)
    (htype : compareCI (docObj.value "type").toQString "operation" = true)
    (hop : (docObj.value "operation_type").toInt = env.codes.INSERT ∨
      (docObj.value "operation_type").toInt = env.codes.DELETE)
    (hL : st.mapFileWorkers.find (st.workers sender).filename = some L)
    (hm : st.symbols_list.find (st.workers sender).filename = some m) :
    ∃ st1 ev1 st2 ev2, jsonReceived env st sender docObj = some (st1, ev1) ∧
      jsonReceived env st1 sender docObj = some (st2, ev2) ∧
      st1.symbols_list.find (st.workers sender).filename
        = some (applyOperation env.codes m docObj) ∧
      st2.symbols_list = st1.symbols_list := by
  have hm1 : (st.symbols_list.update (st.workers sender).filename
      (fun m => applyOperation env.codes m docObj)).find (st.workers sender).filename
        = some (applyOperation env.codes m docObj) := by
    rw [QMap.find_update, if_pos rfl, hm]; rfl
  have h1 := (jsonReceived_operation env st sender docObj hnick hstr htype).trans
    (handleOperation_of_find env st sender docObj L m hL hm)
  have h2 := (jsonReceived_operation env
      { st with
        symbols_list := st.symbols_list.update (st.workers sender).filename
          (fun m => applyOperation env.codes m docObj)
        changed := st.changed.insert (st.workers sender).filename true }
      sender docObj hnick hstr htype).trans
    (handleOperation_of_find env _ sender docObj L _ hL hm1)
  refine ⟨_, _, _, _, h1, h2, hm1, ?_⟩
  exact QMap.update_update_idem st.symbols_list (st.workers sender).filename
    (fun m => applyOperation env.codes m docObj)
    (fun v => applyOperation_idem env.codes v docObj hop)

theorem insert_or_erase_twice_is_once_witness :
    ∃ st1 ev1 st2 ev2,
      jsonReceived sampleEnv sampleServer 1 (sampleOperation 0 (sampleSymbol 1 1 7))
        = some (st1, ev1) ∧
      jsonReceived sampleEnv st1 1 (sampleOperation 0 (sampleSymbol 1 1 7)) = some (st2, ev2) ∧
      st1.symbols_list.find (sampleServer.workers 1).filename
        = some (applyOperation sampleEnv.codes QMap.empty
            (sampleOperation 0 (sampleSymbol 1 1 7))) ∧
      st2.symbols_list = st1.symbols_list :=
  insert_or_erase_twice_is_once sampleEnv sampleServer 1
    (sampleOperation 0 (sampleSymbol 1 1 7)) [1, 2] QMap.empty (by decide) (by decide)
    (by decide) (Or.inl (by decide)) (by decide) (by rfl)

/-- C4 (what the code does): a change of a position that the file's map does not hold is not
    ignored.  On the sample file, which holds no symbol, a change adds its symbol; and after
    an erase of a position followed by a change of the same position the map holds the
    position. -/
theorem change_of_absent_position_is_stored :
    ((jsonReceived sampleEnv sampleServer 2 (sampleOperation 2 (sampleSymbol 1 1 7))).map
        fun r => (r.1.symbols_list.find sampleFile).map QMap.keys)
      = some (some [positionKey (sampleSymbol 1 1 7)]) ∧
    ((receiveAll sampleEnv sampleServer
        [(1, sampleOperation 0 (sampleSymbol 1 1 0)), (1, sampleErase (sampleSymbol 1 1 0)),
         (2, sampleOperation 2 (sampleSymbol 1 1 7))]).map
        fun r => (r.1.symbols_list.find sampleFile).map
          fun m => m.contains (positionKey (sampleSymbol 1 1 0)))
      = some (some true) := by
  constructor <;> decide

theorem qFromLittleEndian_quint32Bytes (n : Nat) (h : n < 2 ^ 32) :
    qFromLittleEndian (quint32Bytes n) = n := by
  simp only [qFromLittleEndian, quint32Bytes, List.getD_cons_zero, List.getD_cons_succ]
  norm_num at h ⊢
  omega

theorem quint32Bytes_mod (n : Nat) : quint32Bytes (n % 2 ^ 32) = quint32Bytes n := by
  simp [quint32Bytes]

theorem foldl_append_eq_flatMap {α β : Type} (g : α → List β) (v : List α) (init : List β) :
    v.foldl (fun ba a => ba ++ g a) init = init ++ v.flatMap g := by
  induction v generalizing init with
  | nil => simp
  | cons a t ih => simp [List.foldl_cons, ih, List.flatMap_cons, List.append_assoc]

/-- C8: the frame built by `createByteArrayJsonImage` is the four-byte little-endian length of
    the serialized JSON, the serialized JSON, and then, for each blob in order, its four-byte
    little-endian length followed by its bytes; when there is no blob one four-byte zero
    length field follows the JSON.  (Sizes are those of a `QByteArray`, below `2^31`.) -/
theorem createByteArrayJsonImage_layout (message : QJsonObject) (v : List QByteArray)
    (hjson : (toJson message).length < 2 ^ 31) (hv : ∀ a ∈ v, a.length < 2 ^ 31) :
    createByteArrayJsonImage message v
        = quint32Bytes (toJson message).length ++ toJson message ++
          (if v = [] then quint32Bytes 0
           else v.flatMap fun a => quint32Bytes a.length ++ a) ∧
      qFromLittleEndian (quint32Bytes (toJson message).length) = (toJson message).length ∧
      (∀ a ∈ v, qFromLittleEndian (quint32Bytes a.length) = a.length) ∧
      quint32Bytes 0 = [0, 0, 0, 0] := by
  refine ⟨?_, ?_, ?_, by decide⟩
  · have hblob : ∀ a ∈ v, (if a.length % 2 ^ 32 ≠ 0 then quint32Bytes (a.length % 2 ^ 32) ++ a
            else quint32Bytes (a.length % 2 ^ 32)) = quint32Bytes a.length ++ a := by
      intro a ha
      have hlt : a.length < 2 ^ 32 := lt_trans (hv a ha) (by norm_num)
      rw [Nat.mod_eq_of_lt hlt]
      by_cases h0 : a.length = 0
      · have : a = [] := List.length_eq_zero.mp h0
        subst this
        simp
      · simp [h0]
    unfold createByteArrayJsonImage
    simp only []
    rw [quint32Bytes_mod]
    have hfold : ∀ init : QByteArray,
        v.foldl (fun ba a => ba ++ (if a.length % 2 ^ 32 ≠ 0 then
            quint32Bytes (a.length % 2 ^ 32) ++ a else quint32Bytes (a.length % 2 ^ 32))) init
          = init ++ v.flatMap fun a => quint32Bytes a.length ++ a := by
      intro init
      rw [foldl_append_eq_flatMap]
      congr 1
      apply List.flatMap_congr
      exact hblob
    cases v with
    | nil => simp
    | cons a t =>
      rw [hfold, if_neg (by simp), if_neg (by simp)]
  · exact qFromLittleEndian_quint32Bytes _ (lt_trans hjson (by norm_num))
  · intro a ha
    exact qFromLittleEndian_quint32Bytes _ (lt_trans (hv a ha) (by norm_num))

theorem createByteArrayJsonImage_layout_witness :
    createByteArrayJsonImage (response "close") [[1, 2, 3], []]
        = quint32Bytes (toJson (response "close")).length ++ toJson (response "close") ++
          (if [[1, 2, 3], ([] : QByteArray)] = [] then quint32Bytes 0
           else [[1, 2, 3], []].flatMap fun a => quint32Bytes a.length ++ a) ∧
      qFromLittleEndian (quint32Bytes (toJson (response "close")).length)
        = (toJson (response "close")).length ∧
      (∀ a ∈ [[1, 2, 3], ([] : QByteArray)], qFromLittleEndian (quint32Bytes a.length) = a.length) ∧
      quint32Bytes 0 = [0, 0, 0, 0] :=
  createByteArrayJsonImage_layout (response "close") [[1, 2, 3], []] (by decide) (by decide)

/-- What one run of the batch loop does: it appends the symbols `l[i..j)` and stops at `j`,
    either at the loop bound or at a symbol the array does not take. -/
theorem fillBatch_spec (env : Env) (l : List QJsonObject) (n i : Nat) (symbols : QJsonArray)
    (h : i + n ≤ l.length) :
    ∃ j stopped, fillBatch env l n i symbols
        = some (symbols ++ ((l.drop i).take (j - i)).map QJsonValue.object, j, stopped) ∧
      i ≤ j ∧ j ≤ i + n ∧ (stopped = false → j = i + n) ∧
      (stopped = true → ∃ o, l[j]? = some o ∧
        env.appendFits (symbols ++ ((l.drop i).take (j - i)).map QJsonValue.object)
          (.object o) = false) := by
  induction n generalizing i symbols with
  | zero =>
    exact ⟨i, false, by simp [fillBatch], le_refl _, le_refl _, fun _ => rfl, fun h => by simp at h⟩
  | succ n ih =>
    have hi : i < l.length := by omega
    have hget : l[i]? = some l[i] := List.getElem?_eq_getElem hi
    by_cases hfit : env.appendFits symbols (.object l[i]) = true
    · obtain ⟨j, stopped, hj, h1, h2, h3, h4⟩ := ih (i + 1) (symbols ++ [.object l[i]]) (by omega)
      have hdrop : l.drop i = l[i] :: l.drop (i + 1) := List.drop_eq_getElem_cons hi
      have htake : symbols ++ [QJsonValue.object l[i]]
            ++ ((l.drop (i + 1)).take (j - (i + 1))).map QJsonValue.object
          = symbols ++ ((l.drop i).take (j - i)).map QJsonValue.object := by
        rw [hdrop, show j - i = (j - (i + 1)) + 1 by omega, List.take_succ_cons]
        simp
      refine ⟨j, stopped, ?_, by omega, by omega, fun hs => by have := h3 hs; omega, ?_⟩
      · rw [fillBatch, hget]
        simp only [hfit, if_true]
        rw [hj, htake]
      · intro hs
        obtain ⟨o, ho, hno⟩ := h4 hs
        exact ⟨o, ho, by rw [← htake]; exact hno⟩
    · refine ⟨i, true, ?_, le_refl _, by omega, fun h => by simp at h, fun _ => ⟨l[i], hget, ?_⟩⟩
      · rw [fillBatch, hget]
        simp [hfit]
      · simpa using hfit

theorem value_set_self (o : QJsonObject) (k : String) (v : QJsonValue) :
    (o.set k v).value k = v := by
  simp [QJsonObject.set, QJsonObject.value, lookupEntry_insertEntry_self]

theorem value_set_ne (o : QJsonObject) {k k' : String} (v : QJsonValue)
    (h : QLatin1String k' ≠ QLatin1String k) :
    (o.set k v).value k' = o.value k' := by
  simp [QJsonObject.set, QJsonObject.value, lookupEntry_insertEntry_ne h]

/-- The responses of the `while` loop, when every symbol can be appended to an empty array:
    their batches, one after the other, are the symbols from `start` on, and every one of
    them carries the total. -/
theorem sendRemaining_spec (env : Env) (l : List QJsonObject) (filename : QString)
    (tot : Nat) (hfits : ∀ o ∈ l, env.appendFits [] (.object o) = true)
    (fuel start : Nat) (hstart : start ≤ l.length) (hfuel : l.length - start < fuel) :
    ∃ more, sendRemaining env l filename tot l.length fuel start = some more ∧
      (more.map fun msg => (msg.value "content").toArray).flatten
        = (l.drop start).map QJsonValue.object ∧
      (∀ msg ∈ more, msg.value "tot_symbols" = .double tot ∧
        msg.value "type" = .string (QLatin1String "file_to_open")) := by
  induction fuel generalizing start with
  | zero => omega
  | succ fuel ih =>
    obtain ⟨j, stopped, hj, h1, h2, h3, h4⟩ :=
      fillBatch_spec env l (l.length - start) start [] (by omega)
    have hcontent : ∀ (a : QJsonArray),
        ((((((response "file_to_open").set "success" (.bool true)).set "filename"
          (.string filename)).set "tot_symbols" (.double tot)).set "content"
          (.array a)).value "content").toArray = a := by
      intro a; rw [value_set_self]; rfl
    have htot : ∀ (a : QJsonArray),
        (((((response "file_to_open").set "success" (.bool true)).set "filename"
          (.string filename)).set "tot_symbols" (.double tot)).set "content"
          (.array a)).value "tot_symbols" = .double tot := by
      intro a
      rw [value_set_ne _ _ (by decide), value_set_self]
    have htype : ∀ (a : QJsonArray),
        (((((response "file_to_open").set "success" (.bool true)).set "filename"
          (.string filename)).set "tot_symbols" (.double tot)).set "content"
          (.array a)).value "type" = .string (QLatin1String "file_to_open") := by
      intro a
      rw [value_set_ne _ _ (by decide), value_set_ne _ _ (by decide),
        value_set_ne _ _ (by decide), value_set_ne _ _ (by decide)]
      exact value_set_self _ _ _
    rw [sendRemaining, hj]
    simp only [List.nil_append]
    by_cases hend : j = l.length
    · refine ⟨_, by rw [if_pos hend], ?_, ?_⟩
      · simp only [List.map_cons, List.map_nil, List.flatten_cons, List.flatten_nil,
          List.append_nil, hcontent]
        rw [hend, List.take_of_length_le (by simp)]
      · intro msg hmsg
        rw [List.mem_singleton] at hmsg
        subst hmsg
        exact ⟨htot _, htype _⟩
    · have hstop : stopped = true := by
        cases hs : stopped with
        | true => rfl
        | false => exact absurd (by have := h3 hs; omega) hend
      obtain ⟨o, ho, hno⟩ := h4 hstop
      have hjlt : j < l.length := by
        by_contra hge
        rw [List.getElem?_eq_none (by omega)] at ho
        exact Option.noConfusion ho
      have hprog : j ≠ start := by
        intro e
        subst e
        have hmem : o ∈ l := List.getElem?_mem ho
        have := hfits o hmem
        simp only [Nat.sub_self, List.take_zero, List.map_nil, List.append_nil] at hno
        rw [this] at hno
        exact Bool.noConfusion hno
      obtain ⟨more, hmore, hcat, hall⟩ := ih j (by omega) (by omega)
      refine ⟨_, by rw [if_neg hend, if_pos ⟨hstop, hprog⟩, hmore]; rfl, ?_, ?_⟩
      · simp only [List.map_cons, List.flatten_cons, hcontent, hcat]
        rw [← List.map_append]
        congr 1
        have : l.drop j = (l.drop start).drop (j - start) := by
          rw [List.drop_drop]; congr 1; omega
        rw [this, List.take_append_drop]
      · intro msg hmsg
        rcases List.mem_cons.mp hmsg with hmsg | hmsg
        · subst hmsg
          exact ⟨htot _, htype _⟩
        · exact hall msg hmsg

theorem QMap.find_insert_self {K V : Type} [LinearOrder K] (m : QMap K V) (k : K) (v : V) :
    (m.insert k v).find k = some v :=
  lookupEntry_insertEntry_self k v m.entries

theorem QMap.find_insert_ne {K V : Type} [LinearOrder K] (m : QMap K V) {k k' : K} (v : V)
    (h : k' ≠ k) : (m.insert k v).find k' = m.find k' :=
  lookupEntry_insertEntry_ne h v m.entries

theorem isEmpty_eq_false_of_ne_nil {α : Type} {l : List α} (h : l ≠ []) : l.isEmpty = false := by
  cases l with
  | nil => exact absurd rfl h
  | cons a t => rfl

theorem registerSession_symbols (st : Server) (sender : Nat) (f : QString) :
    (registerSession st sender f).symbols_list = st.symbols_list := by
  unfold registerSession
  simp only []
  split_ifs <;> rfl

theorem registerSession_changed (st : Server) (sender : Nat) (f : QString) :
    (registerSession st sender f).changed = st.changed := by
  unfold registerSession
  simp only []
  split_ifs <;> rfl

theorem registerSession_filename (st : Server) (sender : Nat) (f : QString) :
    ((registerSession st sender f).workers sender).filename = f := by
  unfold registerSession
  simp only []
  split_ifs <;> simp [Server.setFilename]

theorem registerSession_registered (st : Server) (sender : Nat) (f : QString) :
    ∃ c, (registerSession st sender f).mapFileWorkers.find f = some c := by
  unfold registerSession
  simp only []
  split_ifs with h
  · simp only [Server.setFilename, QMap.contains] at h
    obtain ⟨c, hc⟩ := Option.isSome_iff_exists.mp h
    refine ⟨c ++ [sender], ?_⟩
    simp only [Server.setFilename]
    rw [QMap.find_update, if_pos rfl, hc]
    rfl
  · exact ⟨[sender], QMap.find_insert_self _ _ _⟩

theorem storeSymbol_workers (sender : Nat) (st : Server) (s : QJsonObject) :
    (storeSymbol sender st s).workers = st.workers := by
  unfold storeSymbol
  simp only []
  split_ifs <;> rfl

theorem storeSymbol_mapFileWorkers (sender : Nat) (st : Server) (s : QJsonObject) :
    (storeSymbol sender st s).mapFileWorkers = st.mapFileWorkers := by
  unfold storeSymbol
  simp only []
  split_ifs <;> rfl

theorem storeSymbol_symbols (sender : Nat) (st : Server) (s : QJsonObject) :
    (storeSymbol sender st s).symbols_list.find (st.workers sender).filename
      = some (((st.symbols_list.find (st.workers sender).filename).getD QMap.empty).insert
          (positionKey s) s) := by
  unfold storeSymbol
  simp only []
  cases hm : st.symbols_list.find (st.workers sender).filename with
  | none =>
    have hc : st.symbols_list.contains (st.workers sender).filename = false := by
      simp [QMap.contains, hm]
    simp only [hc, Bool.not_false, if_true]
    rw [QMap.find_update, if_pos rfl, QMap.find_insert_self]
    rfl
  | some m =>
    have hc : st.symbols_list.contains (st.workers sender).filename = true := by
      simp [QMap.contains, hm]
    simp only [hc, Bool.not_true, Bool.false_eq_true, if_false]
    rw [QMap.find_update, if_pos rfl, hm]
    rfl

theorem storeSymbols_frame (st : Server) (sender : Nat) (l : List QJsonObject) :
    (storeSymbolsServerMemory st sender l).workers = st.workers ∧
    (storeSymbolsServerMemory st sender l).mapFileWorkers = st.mapFileWorkers := by
  unfold storeSymbolsServerMemory
  induction l generalizing st with
  | nil => exact ⟨rfl, rfl⟩
  | cons s t ih =>
    rw [List.foldl_cons]
    obtain ⟨h1, h2⟩ := ih (storeSymbol sender st s)
    rw [h1, h2, storeSymbol_workers, storeSymbol_mapFileWorkers]
    exact ⟨rfl, rfl⟩

theorem storeSymbols_of_some (st : Server) (sender : Nat) (l : List QJsonObject)
    (m : QMap QString QJsonObject)
    (hm : st.symbols_list.find (st.workers sender).filename = some m) :
    (storeSymbolsServerMemory st sender l).symbols_list.find (st.workers sender).filename
      = some (l.foldl (fun m s => m.insert (positionKey s) s) m) := by
  unfold storeSymbolsServerMemory
  induction l generalizing st m with
  | nil => exact hm
  | cons s t ih =>
    rw [List.foldl_cons, List.foldl_cons]
    have h := ih (storeSymbol sender st s) (m.insert (positionKey s) s)
    rw [storeSymbol_workers] at h
    apply h
    rw [storeSymbol_symbols, hm]
    rfl

theorem storeSymbols_of_none (st : Server) (sender : Nat) (l : List QJsonObject)
    (hm : st.symbols_list.find (st.workers sender).filename = none) (hl : l ≠ []) :
    (storeSymbolsServerMemory st sender l).symbols_list.find (st.workers sender).filename
      = some (l.foldl (fun m s => m.insert (positionKey s) s) QMap.empty) := by
  cases l with
  | nil => exact absurd rfl hl
  | cons s t =>
    rw [List.foldl_cons]
    have h := storeSymbols_of_some (storeSymbol sender st s) sender t
      ((QMap.empty : QMap QString QJsonObject).insert (positionKey s) s)
    rw [storeSymbol_workers] at h
    apply h
    rw [storeSymbol_symbols, hm]
    rfl

theorem length_insertEntry_of_lookup_none {K V : Type} [LinearOrder K] (k : K) (v : V)
    (l : List (K × V)) (h : lookupEntry k l = none) :
    (insertEntry k v l).length = l.length + 1 := by
  induction l with
  | nil => rfl
  | cons e t ih =>
    obtain ⟨k', v'⟩ := e
    by_cases hk : k = k'
    · subst hk
      simp [lookupEntry] at h
    · have ht : lookupEntry k t = none := by simpa [lookupEntry, hk] using h
      unfold insertEntry
      split_ifs with h1 h2
      · rfl
      · simp [ih ht]
      · exact absurd (le_antisymm (not_lt.mp h2) (not_lt.mp h1)) hk

/-- Filing symbols whose position keys are new and pairwise different adds one entry each. -/
theorem length_insertAll (l : List QJsonObject) (m : QMap QString QJsonObject)
    (hnew : ∀ s ∈ l, m.find (positionKey s) = none) (hnd : (l.map positionKey).Nodup) :
    (l.foldl (fun m s => m.insert (positionKey s) s) m).values.length
      = m.values.length + l.length := by
  induction l generalizing m with
  | nil => rfl
  | cons s t ih =>
    rw [List.foldl_cons, ih]
    · have := length_insertEntry_of_lookup_none (positionKey s) s m.entries
        (hnew s (List.mem_cons_self _ _))
      simp only [QMap.values, QMap.insert, List.length_map, List.length_cons] at this ⊢
      omega
    · intro s' hs'
      have hne : positionKey s' ≠ positionKey s := by
        intro e
        have := (List.nodup_cons.mp hnd).1
        exact this (e ▸ List.mem_map_of_mem positionKey hs')
      rw [QMap.find_insert_ne _ _ hne]
      exact hnew s' (List.mem_cons_of_mem _ hs')
    · exact (List.nodup_cons.mp hnd).2

/-- The responses of a successful snapshot: their batches, one after the other, are the
    served list, and each carries the number of served symbols. -/
theorem snapshotFrames_spec (env : Env) (filename : QString) (users : QJsonArray)
    (v : List QByteArray) (sharedLink : QString) (l : List QJsonObject)
    (table : Option (QMap QString QJsonObject))
    (hfits : ∀ o ∈ l, env.appendFits [] (.object o) = true)
    (htable : l ≠ [] → ∃ m, table = some m ∧ m.values.length = l.length) :
    ∃ frames, snapshotFrames env filename users v sharedLink true l table = some frames ∧
      (frames.map fun f => (f.1.value "content").toArray).flatten = l.map QJsonValue.object ∧
      (∀ f ∈ frames, f.1.value "tot_symbols" = .double l.length ∧
        f.1.value "type" = .string (QLatin1String "file_to_open")) := by
  obtain ⟨j, stopped, hj, _, h2, h3, h4⟩ := fillBatch_spec env l l.length 0 [] (by omega)
  have hcontent : ∀ (a : QJsonArray),
      (((((((((response "file_to_open").set "success" (.bool true)).set "content"
        (.array a)).set "filename" (.string filename)).set "tot_symbols"
        (.double l.length)).set "info" (.bool true)).set "users" (.array users)).set
        "shared_link" (.string sharedLink)).value "content").toArray = a := by
    intro a
    rw [value_set_ne _ _ (by decide), value_set_ne _ _ (by decide),
      value_set_ne _ _ (by decide), value_set_ne _ _ (by decide),
      value_set_ne _ _ (by decide), value_set_self]
    rfl
  have htot : ∀ (a : QJsonArray),
      ((((((((response "file_to_open").set "success" (.bool true)).set "content"
        (.array a)).set "filename" (.string filename)).set "tot_symbols"
        (.double l.length)).set "info" (.bool true)).set "users" (.array users)).set
        "shared_link" (.string sharedLink)).value "tot_symbols" = .double l.length := by
    intro a
    rw [value_set_ne _ _ (by decide), value_set_ne _ _ (by decide),
      value_set_ne _ _ (by decide), value_set_self]
  have htype : ∀ (a : QJsonArray),
      ((((((((response "file_to_open").set "success" (.bool true)).set "content"
        (.array a)).set "filename" (.string filename)).set "tot_symbols"
        (.double l.length)).set "info" (.bool true)).set "users" (.array users)).set
        "shared_link" (.string sharedLink)).value "type"
          = .string (QLatin1String "file_to_open") := by
    intro a
    rw [value_set_ne _ _ (by decide), value_set_ne _ _ (by decide),
      value_set_ne _ _ (by decide), value_set_ne _ _ (by decide),
      value_set_ne _ _ (by decide), value_set_ne _ _ (by decide),
      value_set_ne _ _ (by decide)]
    exact value_set_self _ _ _
  unfold snapshotFrames
  rw [hj]
  simp only []
  cases hs : stopped with
  | false =>
    have hjl : j = l.length := by have := h3 hs; omega
    rw [if_neg (by simp)]
    refine ⟨_, rfl, ?_, ?_⟩
    · simp only [List.map_cons, List.map_nil, List.flatten_cons, List.flatten_nil,
        List.append_nil, hcontent, if_true]
      rw [hjl, List.nil_append, List.drop_zero, Nat.sub_zero,
        List.take_of_length_le (le_refl _)]
    · intro f hf
      rw [List.mem_singleton] at hf
      subst hf
      exact ⟨htot _, htype _⟩
  | true =>
    obtain ⟨o, ho, _⟩ := h4 hs
    have hjlt : j < l.length := by
      by_contra hge
      rw [List.getElem?_eq_none (by omega)] at ho
      exact Option.noConfusion ho
    have hne : l ≠ [] := by
      intro e
      subst e
      simp at hjlt
    obtain ⟨m, hm, hlen⟩ := htable hne
    obtain ⟨more, hmore, hcat, hall⟩ := sendRemaining_spec env l filename l.length hfits
      (l.length + 1) j (by omega) (by omega)
    rw [if_pos (by simp), hm]
    simp only []
    rw [hlen, hmore]
    refine ⟨_, rfl, ?_, ?_⟩
    · simp only [List.map_cons, List.flatten_cons, hcontent, List.map_map, if_true]
      have : (List.map ((fun f : QJsonObject × List QByteArray => (f.1.value "content").toArray)
          ∘ fun msg => (msg, ([] : List QByteArray))) more)
          = more.map fun msg => (msg.value "content").toArray := rfl
      rw [this, hcat, List.nil_append, List.drop_zero, Nat.sub_zero, ← List.map_append,
        List.take_append_drop]
    · intro f hf
      rcases List.mem_cons.mp hf with hf | hf
      · subst hf
        exact ⟨htot _, htype _⟩
      · obtain ⟨msg, hmsg, rfl⟩ := List.mem_map.mp hf
        exact hall msg hmsg

theorem broadcastByteArray_of_find (st : Server) (message : QJsonObject) (bArray : QByteArray)
    (sender : Nat) (c : List Nat)
    (hc : st.mapFileWorkers.find (st.workers sender).filename = some c) :
    ∃ notices, broadcastByteArray st message bArray sender = some notices ∧
      ∀ e ∈ notices, ∃ w b, e = Event.sendByteArray w b ∧ w ∈ c ∧ w ≠ sender := by
  unfold broadcastByteArray
  simp only [hc]
  refine ⟨_, rfl, ?_⟩
  intro e he
  obtain ⟨w, hw, hew⟩ := List.mem_flatMap.mp he
  by_cases h : w = sender
  · simp [h] at hew
  · simp only [h, if_false, List.mem_singleton] at hew
    exact ⟨w, _, hew, hw, h⟩

theorem loadSymbols_of_some (env : Env) (st : Server) (sender : Nat) (f : QString)
    (m : QMap QString QJsonObject) (hm : st.symbols_list.find f = some m) :
    loadSymbols env st sender f = (st, true, m.values) := by
  simp only [loadSymbols, hm]

theorem loadSymbols_of_none (env : Env) (st : Server) (sender : Nat) (f : QString)
    (hm : st.symbols_list.find f = none) :
    loadSymbols env st sender f
      = (storeSymbolsServerMemory st sender (env.db.retrieveFile f).2,
          (env.db.retrieveFile f).1, (env.db.retrieveFile f).2) := by
  simp only [loadSymbols, hm]

/-- What `sendFile` does for a request whose file name is a non-empty string, in terms of
    its parts. -/
theorem sendFile_eq (env : Env) (st : Server) (sender : Nat) (doc : QJsonObject)
    (hname : (doc.value "filename").isString = true)
    (hfile : simplified (doc.value "filename").toQString ≠ []) :
    sendFile env st sender doc =
      let filename := simplified (doc.value "filename").toQString
      let st1 := registerSession st sender filename
      let users := connectedUsers env st1 sender ((st1.mapFileWorkers.find filename).getD [])
      let loaded := loadSymbols env st1 sender filename
      match snapshotFrames env filename users.1 users.2
          (env.db.getSharedLink
            (right filename ((filename.length : Int) - lastIndexOf filename 44 - 1))
            (left filename (lastIndexOf filename 44)))
          loaded.2.1 loaded.2.2 (loaded.1.symbols_list.find filename) with
      | none => none
      | some frames =>
        match broadcastByteArray loaded.1
            ((((response "connection").set "filename" (.string filename)).set "username"
              (.string (loaded.1.workers sender).username)).set "nickname"
              (.string (loaded.1.workers sender).nickname))
            ((env.profileImage (loaded.1.workers sender).username).getD []) sender with
        | none => none
        | some notices =>
          some (loaded.1,
            frames.map (fun f => Event.sendByteArray sender (createByteArrayJsonImage f.1 f.2))
              ++ notices,
            (frames.getLast?.map Prod.fst).getD (response "file_to_open")) := by
  unfold sendFile
  simp only [hname, isNull_of_isString hname, isEmpty_eq_false_of_ne_nil hfile, Bool.not_true,
    Bool.or_self, Bool.false_eq_true, if_false]
  try rfl

/-- C6: when a file opens successfully, whether its symbols `l` are the values of the map the
    server holds or the list the store provides, the `file_to_open` frames that `sendFile`
    sends to the joining session carry, one batch after the other in sending order, exactly
    the list `l`, and every one of them carries `tot_symbols = l.length`; the only other
    things sent are the connection notices to other sessions.  (Every symbol is one that an
    empty `QJsonArray` takes, and a list provided by the store has pairwise different
    positions.) -/
theorem snapshot_frames_reassemble (env : Env) (st : Server) (sender : Nat) (doc : QJsonObject)
    (l : List QJsonObject)
    (hname : (doc.value "filename").isString = true)
    (hfile : simplified (doc.value "filename").toQString ≠ [])
    (hserved :
      (∃ m, st.symbols_list.find (simplified (doc.value "filename").toQString) = some m ∧
        l = m.values) ∨
      (st.symbols_list.find (simplified (doc.value "filename").toQString) = none ∧
        env.db.retrieveFile (simplified (doc.value "filename").toQString) = (true, l) ∧
        (l.map positionKey).Nodup))
    (hfits : ∀ o ∈ l, env.appendFits [] (.object o) = true) :
    ∃ (st' : Server) (message : QJsonObject) (frames : List (QJsonObject × List QByteArray))
        (notices : List Event),
      sendFile env st sender doc = some (st',
        frames.map (fun f => Event.sendByteArray sender (createByteArrayJsonImage f.1 f.2))
          ++ notices, message) ∧
      (∀ e ∈ notices, ∃ w b, e = Event.sendByteArray w b ∧ w ≠ sender) ∧
      (frames.map fun f => (f.1.value "content").toArray).flatten = l.map QJsonValue.object ∧
      (∀ f ∈ frames, f.1.value "tot_symbols" = .double l.length ∧
        f.1.value "type" = .string (QLatin1String "file_to_open")) := by
  rw [sendFile_eq env st sender doc hname hfile]
  simp only []
  generalize hf : simplified (doc.value "filename").toQString = filename at hserved hfile ⊢
  obtain ⟨c, hc⟩ := registerSession_registered st sender filename
  have hfn := registerSession_filename st sender filename
  have hsym := registerSession_symbols st sender filename
  rcases hserved with ⟨m, hm, hl⟩ | ⟨hnone, hdb, hnd⟩
  · rw [loadSymbols_of_some env _ sender filename m (by rw [hsym]; exact hm)]
    simp only []
    obtain ⟨frames, hframes, hcat, hall⟩ := snapshotFrames_spec env filename
      (connectedUsers env (registerSession st sender filename) sender
        (((registerSession st sender filename).mapFileWorkers.find filename).getD [])).1
      (connectedUsers env (registerSession st sender filename) sender
        (((registerSession st sender filename).mapFileWorkers.find filename).getD [])).2
      (env.db.getSharedLink
        (right filename ((filename.length : Int) - lastIndexOf filename 44 - 1))
        (left filename (lastIndexOf filename 44)))
      l ((registerSession st sender filename).symbols_list.find filename) hfits
      (fun _ => ⟨m, by rw [hsym]; exact hm, by rw [hl]⟩)
    rw [← hl, hframes]
    simp only []
    obtain ⟨notices, hnot, hprop⟩ := broadcastByteArray_of_find (registerSession st sender filename)
      ((((response "connection").set "filename" (.string filename)).set "username"
        (.string ((registerSession st sender filename).workers sender).username)).set "nickname"
        (.string ((registerSession st sender filename).workers sender).nickname))
      ((env.profileImage ((registerSession st sender filename).workers sender).username).getD [])
      sender c (by rw [hfn]; exact hc)
    rw [hnot]
    exact ⟨_, _, frames, notices, rfl, fun e he => by
      obtain ⟨w, b, h1, _, h2⟩ := hprop e he
      exact ⟨w, b, h1, h2⟩, hcat, hall⟩
  · rw [loadSymbols_of_none env _ sender filename (by rw [hsym]; exact hnone), hdb]
    simp only []
    obtain ⟨hw, hmw⟩ := storeSymbols_frame (registerSession st sender filename) sender l
    have htable : l ≠ [] → ∃ m,
        (storeSymbolsServerMemory (registerSession st sender filename) sender l).symbols_list.find
          filename = some m ∧ m.values.length = l.length := by
      intro hne
      have h := storeSymbols_of_none (registerSession st sender filename) sender l
        (by rw [hfn, hsym]; exact hnone) hne
      rw [hfn] at h
      refine ⟨_, h, ?_⟩
      rw [length_insertAll l QMap.empty (fun _ _ => rfl) hnd]
      simp [QMap.values, QMap.empty]
    obtain ⟨frames, hframes, hcat, hall⟩ := snapshotFrames_spec env filename
      (connectedUsers env (registerSession st sender filename) sender
        (((registerSession st sender filename).mapFileWorkers.find filename).getD [])).1
      (connectedUsers env (registerSession st sender filename) sender
        (((registerSession st sender filename).mapFileWorkers.find filename).getD [])).2
      (env.db.getSharedLink
        (right filename ((filename.length : Int) - lastIndexOf filename 44 - 1))
        (left filename (lastIndexOf filename 44)))
      l _ hfits htable
    rw [hframes]
    simp only []
    obtain ⟨notices, hnot, hprop⟩ := broadcastByteArray_of_find
      (storeSymbolsServerMemory (registerSession st sender filename) sender l)
      ((((response "connection").set "filename" (.string filename)).set "username"
        (.string ((storeSymbolsServerMemory (registerSession st sender filename) sender
          l).workers sender).username)).set "nickname"
        (.string ((storeSymbolsServerMemory (registerSession st sender filename) sender
          l).workers sender).nickname))
      ((env.profileImage ((storeSymbolsServerMemory (registerSession st sender filename) sender
          l).workers sender).username).getD [])
      sender c (by rw [hw, hmw, hfn]; exact hc)
    rw [hnot]
    exact ⟨_, _, frames, notices, rfl, fun e he => by
      obtain ⟨w, b, h1, _, h2⟩ := hprop e he
      exact ⟨w, b, h1, h2⟩, hcat, hall⟩

section Lex
variable {α : Type} [LinearOrder α]

theorem cons_lt_cons_iff_lex (a b : α) (x y : List α) :
    a :: x < b :: y ↔ a < b ∨ (a = b ∧ x < y) := by
  constructor
  · intro h
    cases h with
    | cons h => exact Or.inr ⟨rfl, h⟩
    | rel h => exact Or.inl h
  · rintro (h | ⟨rfl, h⟩)
    · exact List.Lex.rel h
    · exact List.Lex.cons h

theorem append_lt_append_left_iff (p x y : List α) : p ++ x < p ++ y ↔ x < y := by
  induction p with
  | nil => rfl
  | cons a t ih =>
    rw [List.cons_append, List.cons_append, cons_lt_cons_iff_lex]
    simp [ih]

theorem append_lt_append_of_length_eq (u u' x y : List α) (h : u.length = u'.length) :
    u ++ x < u' ++ y ↔ u < u' ∨ (u = u' ∧ x < y) := by
  induction u generalizing u' with
  | nil =>
    cases u' with
    | nil => simp
    | cons b t => simp at h
  | cons a t ih =>
    cases u' with
    | nil => simp at h
    | cons b t' =>
      have hl : t.length = t'.length := by simpa using h
      rw [List.cons_append, List.cons_append, cons_lt_cons_iff_lex, cons_lt_cons_iff_lex, ih t' hl]
      constructor
      · rintro (h1 | ⟨rfl, h2 | ⟨rfl, h3⟩⟩)
        · exact Or.inl (Or.inl h1)
        · exact Or.inl (Or.inr ⟨rfl, h2⟩)
        · exact Or.inr ⟨rfl, h3⟩
      · rintro ((h1 | ⟨rfl, h2⟩) | ⟨h4, h3⟩)
        · exact Or.inl h1
        · exact Or.inr ⟨rfl, Or.inl h2⟩
        · obtain ⟨rfl, rfl⟩ := List.cons.inj h4
          exact Or.inr ⟨rfl, Or.inr ⟨rfl, h3⟩⟩

end Lex

theorem decimalDigits_fuel (f f' n : Nat) (h : n < f) (h' : n < f') :
    decimalDigits f n = decimalDigits f' n := by
  induction f generalizing n f' with
  | zero => omega
  | succ f ih =>
    cases f' with
    | zero => omega
    | succ f' =>
      unfold decimalDigits
      split_ifs with h10
      · rfl
      · rw [ih f' (n / 10) (by omega) (by omega)]

theorem decimal_eq (n : Nat) :
    decimal n = if n < 10 then [48 + n] else decimal (n / 10) ++ [48 + n % 10] := by
  unfold decimal
  rw [decimalDigits]
  split_ifs with h
  · rfl
  · rw [decimalDigits_fuel n (n / 10 + 1) (n / 10) (by omega) (by omega)]

theorem decimal_ne_nil (n : Nat) : decimal n ≠ [] := by
  rw [decimal_eq]
  split_ifs <;> simp

/-- Decimal texts of the same length compare as the numbers do. -/
theorem decimal_order (m n : Nat) (h : (decimal m).length = (decimal n).length) :
    (decimal m < decimal n ↔ m < n) ∧ (decimal m = decimal n ↔ m = n) := by
  induction m using Nat.strong_induction_on generalizing n with
  | _ m ih =>
    have hlen : ∀ k, 10 ≤ k → 2 ≤ (decimal k).length := by
      intro k hk
      rw [decimal_eq, if_neg (by omega), List.length_append]
      have := List.length_pos.mpr (decimal_ne_nil (k / 10))
      simp only [List.length_singleton]
      omega
    have hlen1 : ∀ k, k < 10 → (decimal k).length = 1 := by
      intro k hk
      rw [decimal_eq, if_pos hk]
      rfl
    by_cases hm : m < 10
    · have hn : n < 10 := by
        by_contra hge
        have := hlen n (by omega)
        rw [← h, hlen1 m hm] at this
        omega
      rw [decimal_eq m, decimal_eq n, if_pos hm, if_pos hn]
      constructor
      · rw [cons_lt_cons_iff_lex]
        constructor
        · rintro (h1 | ⟨_, h2⟩)
          · omega
          · exact absurd h2 (List.Lex.not_nil_right _ _)
        · intro h1
          exact Or.inl (by omega)
      · simp
    · have hn : ¬ n < 10 := by
        intro hlt
        have := hlen m (by omega)
        rw [h, hlen1 n hlt] at this
        omega
      have hq : (decimal (m / 10)).length = (decimal (n / 10)).length := by
        rw [decimal_eq m, decimal_eq n, if_neg hm, if_neg hn] at h
        simpa using h
      obtain ⟨ih1, ih2⟩ := ih (m / 10) (by omega) (n / 10) hq
      rw [decimal_eq m, decimal_eq n, if_neg hm, if_neg hn]
      constructor
      · rw [append_lt_append_of_length_eq _ _ _ _ hq, ih1, ih2, cons_lt_cons_iff_lex]
        constructor
        · rintro (h1 | ⟨h2, h3 | ⟨_, h4⟩⟩)
          · omega
          · omega
          · exact absurd h4 (List.Lex.not_nil_right _ _)
        · intro hlt
          by_cases hq' : m / 10 < n / 10
          · exact Or.inl hq'
          · exact Or.inr ⟨by omega, Or.inl (by omega)⟩
      · constructor
        · intro e
          have e1 := List.append_inj_left e hq
          have e2 := List.append_inj_right e hq
          have := ih2.mp e1
          simp only [List.cons.injEq, and_true] at e2
          omega
        · intro e
          rw [e]

theorem numberText_of_nonneg (n : Int) (h : 0 ≤ n) : numberText n = decimal n.natAbs := by
  unfold numberText
  rw [if_neg (by omega)]

theorem componentText_eq (c : Int × Int) (h1 : 0 ≤ c.1) (h2 : 0 ≤ c.2) :
    spaces 4 ++ valueToJson (.array [.double c.1, .double c.2]) 1 = componentText c := by
  have hbr : QLatin1String "[\n" = [91, 10] := by decide
  simp only [valueToJson, arrayContentToJson, hbr, numberText_of_nonneg _ h1,
    numberText_of_nonneg _ h2, componentText, List.append_assoc, List.cons_append,
    List.nil_append]

theorem key_eq_keyFrom (a : Identifier) (hne : a ≠ [])
    (hpos : ∀ c ∈ a, 0 ≤ c.1 ∧ 0 ≤ c.2) : a.key = [91, 10] ++ keyFrom a := by
  have hbr : QLatin1String "[\n" = [91, 10] := by decide
  have hend : QLatin1String "]\n" = [93, 10] := by decide
  have hcontent : ∀ (a : Identifier), a ≠ [] → (∀ c ∈ a, 0 ≤ c.1 ∧ 0 ≤ c.2) →
      arrayContentToJson a.toPosition 1 ++ [93, 10] = keyFrom a := by
    intro a
    induction a with
    | nil => intro h; exact absurd rfl h
    | cons c t ih =>
      intro _ hp
      have hc := hp c (List.mem_cons_self _ _)
      cases t with
      | nil =>
        simp only [Identifier.toPosition, List.map_cons, List.map_nil, arrayContentToJson,
          keyFrom]
        rw [componentText_eq c hc.1 hc.2]
        simp
      | cons d t' =>
        have ih' := ih (by simp) (fun c' hc' => hp c' (List.mem_cons_of_mem _ hc'))
        simp only [Identifier.toPosition, List.map_cons, arrayContentToJson, keyFrom] at ih' ⊢
        rw [componentText_eq c hc.1 hc.2]
        simp only [List.append_assoc]
        rw [ih']
  unfold Identifier.key fromJsonArraytoString arrayToJson
  rw [hbr, hend, List.append_assoc, hcontent a hne hpos]

/-- What follows the text of a component in a key. -/
theorem keyFrom_cons (x : Int × Int) (t : Identifier) :
    keyFrom (x :: t) = componentText x ++ keyRest t := by
  cases t <;> rfl

theorem identifier_lt_cons (x y : Int × Int) (ta tb : Identifier) :
    Identifier.lt (x :: ta) (y :: tb) = true ↔
      x.1 < y.1 ∨ (x.1 = y.1 ∧ (x.2 < y.2 ∨ (x.2 = y.2 ∧ Identifier.lt ta tb = true))) := by
  rw [Identifier.lt]
  split_ifs with h1 h2 h3 h4
  · simp [h1]
  · constructor
    · intro h; exact absurd h (by simp)
    · rintro (h | ⟨h, _⟩) <;> omega
  · constructor
    · intro _; exact Or.inr ⟨by omega, Or.inl h3⟩
    · intro _; rfl
  · constructor
    · intro h; exact absurd h (by simp)
    · rintro (h | ⟨_, h | ⟨h, _⟩⟩) <;> omega
  · constructor
    · intro h; exact Or.inr ⟨by omega, Or.inr ⟨by omega, h⟩⟩
    · rintro (h | ⟨_, h | ⟨_, h⟩⟩)
      · omega
      · omega
      · exact h

/-- On Identifiers whose levels have one number of digits and whose sites have one number of
    digits, the texts from the first component on compare as the Identifiers do. -/
theorem keyFrom_lt_iff (d1 d2 : Nat) (a b : Identifier) (ha : a ≠ []) (hb : b ≠ [])
    (hda : a.SameDigits d1 d2) (hdb : b.SameDigits d1 d2) :
    keyFrom a < keyFrom b ↔ Identifier.lt a b = true := by
  induction a generalizing b with
  | nil => exact absurd rfl ha
  | cons x ta ih =>
    cases b with
    | nil => exact absurd rfl hb
    | cons y tb =>
      obtain ⟨hx1, hx2, hxl1, hxl2⟩ := hda x (List.mem_cons_self _ _)
      obtain ⟨hy1, hy2, hyl1, hyl2⟩ := hdb y (List.mem_cons_self _ _)
      have hta : Identifier.SameDigits d1 d2 ta := fun c hc => hda c (List.mem_cons_of_mem _ hc)
      have htb : Identifier.SameDigits d1 d2 tb := fun c hc => hdb c (List.mem_cons_of_mem _ hc)
      obtain ⟨o1, e1⟩ := decimal_order x.1.natAbs y.1.natAbs (by rw [hxl1, hyl1])
      obtain ⟨o2, e2⟩ := decimal_order x.2.natAbs y.2.natAbs (by rw [hxl2, hyl2])
      have hrest : keyRest ta < keyRest tb ↔ Identifier.lt ta tb = true := by
        cases ta with
        | nil =>
          cases tb with
          | nil => simp [Identifier.lt, keyRest]
          | cons d t' =>
            simp only [Identifier.lt, iff_true, keyRest]
            exact List.Lex.rel (by decide)
        | cons c t =>
          cases tb with
          | nil =>
            simp only [Identifier.lt, Bool.false_eq_true, iff_false, keyRest]
            intro h
            rw [List.cons_append, cons_lt_cons_iff_lex] at h
            rcases h with h | ⟨h, _⟩ <;> omega
          | cons d t' =>
            simp only [keyRest]
            rw [append_lt_append_left_iff]
            exact ih (d :: t') (by simp) (by simp) hta htb
      rw [keyFrom_cons, keyFrom_cons, identifier_lt_cons]
      simp only [componentText, List.append_assoc]
      rw [append_lt_append_left_iff, append_lt_append_left_iff, append_lt_append_left_iff,
        append_lt_append_of_length_eq _ _ _ _ (by rw [hxl1, hyl1]),
        append_lt_append_left_iff, append_lt_append_left_iff,
        append_lt_append_of_length_eq _ _ _ _ (by rw [hxl2, hyl2]),
        append_lt_append_left_iff, append_lt_append_left_iff, append_lt_append_left_iff,
        hrest, o1, e1, o2, e2]
      have n1 : x.1.natAbs < y.1.natAbs ↔ x.1 < y.1 := by omega
      have n2 : x.1.natAbs = y.1.natAbs ↔ x.1 = y.1 := by omega
      have n3 : x.2.natAbs < y.2.natAbs ↔ x.2 < y.2 := by omega
      have n4 : x.2.natAbs = y.2.natAbs ↔ x.2 = y.2 := by omega
      rw [n1, n2, n3, n4]

/-- C5 (counterexample): the Identifier with level 9 is below the one with level 10, but its
    key is not below the other key, because the keys are compared as text. -/
theorem key_order_fails_for_nine_and_ten :
    ¬ (Identifier.lt [(9, 0)] [(10, 0)] = true ↔
        Identifier.key [(9, 0)] < Identifier.key [(10, 0)]) := by
  decide

/-- C5 (amended): for two non-empty Identifiers whose levels are non-negative numbers of one
    and the same number of decimal digits, and whose sites are non-negative numbers of one and
    the same number of decimal digits, `a < b` holds exactly when the key of `a` is
    string-less-than the key of `b`. -/
theorem key_order_for_equal_digit_counts (d1 d2 : Nat) (a b : Identifier)
    (ha : a ≠ []) (hb : b ≠ [])
    (hda : a.SameDigits d1 d2) (hdb : b.SameDigits d1 d2) :
    Identifier.lt a b = true ↔ a.key < b.key := by
  rw [key_eq_keyFrom a ha (fun c hc => ⟨(hda c hc).1, (hda c hc).2.1⟩),
    key_eq_keyFrom b hb (fun c hc => ⟨(hdb c hc).1, (hdb c hc).2.1⟩),
    append_lt_append_left_iff]
  exact (keyFrom_lt_iff d1 d2 a b ha hb hda hdb).symm

theorem key_order_for_equal_digit_counts_witness :
    Identifier.lt [(12, 345)] [(12, 345), (10, 999)] = true ↔
      Identifier.key [(12, 345)] < Identifier.key [(12, 345), (10, 999)] :=
  key_order_for_equal_digit_counts 2 3 [(12, 345)] [(12, 345), (10, 999)] (by decide)
    (by decide) (by unfold Identifier.SameDigits; decide)
    (by unfold Identifier.SameDigits; decide)

theorem snapshot_frames_reassemble_witness :
    ∃ (st' : Server) (message : QJsonObject) (frames : List (QJsonObject × List QByteArray))
        (notices : List Event),
      sendFile sampleEnv sampleServerWithSymbols 3 sampleOpen = some (st',
        frames.map (fun f => Event.sendByteArray 3 (createByteArrayJsonImage f.1 f.2))
          ++ notices, message) ∧
      (∀ e ∈ notices, ∃ w b, e = Event.sendByteArray w b ∧ w ≠ 3) ∧
      (frames.map fun f => (f.1.value "content").toArray).flatten
        = sampleSymbols.values.map QJsonValue.object ∧
      (∀ f ∈ frames, f.1.value "tot_symbols" = .double sampleSymbols.values.length ∧
        f.1.value "type" = .string (QLatin1String "file_to_open")) :=
  snapshot_frames_reassemble sampleEnv sampleServerWithSymbols 3 sampleOpen sampleSymbols.values
    (by decide) (by decide) (Or.inl ⟨sampleSymbols, by rfl, rfl⟩) (fun _ _ => rfl)

/-- C9 (what the code does): user `ann` creates the file `notes`, which has no symbol, and
    closes it; being the last session she makes the server save the file, as the empty list
    of serialized symbols, and drop it from memory.  She opens it again and the store hands
    back the empty list: the session is registered under the file, but the server holds no
    symbol map for the file, and her next insert has no defined result (the handler goes
    through a null pointer). -/
theorem reopened_empty_file_has_no_symbol_map :
    ((receiveAll sampleEnv freshServer [(1, sampleNewFile)]).map
        fun r => (r.1.symbols_list.find sampleFile).map QMap.keys) = some (some []) ∧
    ((receiveAll sampleEnv freshServer
        [(1, sampleNewFile), (1, sampleClose), (1, sampleOpen)]).map
        fun r => (savedFiles r.2, r.1.symbols_list.contains sampleFile,
          r.1.mapFileWorkers.find sampleFile, (r.1.workers 1).filename))
      = some ([(sampleFile, streamQVector [])], false, some [1], sampleFile) ∧
    receiveAll sampleEnv freshServer
        [(1, sampleNewFile), (1, sampleClose), (1, sampleOpen),
         (1, sampleOperation 0 (sampleSymbol 1 1 7))] = none := by
  refine ⟨by decide, by decide, ?_⟩
  have h : (receiveAll sampleEnv freshServer
        [(1, sampleNewFile), (1, sampleClose), (1, sampleOpen),
         (1, sampleOperation 0 (sampleSymbol 1 1 7))]).isNone = true := by decide
  exact Option.isNone_iff_eq_none.mp h

theorem QMap.find_insert {K V : Type} [LinearOrder K] (m : QMap K V) (k p : K) (v : V) :
    (m.insert k v).find p = if p = k then some v else m.find p := by
  by_cases h : p = k
  · subst h; rw [if_pos rfl]; exact QMap.find_insert_self m p v
  · rw [if_neg h]; exact QMap.find_insert_ne m v h

theorem QMap.find_remove {K V : Type} [LinearOrder K] (m : QMap K V) (k p : K) :
    (m.remove k).find p = if p = k then none else m.find p := by
  by_cases h : p = k
  · subst h; rw [if_pos rfl]; exact lookupEntry_removeEntry_self p m.entries
  · rw [if_neg h]; exact lookupEntry_removeEntry_ne h m.entries

theorem QMap.ext {K V : Type} [LinearOrder K] {m1 m2 : QMap K V} (h1 : m1.WF) (h2 : m2.WF)
    (h : ∀ k, m1.find k = m2.find k) : m1 = m2 := by
  cases m1; cases m2
  simp only [QMap.mk.injEq]
  exact entries_ext h1 h2 h

theorem QMap.WF_insert {K V : Type} [LinearOrder K] {m : QMap K V} (h : m.WF) (k : K) (v : V) :
    (m.insert k v).WF := pairwise_insertEntry k v h

theorem QMap.WF_remove {K V : Type} [LinearOrder K] {m : QMap K V} (h : m.WF) (k : K) :
    (m.remove k).WF := pairwise_removeEntry k h

/-- The DELETE loop at one position. -/
theorem find_removeAll (ss : List QJsonValue) (m : QMap QString QJsonObject) (p : QString) :
    (ss.foldl (fun m s => m.remove (positionKey s.toObject)) m).find p
      = if p ∈ ss.map (fun s => positionKey s.toObject) then none else m.find p := by
  induction ss generalizing m with
  | nil => simp
  | cons s t ih =>
    rw [List.foldl_cons, ih, QMap.find_remove]
    by_cases h1 : p ∈ t.map fun s => positionKey s.toObject
    · simp [h1]
    · by_cases h2 : p = positionKey s.toObject
      · simp [h2]
      · simp [h1, h2]

/-- The PASTE loop at one position. -/
theorem find_insertAll_congr (ss : List QJsonValue) (m m' : QMap QString QJsonObject)
    (p : QString) (h : m.find p = m'.find p) :
    (ss.foldl (fun m s =>
        m.insert (positionKey s.toObject) (s.toObject.touch "position")) m).find p
      = (ss.foldl (fun m s =>
        m.insert (positionKey s.toObject) (s.toObject.touch "position")) m').find p := by
  induction ss generalizing m m' with
  | nil => exact h
  | cons s t ih =>
    rw [List.foldl_cons, List.foldl_cons]
    apply ih
    rw [QMap.find_insert, QMap.find_insert, h]

theorem find_insertAll_of_not_mem (ss : List QJsonValue) (m : QMap QString QJsonObject)
    (p : QString) (h : p ∉ ss.map (fun s => positionKey s.toObject)) :
    (ss.foldl (fun m s =>
        m.insert (positionKey s.toObject) (s.toObject.touch "position")) m).find p
      = m.find p := by
  induction ss generalizing m with
  | nil => rfl
  | cons s t ih =>
    rw [List.foldl_cons, ih _ (fun hm => h (by simp [hm])), QMap.find_insert,
      if_neg (fun e => h (by simp [e]))]

theorem find_applyOperation_congr (c : OperationCodes) (m m' : QMap QString QJsonObject)
    (d : QJsonObject) (p : QString) (h : m.find p = m'.find p) :
    (applyOperation c m d).find p = (applyOperation c m' d).find p := by
  unfold applyOperation
  simp only []
  split_ifs
  · rw [QMap.find_insert, QMap.find_insert, h]
  · rw [find_removeAll, find_removeAll, h]
  · rw [QMap.find_insert, QMap.find_insert, h]
  · rw [QMap.find_insert, QMap.find_insert, h]
  · exact find_insertAll_congr _ _ _ _ h
  · exact h

theorem find_applyOperation_of_not_mem (c : OperationCodes) (m : QMap QString QJsonObject)
    (d : QJsonObject) (p : QString) (h : p ∉ operationKeys c d) :
    (applyOperation c m d).find p = m.find p := by
  unfold operationKeys at h
  unfold applyOperation
  simp only [] at h ⊢
  split_ifs at h ⊢
  · rw [QMap.find_insert, if_neg (by simpa using h)]
  · rw [find_removeAll, if_neg h]
  · rw [QMap.find_insert, if_neg (by simpa using h)]
  · rw [QMap.find_insert, if_neg (by simpa using h)]
  · exact find_insertAll_of_not_mem _ _ _ h
  · rfl

theorem WF_applyOperation (c : OperationCodes) (m : QMap QString QJsonObject)
    (d : QJsonObject) (h : m.WF) : (applyOperation c m d).WF := by
  have hrem : ∀ (ss : List QJsonValue) (m : QMap QString QJsonObject), m.WF →
      (ss.foldl (fun m s => m.remove (positionKey s.toObject)) m).WF := by
    intro ss
    induction ss with
    | nil => exact fun _ h => h
    | cons s t ih => exact fun m h => ih _ (QMap.WF_remove h _)
  have hins : ∀ (ss : List QJsonValue) (m : QMap QString QJsonObject), m.WF →
      (ss.foldl (fun m s =>
        m.insert (positionKey s.toObject) (s.toObject.touch "position")) m).WF := by
    intro ss
    induction ss with
    | nil => exact fun _ h => h
    | cons s t ih => exact fun m h => ih _ (QMap.WF_insert h _ _)
  unfold applyOperation
  simp only []
  split_ifs
  · exact QMap.WF_insert h _ _
  · exact hrem _ _ h
  · exact QMap.WF_insert h _ _
  · exact QMap.WF_insert h _ _
  · exact hins _ _ h
  · exact h

theorem WF_applyOperations (c : OperationCodes) (l : List (Nat × QJsonObject))
    (m : QMap QString QJsonObject) (h : m.WF) : (applyOperations c m l).WF := by
  unfold applyOperations
  induction l generalizing m with
  | nil => exact h
  | cons x t ih => exact ih _ (WF_applyOperation c m x.2 h)

theorem find_applyOperations_congr (c : OperationCodes) (l : List (Nat × QJsonObject))
    (m m' : QMap QString QJsonObject) (p : QString) (h : m.find p = m'.find p) :
    (applyOperations c m l).find p = (applyOperations c m' l).find p := by
  unfold applyOperations
  induction l generalizing m m' with
  | nil => exact h
  | cons x t ih => exact ih _ _ (find_applyOperation_congr c m m' x.2 p h)

/-- At one position, only the operations that write the position matter. -/
theorem find_applyOperations_filter (c : OperationCodes) (l : List (Nat × QJsonObject))
    (m : QMap QString QJsonObject) (p : QString) :
    (applyOperations c m l).find p
      = (applyOperations c m (l.filter fun x => decide (p ∈ operationKeys c x.2))).find p := by
  induction l generalizing m with
  | nil => rfl
  | cons x t ih =>
    by_cases hx : p ∈ operationKeys c x.2
    · rw [List.filter_cons_of_pos (by simpa using hx)]
      exact ih _
    · rw [List.filter_cons_of_neg (by simpa using hx)]
      show (applyOperations c (applyOperation c m x.2) t).find p = _
      rw [ih]
      exact find_applyOperations_congr c _ _ _ p (find_applyOperation_of_not_mem c m x.2 p hx)

/-- Two orderings in which the operations on every position come in the same order give the
    same map. -/
theorem applyOperations_eq_of_positions (c : OperationCodes) (l1 l2 : List (Nat × QJsonObject))
    (m : QMap QString QJsonObject) (hwf : m.WF)
    (hpos : ∀ p : QString, (l1.filter fun x => decide (p ∈ operationKeys c x.2))
      = l2.filter fun x => decide (p ∈ operationKeys c x.2)) :
    applyOperations c m l1 = applyOperations c m l2 := by
  apply QMap.ext (WF_applyOperations c l1 m hwf) (WF_applyOperations c l2 m hwf)
  intro p
  rw [find_applyOperations_filter c l1 m p, find_applyOperations_filter c l2 m p, hpos p]

/-- The server handling a sequence of operation messages from logged-in sessions of one file:
    the file's map becomes the operations applied in receipt order, the sessions and the
    registry stay as they are. -/
theorem receiveAll_operations (env : Env) (k : QString) (L : List Nat)
    (l : List (Nat × QJsonObject)) (st : Server) (m : QMap QString QJsonObject)
    (hm : st.symbols_list.find k = some m)
    (hL : st.mapFileWorkers.find k = some L)
    (hops : ∀ x ∈ l, (st.workers x.1).nickname ≠ [] ∧ (st.workers x.1).filename = k ∧
      (x.2.value "type").isString = true ∧
      compareCI (x.2.value "type").toQString "operation" = true) :
    ∃ (st' : Server) (events : List Event), receiveAll env st l = some (st', events) ∧
      st'.symbols_list.find k = some (applyOperations env.codes m l) ∧
      st'.workers = st.workers ∧ st'.mapFileWorkers = st.mapFileWorkers := by
  induction l generalizing st m with
  | nil => exact ⟨st, [], rfl, hm, rfl, rfl⟩
  | cons x t ih =>
    obtain ⟨sender, json⟩ := x
    obtain ⟨hnick, hfile, hstr, htype⟩ := hops (sender, json) (List.mem_cons_self _ _)
    simp only at hnick hfile hstr htype
    have h1 := (jsonReceived_operation env st sender json hnick hstr htype).trans
      (handleOperation_of_find env st sender json L m (by rw [hfile]; exact hL)
        (by rw [hfile]; exact hm))
    rw [hfile] at h1
    have hm1 : (st.symbols_list.update k (fun m => applyOperation env.codes m json)).find k
        = some (applyOperation env.codes m json) := by
      rw [QMap.find_update, if_pos rfl, hm]; rfl
    obtain ⟨st', events, hr, hsym, hw, hmw⟩ := ih
      { st with
        symbols_list := st.symbols_list.update k (fun m => applyOperation env.codes m json)
        changed := st.changed.insert k true }
      (applyOperation env.codes m json) hm1 hL
      (fun y hy => hops y (List.mem_cons_of_mem _ hy))
    have key : receiveAll env st ((sender, json) :: t)
        = some (st', (L.filter (fun w => decide (w ≠ sender))).map
            (fun w => Event.sendJson w json) ++ events) := by
      rw [receiveAll, h1]
      simp only [Option.some_bind, hr, Option.map_some']
    exact ⟨_, _, key, hsym, hw, hmw⟩

/-- C2 (counterexample): two sessions change the colour of the same stored symbol.  The two
    orderings of the two messages hold the same messages and keep the order of each
    session's messages, but the file's map ends up different: the change handled last
    stays. -/
theorem convergence_fails_for_two_changes_of_one_symbol :
    List.Perm [(1, sampleOperation 2 (sampleSymbol 1 1 100)),
        (2, sampleOperation 2 (sampleSymbol 1 1 200))]
      [(2, sampleOperation 2 (sampleSymbol 1 1 200)),
        (1, sampleOperation 2 (sampleSymbol 1 1 100))] ∧
    (∀ s : Nat,
      [(1, sampleOperation 2 (sampleSymbol 1 1 100)),
          (2, sampleOperation 2 (sampleSymbol 1 1 200))].filter (fun x => decide (x.1 = s))
        = [(2, sampleOperation 2 (sampleSymbol 1 1 200)),
          (1, sampleOperation 2 (sampleSymbol 1 1 100))].filter (fun x => decide (x.1 = s))) ∧
    (receiveAll sampleEnv sampleServerWithSymbols
        [(1, sampleOperation 2 (sampleSymbol 1 1 100)),
          (2, sampleOperation 2 (sampleSymbol 1 1 200))]).map
        (fun r => r.1.symbols_list.find sampleFile)
      ≠ (receiveAll sampleEnv sampleServerWithSymbols
        [(2, sampleOperation 2 (sampleSymbol 1 1 200)),
          (1, sampleOperation 2 (sampleSymbol 1 1 100))]).map
        (fun r => r.1.symbols_list.find sampleFile) := by
  refine ⟨List.Perm.swap _ _ _, ?_, ?_⟩
  · intro s
    by_cases h1 : s = 1
    · subst h1; simp [List.filter]
    · by_cases h2 : s = 2
      · subst h2; simp [List.filter]
      · have e1 : decide (1 = s) = false := by simp; omega
        have e2 : decide (2 = s) = false := by simp; omega
        simp [List.filter, e1, e2]
  · intro h
    have h' := congrArg (fun o : Option (Option (QMap QString QJsonObject)) =>
      o.map fun r => r.map fun m => m.values.map fun s => (s.value "color").toInt) h
    revert h'
    decide

/-- C2 (amended): for every map of a file and every two orderings of the same operation
    messages, received from logged-in sessions of the file, in which the operations that
    write a common position come in the same relative order, handling the messages in either
    ordering yields the same final map of the file, hence the same sequence of symbols. -/
theorem convergence_when_each_position_keeps_its_order (env : Env) (st : Server) (k : QString)
    (L : List Nat) (m : QMap QString QJsonObject) (l1 l2 : List (Nat × QJsonObject))
    (hm : st.symbols_list.find k = some m) (hwf : m.WF)
    (hL : st.mapFileWorkers.find k = some L)
    (hops : ∀ x ∈ l1, (st.workers x.1).nickname ≠ [] ∧ (st.workers x.1).filename = k ∧
      (x.2.value "type").isString = true ∧
      compareCI (x.2.value "type").toQString "operation" = true)
    (hperm : l1.Perm l2)
    (hpos : ∀ p : QString, (l1.filter fun x => decide (p ∈ operationKeys env.codes x.2))
      = l2.filter fun x => decide (p ∈ operationKeys env.codes x.2)) :
    ∃ (st1 : Server) (ev1 : List Event) (st2 : Server) (ev2 : List Event)
        (final : QMap QString QJsonObject),
      receiveAll env st l1 = some (st1, ev1) ∧ receiveAll env st l2 = some (st2, ev2) ∧
      st1.symbols_list.find k = some final ∧ st2.symbols_list.find k = some final := by
  obtain ⟨st1, ev1, h1, hs1, _, _⟩ := receiveAll_operations env k L l1 st m hm hL hops
  obtain ⟨st2, ev2, h2, hs2, _, _⟩ := receiveAll_operations env k L l2 st m hm hL
    (fun x hx => hops x (hperm.mem_iff.mpr hx))
  refine ⟨st1, ev1, st2, ev2, applyOperations env.codes m l1, h1, h2, hs1, ?_⟩
  rw [hs2, applyOperations_eq_of_positions env.codes l1 l2 m hwf hpos]

theorem convergence_when_each_position_keeps_its_order_witness :
    ∃ (st1 : Server) (ev1 : List Event) (st2 : Server) (ev2 : List Event)
        (final : QMap QString QJsonObject),
      receiveAll sampleEnv sampleServerWithSymbols
          [(1, sampleOperation 0 (sampleSymbol 3 1 5)),
            (2, sampleOperation 2 (sampleSymbol 1 1 9))] = some (st1, ev1) ∧
      receiveAll sampleEnv sampleServerWithSymbols
          [(2, sampleOperation 2 (sampleSymbol 1 1 9)),
            (1, sampleOperation 0 (sampleSymbol 3 1 5))] = some (st2, ev2) ∧
      st1.symbols_list.find sampleFile = some final ∧
      st2.symbols_list.find sampleFile = some final :=
  convergence_when_each_position_keeps_its_order sampleEnv sampleServerWithSymbols sampleFile
    [1, 2] sampleSymbols
    [(1, sampleOperation 0 (sampleSymbol 3 1 5)), (2, sampleOperation 2 (sampleSymbol 1 1 9))]
    [(2, sampleOperation 2 (sampleSymbol 1 1 9)), (1, sampleOperation 0 (sampleSymbol 3 1 5))]
    (by rfl) (by unfold QMap.WF; decide) (by decide)
    (by
      intro x hx
      simp only [List.mem_cons, List.mem_singleton, List.not_mem_nil, or_false] at hx
      rcases hx with rfl | rfl <;> decide)
    (List.Perm.swap _ _ _)
    (by
      intro p
      have e1 : operationKeys sampleEnv.codes (sampleOperation 0 (sampleSymbol 3 1 5))
          = [positionKey (sampleSymbol 3 1 5)] := by decide
      have e2 : operationKeys sampleEnv.codes (sampleOperation 2 (sampleSymbol 1 1 9))
          = [positionKey (sampleSymbol 1 1 9)] := by decide
      have hne : positionKey (sampleSymbol 3 1 5) ≠ positionKey (sampleSymbol 1 1 9) := by
        decide
      by_cases h3 : p = positionKey (sampleSymbol 3 1 5)
      · have h1 : p ≠ positionKey (sampleSymbol 1 1 9) := by rw [h3]; exact hne
        simp [List.filter, e1, e2, h3, hne]
      · by_cases h1 : p = positionKey (sampleSymbol 1 1 9)
        · simp [List.filter, e1, e2, h1, hne.symm]
        · simp [List.filter, e1, e2, h3, h1])

theorem acceptedFrom_append_singleton (env : Env) (acc t : QJsonArray) (x : QJsonValue) :
    acceptedFrom env acc (t ++ [x])
      = (acceptedFrom env acc t && env.appendFits (acc ++ t) x) := by
  induction t generalizing acc with
  | nil => simp [acceptedFrom]
  | cons y t ih =>
    rw [List.cons_append, acceptedFrom, acceptedFrom, ih, List.append_assoc,
      List.singleton_append, Bool.and_assoc]

/-- A batch is built only from appends that the array took. -/
theorem fillBatch_accepted (env : Env) (l : List QJsonObject) (n i : Nat) (symbols : QJsonArray)
    (r : QJsonArray × Nat × Bool) (hacc : acceptedFrom env [] symbols = true)
    (h : fillBatch env l n i symbols = some r) : acceptedFrom env [] r.1 = true := by
  induction n generalizing i symbols with
  | zero =>
    simp only [fillBatch, Option.some.injEq] at h
    rw [← h]; exact hacc
  | succ n ih =>
    rw [fillBatch] at h
    cases ho : l[i]? with
    | none => rw [ho] at h; exact Option.noConfusion h
    | some o =>
      rw [ho] at h
      simp only at h
      by_cases hfit : env.appendFits symbols (.object o) = true
      · rw [if_pos hfit] at h
        refine ih (i + 1) (symbols ++ [.object o]) ?_ h
        rw [acceptedFrom_append_singleton, hacc, List.nil_append, hfit]
        rfl
      · rw [if_neg hfit] at h
        simp only [Option.some.injEq] at h
        rw [← h]; exact hacc

/-- A list that the array takes as a whole is one batch. -/
theorem fillBatch_of_accepted (env : Env) (l : List QJsonObject) (n i : Nat)
    (symbols : QJsonArray) (hn : i + n = l.length)
    (hacc : acceptedFrom env symbols ((l.drop i).map QJsonValue.object) = true) :
    fillBatch env l n i symbols
      = some (symbols ++ (l.drop i).map QJsonValue.object, l.length, false) := by
  induction n generalizing i symbols with
  | zero =>
    have hi : i = l.length := by omega
    subst hi
    simp [fillBatch]
  | succ n ih =>
    have hi : i < l.length := by omega
    have hdrop : l.drop i = l[i] :: l.drop (i + 1) := List.drop_eq_getElem_cons hi
    rw [hdrop, List.map_cons, acceptedFrom, Bool.and_eq_true] at hacc
    rw [fillBatch, List.getElem?_eq_getElem hi]
    simp only [hacc.1, if_true]
    rw [ih (i + 1) _ (by omega) hacc.2, hdrop, List.map_cons, List.append_assoc,
      List.singleton_append]

theorem content_of_remaining (filename : QString) (tot : Nat) (a : QJsonArray) :
    ((((((response "file_to_open").set "success" (.bool true)).set "filename"
      (.string filename)).set "tot_symbols" (.double tot)).set "content"
      (.array a)).value "content").toArray = a := by
  rw [value_set_self]; rfl

theorem sendRemaining_accepted (env : Env) (l : List QJsonObject) (filename : QString)
    (tot bound fuel start : Nat) (more : List QJsonObject)
    (h : sendRemaining env l filename tot bound fuel start = some more) :
    ∀ msg ∈ more, acceptedFrom env [] (msg.value "content").toArray = true := by
  induction fuel generalizing start more with
  | zero => exact Option.noConfusion h
  | succ fuel ih =>
    rw [sendRemaining] at h
    cases hb : fillBatch env l (bound - start) start [] with
    | none => rw [hb] at h; exact Option.noConfusion h
    | some r =>
      obtain ⟨symbols, i, stopped⟩ := r
      have hacc := fillBatch_accepted env l _ _ [] _ rfl hb
      rw [hb] at h
      simp only at h hacc
      by_cases hend : i = bound
      · rw [if_pos hend, Option.some.injEq] at h
        intro msg hmsg
        rw [← h, List.mem_singleton] at hmsg
        rw [hmsg, content_of_remaining]
        exact hacc
      · rw [if_neg hend] at h
        by_cases hgo : stopped = true ∧ i ≠ start
        · rw [if_pos hgo] at h
          cases hrec : sendRemaining env l filename tot bound fuel i with
          | none => rw [hrec] at h; exact Option.noConfusion h
          | some rest =>
            rw [hrec, Option.map_some', Option.some.injEq] at h
            intro msg hmsg
            rw [← h] at hmsg
            rcases List.mem_cons.mp hmsg with hmsg | hmsg
            · rw [hmsg, content_of_remaining]
              exact hacc
            · exact ih i rest hrec msg hmsg
        · rw [if_neg hgo] at h
          exact Option.noConfusion h

theorem content_of_first (filename : QString) (tot : Int) (users : QJsonArray)
    (sharedLink : QString) (a : QJsonArray) :
    (((((((((response "file_to_open").set "success" (.bool true)).set "content"
      (.array a)).set "filename" (.string filename)).set "tot_symbols"
      (.double tot)).set "info" (.bool true)).set "users" (.array users)).set
      "shared_link" (.string sharedLink)).value "content").toArray = a := by
  rw [value_set_ne _ _ (by decide), value_set_ne _ _ (by decide),
    value_set_ne _ _ (by decide), value_set_ne _ _ (by decide),
    value_set_ne _ _ (by decide), value_set_self]
  rfl

theorem content_of_failure (reason : String) :
    ((failure (response "file_to_open") reason).value "content").toArray = [] := by
  unfold failure
  rw [value_set_ne _ _ (by decide), value_set_ne _ _ (by decide)]
  unfold response
  rw [value_set_ne _ _ (by decide)]
  rfl

theorem length_le_length_toUtf8 (s : QString) : s.length ≤ (toUtf8 s).length := by
  have h : ∀ n (s : QString), s.length ≤ n → s.length ≤ (toUtf8 s).length := by
    intro n
    induction n with
    | zero =>
      intro s hs
      have : s = [] := List.length_eq_zero.mp (by omega)
      subst this
      simp [toUtf8]
    | succ n ih =>
      intro s hs
      cases s with
      | nil => simp [toUtf8]
      | cons u t =>
        have ht := ih t (by simpa using hs)
        rw [toUtf8.eq_def]
        simp only []
        split_ifs
        · simp only [List.length_cons]; omega
        · simp only [List.length_cons]; omega
        · cases t with
          | nil => simp
          | cons lo t' =>
            have ht' := ih t' (by simp only [List.length_cons] at hs; omega)
            simp only
            split_ifs
            · simp only [List.length_cons]; omega
            · simp only [List.length_cons] at ht ⊢; omega
        · simp only [List.length_cons]; omega
        · simp only [List.length_cons]; omega
  exact h s.length s (le_refl _)

theorem length_le_length_arrayContentToJson (a : QJsonArray) (indent : Nat) :
    a.length ≤ (arrayContentToJson a indent).length := by
  induction a with
  | nil => simp
  | cons v t ih =>
    cases t with
    | nil =>
      rw [arrayContentToJson]
      simp only [List.length_append, List.length_cons, List.length_nil]
      omega
    | cons w t' =>
      rw [arrayContentToJson]
      simp only [List.length_append, List.length_cons] at ih ⊢
      omega

theorem length_le_batchSize (batch : QJsonArray) : batch.length ≤ batchSize batch := by
  unfold batchSize
  refine le_trans ?_ (length_le_length_toUtf8 _)
  unfold arrayToJson
  simp only [List.length_append]
  have := length_le_length_arrayContentToJson batch 1
  omega

theorem acceptedFrom_sampleEnv (acc t : QJsonArray) : acceptedFrom sampleEnv acc t = true := by
  induction t generalizing acc with
  | nil => rfl
  | cons x t ih =>
    rw [acceptedFrom, ih]
    rfl

/-- The whole list in one response, when the array takes every symbol of the list. -/
theorem snapshotFrames_of_accepted (env : Env) (filename : QString) (users : QJsonArray)
    (v : List QByteArray) (sharedLink : QString) (success : Bool) (l : List QJsonObject)
    (table : Option (QMap QString QJsonObject))
    (hacc : acceptedFrom env [] (l.map QJsonValue.object) = true) :
    ∃ message, snapshotFrames env filename users v sharedLink success l table
        = some [(message, v)] ∧
      (success = true → (message.value "content").toArray = l.map QJsonValue.object) := by
  unfold snapshotFrames
  rw [fillBatch_of_accepted env l l.length 0 [] (by omega) (by simpa using hacc)]
  simp only [Bool.false_eq_true, false_and, if_false, List.nil_append, List.drop_zero]
  refine ⟨_, rfl, ?_⟩
  intro hs
  rw [if_pos hs]
  exact content_of_first _ _ _ _ _

/-- C7 (counterexample): when the array takes every symbol, as in the sample environment, the
    whole snapshot goes out in one response whatever its serialized size, so that no
    threshold bounds the serialized size of the batches. -/
theorem no_size_threshold_bounds_the_batches :
    ¬ ∃ S : Nat, ∀ (l : List QJsonObject) (frames : List (QJsonObject × List QByteArray)),
        snapshotFrames sampleEnv sampleFile [] [] [] true l none = some frames →
        ∀ f ∈ frames, batchSize (f.1.value "content").toArray ≤ S := by
  rintro ⟨S, h⟩
  obtain ⟨message, hframes, hcontent⟩ := snapshotFrames_of_accepted sampleEnv sampleFile [] [] []
    true (List.replicate (S + 1) []) none (acceptedFrom_sampleEnv _ _)
  have hle := h _ _ hframes (message, []) (List.mem_singleton.mpr rfl)
  simp only at hle
  rw [hcontent rfl] at hle
  have := length_le_batchSize ((List.replicate (S + 1) ([] : QJsonObject)).map QJsonValue.object)
  simp only [List.length_map, List.length_replicate] at this
  omega

/-- C7 (amended): every batch that `sendFile` sends is one that the `QJsonArray` took symbol
    by symbol, and the snapshot is split only where the array refuses a symbol: a list that
    the array takes as a whole goes out in one response, which carries the whole list. -/
theorem batches_are_what_the_array_takes (env : Env) (filename : QString) (users : QJsonArray)
    (v : List QByteArray) (sharedLink : QString) (success : Bool) (l : List QJsonObject)
    (table : Option (QMap QString QJsonObject)) :
    (∀ frames, snapshotFrames env filename users v sharedLink success l table = some frames →
      ∀ f ∈ frames, acceptedFrom env [] (f.1.value "content").toArray = true) ∧
    (acceptedFrom env [] (l.map QJsonValue.object) = true →
      ∃ message, snapshotFrames env filename users v sharedLink success l table
          = some [(message, v)] ∧
        (success = true → (message.value "content").toArray = l.map QJsonValue.object)) := by
  refine ⟨?_, snapshotFrames_of_accepted env filename users v sharedLink success l table⟩
  intro frames h
  unfold snapshotFrames at h
  cases hb : fillBatch env l l.length 0 [] with
  | none => rw [hb] at h; exact Option.noConfusion h
  | some r =>
    obtain ⟨symbols, start, cont⟩ := r
    have hacc := fillBatch_accepted env l _ _ [] _ rfl hb
    have hfirst : acceptedFrom env []
        (((if success = true then
          (((((((response "file_to_open").set "success" (.bool true)).set "content"
            (.array symbols)).set "filename" (.string filename)).set "tot_symbols"
            (.double l.length)).set "info" (.bool true)).set "users" (.array users)).set
            "shared_link" (.string sharedLink)
          else failure (response "file_to_open")
            "File content different form json array").value "content").toArray) = true := by
      split_ifs
      · rw [content_of_first]; exact hacc
      · rw [content_of_failure]; rfl
    rw [hb] at h
    simp only at h
    by_cases hc : cont = true ∧ success = true
    · rw [if_pos hc] at h
      cases table with
      | none => exact Option.noConfusion h
      | some m =>
        simp only at h
        cases hrec : sendRemaining env l filename l.length m.values.length (l.length + 1) start with
        | none => rw [hrec] at h; exact Option.noConfusion h
        | some more =>
          rw [hrec, Option.map_some', Option.some.injEq] at h
          intro f hf
          rw [← h] at hf
          rcases List.mem_cons.mp hf with hf | hf
          · rw [hf]; exact hfirst
          · obtain ⟨msg, hmsg, rfl⟩ := List.mem_map.mp hf
            exact sendRemaining_accepted env l filename _ _ _ _ more hrec msg hmsg
    · rw [if_neg hc, Option.some.injEq] at h
      intro f hf
      rw [← h, List.mem_singleton] at hf
      rw [hf]; exact hfirst

theorem batches_are_what_the_array_takes_witness :
    ∃ message, snapshotFrames sampleEnv sampleFile [] [] [] true sampleSymbols.values none
        = some [(message, [])] ∧
      (true = true → (message.value "content").toArray
        = sampleSymbols.values.map QJsonValue.object) :=
  (batches_are_what_the_array_takes sampleEnv sampleFile [] [] [] true sampleSymbols.values
    none).2 (by rfl)

/-- The map that `storeSymbolsServerMemory` builds from the values of a map in which every
    symbol is filed under the key of its own position is that map. -/
theorem find_insertAll_values (es : List (QString × QJsonObject))
    (hwf : es.Pairwise (fun a b => a.1 < b.1)) (hkey : ∀ e ∈ es, e.1 = positionKey e.2)
    (acc : QMap QString QJsonObject) (p : QString) :
    ((es.map Prod.snd).foldl (fun m s => m.insert (positionKey s) s) acc).find p
      = match lookupEntry p es with
        | some v => some v
        | none => acc.find p := by
  induction es generalizing acc with
  | nil => rfl
  | cons e t ih =>
    obtain ⟨k, s⟩ := e
    have hk : k = positionKey s := hkey (k, s) (List.mem_cons_self _ _)
    have hp := List.pairwise_cons.mp hwf
    rw [List.map_cons, List.foldl_cons, ih hp.2 (fun e he => hkey e (List.mem_cons_of_mem _ he)),
      lookupEntry]
    by_cases hpk : p = k
    · subst hpk
      rw [if_pos rfl, lookupEntry_eq_none_of_lt hp.1]
      simp only
      rw [hk]
      exact QMap.find_insert_self _ _ _
    · rw [if_neg hpk]
      cases lookupEntry p t with
      | some v => rfl
      | none =>
        simp only
        rw [QMap.find_insert_ne _ _ (by rw [← hk]; exact hpk)]

/-- C9 for a map that is not empty: loading the values of a well-formed map, in which every
    symbol is filed under the key of its own position, into a server that holds no entry for
    the file gives that map back. -/
theorem reload_restores_a_nonempty_map (st : Server) (sender : Nat)
    (m : QMap QString QJsonObject) (hwf : m.WF)
    (hkey : ∀ e ∈ m.entries, e.1 = positionKey e.2) (hne : m.values ≠ [])
    (hnone : st.symbols_list.find (st.workers sender).filename = none) :
    (storeSymbolsServerMemory st sender m.values).symbols_list.find
      (st.workers sender).filename = some m := by
  rw [storeSymbols_of_none st sender m.values hnone hne]
  congr 1
  have hbwf : ∀ (l : List QJsonObject) (acc : QMap QString QJsonObject), acc.WF →
      (l.foldl (fun m s => m.insert (positionKey s) s) acc).WF := by
    intro l
    induction l with
    | nil => exact fun _ h => h
    | cons s t ih => exact fun acc h => ih _ (QMap.WF_insert h _ _)
  apply QMap.ext (hbwf _ _ List.Pairwise.nil) hwf
  intro p
  have h := find_insertAll_values m.entries hwf hkey QMap.empty p
  refine h.trans ?_
  unfold QMap.find
  cases lookupEntry p m.entries with
  | some v => rfl
  | none => rfl

theorem success_of_failure (message : QJsonObject) (reason : String) :
    (failure message reason).value "success" = .bool false := by
  unfold failure
  rw [value_set_ne _ _ (by decide), value_set_self]

theorem reason_of_failure (message : QJsonObject) (reason : String) :
    (failure message reason).value "reason" = .string (QLatin1String reason) := by
  unfold failure
  rw [value_set_self]

theorem type_of_failure (message : QJsonObject) (reason : String) :
    (failure message reason).value "type" = message.value "type" := by
  unfold failure
  rw [value_set_ne _ _ (by decide), value_set_ne _ _ (by decide)]

theorem type_of_response (type : String) :
    (response type).value "type" = .string (QLatin1String type) := by
  unfold response
  rw [value_set_self]

/-- C11: `checkCredentials` answers `success` true if and only if the `username` of the request is a
    string that is not empty after `simplified`, no client of `m_clients` has that username,
    the `password` is a string that is not empty after `simplified`, and the store's `login`
    returns `SUCCESS`; the session's username and nickname are set (to the simplified
    username and to the nickname the store gives) exactly in that case, and the whole server
    state is as before in every other case, where the answer carries `success` false. -/
theorem checkCredentials_succeeds_exactly_on_a_valid_login (env : Env) (st : Server)
    (sender : Nat) (doc : QJsonObject) :
    (((checkCredentials env st sender doc).2.value "success").isTrue = true ↔
      ((doc.value "username").isString = true ∧
        simplified (doc.value "username").toQString ≠ [] ∧
        (∀ client ∈ st.m_clients,
          (st.workers client).username ≠ simplified (doc.value "username").toQString) ∧
        (doc.value "password").isString = true ∧
        simplified (doc.value "password").toQString ≠ [] ∧
        (env.db.login (simplified (doc.value "username").toQString)
          (simplified (doc.value "password").toQString)).1 = .SUCCESS)) ∧
    (((checkCredentials env st sender doc).2.value "success").isTrue = true →
      (checkCredentials env st sender doc).1 =
        (st.setUsername sender (simplified (doc.value "username").toQString)).setNickname sender
          (env.db.login (simplified (doc.value "username").toQString)
            (simplified (doc.value "password").toQString)).2) ∧
    (((checkCredentials env st sender doc).2.value "success").isTrue = false →
      (checkCredentials env st sender doc).1 = st ∧
      (checkCredentials env st sender doc).2.value "success" = .bool false) := by
  unfold checkCredentials
  simp only []
  by_cases h1 : ((doc.value "username").isNull || !(doc.value "username").isString) = true
  · rw [if_pos h1]
    have h1' : (doc.value "username").isString = false := by
      cases hv : doc.value "username" <;> simp_all [QJsonValue.isNull, QJsonValue.isString]
    simp [success_of_failure, QJsonValue.isTrue, h1']
  rw [if_neg h1]
  have h1' : (doc.value "username").isString = true := by
    cases hv : doc.value "username" <;> simp_all [QJsonValue.isNull, QJsonValue.isString]
  by_cases h2 : (simplified (doc.value "username").toQString).isEmpty = true
  · rw [if_pos h2]
    have h2' : simplified (doc.value "username").toQString = [] := List.isEmpty_iff.mp h2
    simp [success_of_failure, QJsonValue.isTrue, h2']
  rw [if_neg h2]
  have h2' : simplified (doc.value "username").toQString ≠ [] := fun h =>
    h2 (List.isEmpty_iff.mpr h)
  by_cases h3 : (st.m_clients.any (fun client =>
      decide ((st.workers client).username = simplified (doc.value "username").toQString))) = true
  · rw [if_pos h3]
    have h3' : ¬ ∀ client ∈ st.m_clients,
        (st.workers client).username ≠ simplified (doc.value "username").toQString := by
      intro h
      obtain ⟨c, hc, hcu⟩ := List.any_eq_true.mp h3
      exact h c hc (of_decide_eq_true hcu)
    simp [success_of_failure, QJsonValue.isTrue, h3']
  rw [if_neg h3]
  have h3' : ∀ client ∈ st.m_clients,
      (st.workers client).username ≠ simplified (doc.value "username").toQString := by
    intro c hc hcu
    exact h3 (List.any_eq_true.mpr ⟨c, hc, decide_eq_true hcu⟩)
  by_cases h4 : ((doc.value "password").isNull || !(doc.value "password").isString) = true
  · rw [if_pos h4]
    have h4' : (doc.value "password").isString = false := by
      cases hv : doc.value "password" <;> simp_all [QJsonValue.isNull, QJsonValue.isString]
    simp [success_of_failure, QJsonValue.isTrue, h4']
  rw [if_neg h4]
  have h4' : (doc.value "password").isString = true := by
    cases hv : doc.value "password" <;> simp_all [QJsonValue.isNull, QJsonValue.isString]
  by_cases h5 : (simplified (doc.value "password").toQString).isEmpty = true
  · rw [if_pos h5]
    have h5' : simplified (doc.value "password").toQString = [] := List.isEmpty_iff.mp h5
    simp [success_of_failure, QJsonValue.isTrue, h5']
  rw [if_neg h5]
  have h5' : simplified (doc.value "password").toQString ≠ [] := fun h =>
    h5 (List.isEmpty_iff.mpr h)
  by_cases h6 : (env.db.login (simplified (doc.value "username").toQString)
      (simplified (doc.value "password").toQString)).1 = .SUCCESS
  · rw [if_pos h6]
    have hs : ((((response "login").set "success" (.bool true)).set "username"
        (.string (simplified (doc.value "username").toQString))).set "nickname"
        (.string (env.db.login (simplified (doc.value "username").toQString)
          (simplified (doc.value "password").toQString)).2)).value "success" = .bool true := by
      rw [value_set_ne _ _ (by decide), value_set_ne _ _ (by decide), value_set_self]
    simp only [hs, QJsonValue.isTrue]
    refine ⟨⟨fun _ => ⟨h1', h2', h3', h4', h5', h6⟩, fun _ => ?_⟩, fun _ => ?_, fun h => ?_⟩
    · first | rfl | trivial
    · first | rfl | trivial
    · first | exact h.elim | exact absurd h (by decide)
  rw [if_neg h6]
  have key : ∀ r : String, ((failure (response "login") r).value "success").isTrue = false := by
    intro r; rw [success_of_failure]; rfl
  refine ⟨⟨?_, fun h => absurd h.2.2.2.2.2 h6⟩, ?_, ?_⟩
  · intro h
    exfalso
    split_ifs at h <;> simp [key] at h
  · intro h
    exfalso
    split_ifs at h <;> simp [key] at h
  · intro _
    split_ifs <;> exact ⟨rfl, success_of_failure _ _⟩


theorem not_null_or_not_string {v : QJsonValue} (h : v.isString = true) :
    (v.isNull || !v.isString) = false := by
  cases v <;> simp_all [QJsonValue.isNull, QJsonValue.isString]

/-- The function `closeFile` on a request whose three fields pass the checks: it is the
    leaving routine that decides. -/
theorem closeFile_of_wellFormed (st : Server) (sender : Nat) (doc : QJsonObject)
    (hname : (doc.value "filename").isString = true)
    (hfile : simplified (doc.value "filename").toQString ≠ [])
    (huser : (doc.value "username").isString = true)
    (husername : simplified (doc.value "username").toQString ≠ [])
    (hnick : (doc.value "nickname").isString = true)
    (hnickname : simplified (doc.value "nickname").toQString ≠ []) :
    closeFile st sender doc =
      (udpateSymbolListAndCommunicateDisconnection st
        (simplified (doc.value "filename").toQString) sender).map fun r =>
          if !r.2.2 then (r.1, r.2.1, failure (response "close") "File not exist")
          else (r.1.closeWorkerFile sender, r.2.1, (response "close").set "success" (.bool true)) := by
  unfold closeFile
  simp only [not_null_or_not_string hname, not_null_or_not_string huser,
    not_null_or_not_string hnick, isEmpty_eq_false_of_ne_nil hfile,
    isEmpty_eq_false_of_ne_nil husername, isEmpty_eq_false_of_ne_nil hnickname]
  rfl

/-- The leaving routine for a session that is not registered under the key: nothing changes
    and the result is `false`. -/
theorem udpate_of_not_registered (st : Server) (filename : QString) (sender : Nat)
    (h : ∀ clients, st.mapFileWorkers.find filename = some clients → sender ∉ clients) :
    udpateSymbolListAndCommunicateDisconnection st filename sender = some (st, [], false) := by
  unfold udpateSymbolListAndCommunicateDisconnection
  cases hf : st.mapFileWorkers.find filename with
  | none => rfl
  | some clients =>
    simp only []
    rw [if_pos (h clients hf)]

/-- C13: for every `close` request whose `filename`, `username` and `nickname` are strings that are
    not empty after `simplified`, and whose file key is one under which the sender is not
    registered (no session list is registered under the key, or the list does not hold the
    sender), `closeFile` returns the failure response `File not exist` with `success` false,
    the whole server state (registry, symbol tables, dirty flags, the sessions and their
    filenames) is the one before, and nothing is sent to a session or to the store. -/
theorem close_of_an_unopened_file_changes_nothing (st : Server) (sender : Nat)
    (doc : QJsonObject)
    (hname : (doc.value "filename").isString = true)
    (hfile : simplified (doc.value "filename").toQString ≠ [])
    (huser : (doc.value "username").isString = true)
    (husername : simplified (doc.value "username").toQString ≠ [])
    (hnick : (doc.value "nickname").isString = true)
    (hnickname : simplified (doc.value "nickname").toQString ≠ [])
    (h : ∀ clients, st.mapFileWorkers.find (simplified (doc.value "filename").toQString) =
      some clients → sender ∉ clients) :
    closeFile st sender doc = some (st, [], failure (response "close") "File not exist") ∧
      (failure (response "close") "File not exist").value "success" = .bool false := by
  refine ⟨?_, success_of_failure _ _⟩
  rw [closeFile_of_wellFormed st sender doc hname hfile huser husername hnick hnickname,
    udpate_of_not_registered st _ sender h]
  rfl

theorem close_of_an_unopened_file_changes_nothing_witness :
    closeFile sampleServer 3 sampleClose =
        some (sampleServer, [], failure (response "close") "File not exist") ∧
      (failure (response "close") "File not exist").value "success" = .bool false :=
  close_of_an_unopened_file_changes_nothing sampleServer 3 sampleClose (by decide) (by decide)
    (by decide) (by decide) (by decide) (by decide) (by
      intro clients hc
      have h12 : sampleServer.mapFileWorkers.find
          (simplified (sampleClose.value "filename").toQString) = some [1, 2] := by decide
      rw [h12] at hc
      cases hc
      decide)

theorem checkCredentials_succeeds_exactly_on_a_valid_login_witness :
    ((checkCredentials loginEnv sampleServer 0 sampleLogin).2.value "success").isTrue = true ∧
      (checkCredentials loginEnv sampleServer 0 sampleLogin).1 =
        (sampleServer.setUsername 0 (QLatin1String "zoe")).setNickname 0 (QLatin1String "Zoe") :=
  have h := checkCredentials_succeeds_exactly_on_a_valid_login loginEnv sampleServer 0 sampleLogin
  have hs := h.1.mpr ⟨by decide, by decide, by decide, by decide, by decide, by decide⟩
  ⟨hs, h.2.1 hs⟩

/-- The state after `saveFile`: the flag of every key of the symbol table is set to false,
    one key after the other, and nothing else changes. -/
theorem saveFile_fold_state (keys : List QString) (st : Server) (events : List Event) :
    (keys.foldl (fun (acc : Server × List Event) filename =>
      let st := acc.1
      let events :=
        if (st.changed.find filename).getD false = true then
          let qvector := (((st.symbols_list.find filename).map QMap.values).getD []).map toJson
          acc.2 ++ [Event.dbSaveFile filename (streamQVector qvector)]
        else acc.2
      ({ st with changed := st.changed.insert filename false }, events)) (st, events)).1 =
      { st with changed := keys.foldl (fun c k => c.insert k false) st.changed } := by
  induction keys generalizing st events with
  | nil => rfl
  | cons k ks ih =>
    rw [List.foldl_cons, ih]
    rfl

theorem saveFile_state (st : Server) :
    (saveFile st).1 =
      { st with changed := st.symbols_list.keys.foldl (fun c k => c.insert k false) st.changed } :=
  saveFile_fold_state _ st []

theorem find_foldl_insert_false (keys : List QString) (c : QMap QString Bool) (k : QString) :
    (keys.foldl (fun c k => c.insert k false) c).find k =
      if k ∈ keys then some false else c.find k := by
  induction keys generalizing c with
  | nil => simp
  | cons a ks ih =>
    rw [List.foldl_cons, ih]
    by_cases hk : k ∈ ks
    · simp [hk]
    · by_cases ha : k = a
      · subst ha
        simp [hk, QMap.find_insert_self]
      · simp [hk, ha, QMap.find_insert_ne _ _ ha]

theorem saveFile_changed_find (st : Server) (k : QString) :
    (saveFile st).1.changed.find k =
      if k ∈ st.symbols_list.keys then some false else st.changed.find k := by
  rw [saveFile_state]
  exact find_foldl_insert_false _ _ _

theorem saveFile_symbols_list (st : Server) : (saveFile st).1.symbols_list = st.symbols_list := by
  rw [saveFile_state]

theorem saveFile_workers (st : Server) : (saveFile st).1.workers = st.workers := by
  rw [saveFile_state]

theorem saveFile_mapFileWorkers (st : Server) :
    (saveFile st).1.mapFileWorkers = st.mapFileWorkers := by
  rw [saveFile_state]

/-- The store calls of `saveFile` over keys that are all different: one for each key whose
    flag is true at the start, in the order of the keys. -/
theorem saveFile_fold_events (keys : List QString) (st : Server) (events : List Event)
    (hk : keys.Nodup) :
    (keys.foldl (fun (acc : Server × List Event) filename =>
      let st := acc.1
      let events :=
        if (st.changed.find filename).getD false = true then
          let qvector := (((st.symbols_list.find filename).map QMap.values).getD []).map toJson
          acc.2 ++ [Event.dbSaveFile filename (streamQVector qvector)]
        else acc.2
      ({ st with changed := st.changed.insert filename false }, events)) (st, events)).2 =
      events ++ (keys.filter (fun k => (st.changed.find k).getD false)).map (fun k =>
        Event.dbSaveFile k (streamQVector
          ((((st.symbols_list.find k).map QMap.values).getD []).map toJson))) := by
  induction keys generalizing st events with
  | nil => simp
  | cons k ks ih =>
    rw [List.foldl_cons, ih _ _ (List.nodup_cons.mp hk).2]
    have hnot : k ∉ ks := (List.nodup_cons.mp hk).1
    have hfilter : ks.filter (fun k' =>
        ((st.changed.insert k false).find k').getD false) =
        ks.filter (fun k' => (st.changed.find k').getD false) := by
      apply List.filter_congr
      intro k' hk'
      have hne : k' ≠ k := fun h => hnot (h ▸ hk')
      rw [QMap.find_insert_ne _ _ hne]
    simp only [hfilter]
    by_cases hd : (st.changed.find k).getD false = true
    · simp [hd, List.filter_cons]
    · simp [hd, List.filter_cons]

theorem lookupEntry_of_mem {K V : Type} [LinearOrder K] {l : List (K × V)}
    (h : l.Pairwise (fun a b => a.1 < b.1)) {e : K × V} (he : e ∈ l) :
    lookupEntry e.1 l = some e.2 := by
  induction l with
  | nil => cases he
  | cons a t ih =>
    obtain ⟨k', v'⟩ := a
    rw [List.pairwise_cons] at h
    rcases List.mem_cons.mp he with rfl | ht
    · simp [lookupEntry]
    · have hlt : k' < e.1 := h.1 e ht
      simp only [lookupEntry]
      rw [if_neg (ne_of_gt hlt)]
      exact ih h.2 ht

theorem keys_nodup_of_WF {K V : Type} [LinearOrder K] {m : QMap K V} (h : m.WF) :
    m.keys.Nodup := by
  unfold QMap.keys QMap.WF at *
  rw [List.Nodup, List.pairwise_map]
  exact h.imp (fun hab => ne_of_lt hab)

/-- The store calls of `saveFile`, for a symbol table with its keys in order: one for each
    entry whose flag is true, with the serialization of the values of its map. -/
theorem saveFile_events (st : Server) (h : st.symbols_list.WF) :
    (saveFile st).2 =
      (st.symbols_list.entries.filter (fun e => (st.changed.find e.1).getD false)).map
        (fun e => Event.dbSaveFile e.1 (streamQVector (e.2.values.map toJson))) := by
  unfold saveFile
  rw [saveFile_fold_events _ _ _ (keys_nodup_of_WF h)]
  unfold QMap.keys
  rw [List.nil_append, List.filter_map, List.map_map]
  apply List.map_congr_left
  intro e he
  have hmem : e ∈ st.symbols_list.entries := (List.mem_filter.mp he).1
  simp only [Function.comp, QMap.find, lookupEntry_of_mem h hmem]
  rfl

/-- C16: for every server state whose symbol table is a map (its keys in increasing order, each
    once), `saveFile` calls the store's `saveFile` exactly for the entries of the symbol table
    whose dirty flag is true, in key order, and passes for each the stream of the
    serializations of all the values of the key's map, in the order of the map; afterwards
    every key of the symbol table has the flag false, and the symbol table is the one before. -/
theorem saveFile_flushes_exactly_the_dirty_files (st : Server) (h : st.symbols_list.WF) :
    (saveFile st).2 =
        (st.symbols_list.entries.filter (fun e => (st.changed.find e.1).getD false)).map
          (fun e => Event.dbSaveFile e.1 (streamQVector (e.2.values.map toJson))) ∧
      (∀ k ∈ st.symbols_list.keys, (saveFile st).1.changed.find k = some false) ∧
      (saveFile st).1.symbols_list = st.symbols_list := by
  refine ⟨saveFile_events st h, ?_, saveFile_symbols_list st⟩
  intro k hk
  rw [saveFile_changed_find, if_pos hk]

theorem saveFile_flushes_exactly_the_dirty_files_witness :
    (saveFile dirtyServer).2 =
        [Event.dbSaveFile sampleFile (streamQVector (sampleSymbols.values.map toJson))] ∧
      (∀ k ∈ dirtyServer.symbols_list.keys, (saveFile dirtyServer).1.changed.find k = some false) ∧
      (saveFile dirtyServer).1.symbols_list = dirtyServer.symbols_list :=
  saveFile_flushes_exactly_the_dirty_files dirtyServer (by unfold QMap.WF; decide)

/-- C17: the function `saveFile` takes nothing back from the store: for every key of the symbol
    table whose flag is true, the flag is false after `saveFile` has returned, whatever the
    store has done with the call `db.saveFile`; the symbol map of the key is the one before. -/
theorem saveFile_clears_the_flag_whatever_the_store_does (st : Server) (k : QString)
    (hk : k ∈ st.symbols_list.keys) (hdirty : st.changed.find k = some true) :
    st.changed.find k = some true ∧ (saveFile st).1.changed.find k = some false ∧
      (saveFile st).1.symbols_list.find k = st.symbols_list.find k := by
  refine ⟨hdirty, ?_, ?_⟩
  · rw [saveFile_changed_find, if_pos hk]
  · rw [saveFile_symbols_list]

theorem saveFile_clears_the_flag_whatever_the_store_does_witness :
    dirtyServer.changed.find sampleFile = some true ∧
      (saveFile dirtyServer).1.changed.find sampleFile = some false ∧
      (saveFile dirtyServer).1.symbols_list.find sampleFile =
        dirtyServer.symbols_list.find sampleFile :=
  saveFile_clears_the_flag_whatever_the_store_does dirtyServer sampleFile (by decide) (by decide)

/-- C12: a `file_to_open` request for a file that the store cannot provide is answered with
    `success` false, but it does not leave the state as it was: session 1, bound to no file
    and registered nowhere before, is bound to the file key and registered under it
    afterwards; and when session 2 then asks for the same file, session 1 is sent the
    `connection` notice. -/
theorem open_of_a_missing_file_binds_and_registers_the_session :
    ((lobbyServer.workers 1).filename = [] ∧
      lobbyServer.mapFileWorkers.find (QLatin1String "ghost,ann") = none) ∧
    (sendFile missingFileEnv lobbyServer 1 sampleOpenMissing).map (fun r =>
        ((r.2.2.value "success").isTrue, (r.2.2.value "reason").isString,
          (r.1.workers 1).filename, r.1.mapFileWorkers.find (QLatin1String "ghost,ann"),
          destinations r.2.1)) =
      some (false, true, QLatin1String "ghost,ann", some [1], [1]) ∧
    (receiveAll missingFileEnv lobbyServer
        [(1, sampleOpenMissing), (2, sampleOpenMissing)]).map (fun r =>
        ((r.1.workers 2).filename, r.1.mapFileWorkers.find (QLatin1String "ghost,ann"),
          destinations r.2)) =
      some (QLatin1String "ghost,ann", some [1, 2], [1, 2, 1]) := by
  refine ⟨⟨by decide, by decide⟩, by rfl, by decide⟩

/-- C19: an `operation` message with the code of an insertion and no `symbol`, sent by session 1
    of the sample file, is not rejected: the sender is sent nothing, the message is
    broadcast to session 2, the file is marked dirty, and the symbol map of the file, empty
    before, holds an entry under the key of the empty position. -/
theorem malformed_operation_is_stored_and_broadcast :
    (sampleServer.symbols_list.find sampleFile = some QMap.empty ∧
      sampleServer.changed.find sampleFile = some false) ∧
    (jsonReceived sampleEnv sampleServer 1 sampleMalformed).map (fun r =>
        (destinations r.2, r.1.changed.find sampleFile,
          (r.1.symbols_list.find sampleFile).map QMap.keys)) =
      some ([2], some true, some [fromJsonArraytoString []]) ∧
    (jsonReceived sampleEnv sampleServer 1 sampleMalformed).map (fun r => sentJson r.2) =
      some [sampleMalformed] := by
  refine ⟨⟨rfl, by decide⟩, by decide, rfl⟩

/-- C14: the key that is evicted is the filename of the session, not the key the session is
    removed from.  Session 3, the only session of `todo,eve`, opens the sample file and then
    closes `todo,eve`: the registry loses `todo,eve`, but the symbol table and the dirty
    flags still hold `todo,eve`, and it is the symbol map and the flag of the sample file
    that are evicted, with sessions 1, 2 and 3 registered under it; the next operation of
    session 1 then goes through a null pointer. -/
theorem last_leaver_evicts_the_file_it_is_bound_to :
    (receiveAll sampleEnv sampleServerWithSymbols [(3, sampleOpen)]).map (fun r =>
        (r.1.mapFileWorkers.find (QLatin1String "todo,eve"), (r.1.workers 3).filename)) =
      some (some [3], sampleFile) ∧
    (receiveAll sampleEnv sampleServerWithSymbols [(3, sampleOpen), (3, sampleCloseTodo)]).map
        (fun r => (r.1.mapFileWorkers.contains (QLatin1String "todo,eve"),
          r.1.symbols_list.contains (QLatin1String "todo,eve"),
          r.1.changed.contains (QLatin1String "todo,eve"))) =
      some (false, true, true) ∧
    (receiveAll sampleEnv sampleServerWithSymbols [(3, sampleOpen), (3, sampleCloseTodo)]).map
        (fun r => (r.1.mapFileWorkers.find sampleFile, r.1.symbols_list.contains sampleFile,
          r.1.changed.contains sampleFile)) =
      some (some [1, 2, 3], false, false) ∧
    (receiveAll sampleEnv sampleServerWithSymbols [(3, sampleOpen), (3, sampleCloseTodo),
        (1, sampleOperation 0 (sampleSymbol 3 1 9))]).isNone = true := by
  refine ⟨by decide, by decide, by decide, by decide⟩

/-- C15: the notice goes to the sessions of the file the leaver is bound to, not to those of the
    key it leaves.  Session 1 of the sample file opens `todo,eve` and then closes the sample
    file, where session 2 stays: session 1 is removed from the list of the sample file, the
    `disconnection` notice is sent to session 3 of `todo,eve`, and session 2 is sent
    nothing (the second send is the answer to session 1). -/
theorem leave_notice_goes_to_the_sessions_of_the_bound_file :
    (receiveAll sampleEnv sampleServer [(1, sampleOpenTodo)]).map (fun r =>
        (r.1.mapFileWorkers.find sampleFile, r.1.mapFileWorkers.find (QLatin1String "todo,eve"),
          (r.1.workers 1).filename)) =
      some (some [1, 2], some [3, 1], QLatin1String "todo,eve") ∧
    ((receiveAll sampleEnv sampleServer [(1, sampleOpenTodo)]).bind fun r =>
        (jsonReceived sampleEnv r.1 1 sampleClose).map fun q =>
          (destinations q.2, q.1.mapFileWorkers.find sampleFile)) =
      some ([3, 1], some [2]) ∧
    ((receiveAll sampleEnv sampleServer [(1, sampleOpenTodo)]).bind fun r =>
        (jsonReceived sampleEnv r.1 1 sampleClose).map fun q =>
          (sentJson q.2).map fun m => ((m.value "type").toQString,
            (m.value "filename").toQString, (m.value "user").toQString)) =
      some [(QLatin1String "disconnection", sampleFile, QLatin1String "ann"),
        (QLatin1String "close", [], [])] := by
  refine ⟨by decide, by decide, by decide⟩

theorem eq_nil_of_isEmpty {α : Type} {l : List α} (h : l.isEmpty = true) : l = [] :=
  List.isEmpty_iff.mp h

theorem isString_of_not_null_or {v : QJsonValue} (h : ¬ (v.isNull || !v.isString) = true) :
    v.isString = true := by
  cases v <;> simp_all [QJsonValue.isNull, QJsonValue.isString]

theorem loadSymbols_frame (env : Env) (st : Server) (sender : Nat) (f : QString) :
    (loadSymbols env st sender f).1.workers = st.workers ∧
      (loadSymbols env st sender f).1.mapFileWorkers = st.mapFileWorkers := by
  unfold loadSymbols
  cases st.symbols_list.find f with
  | some m => exact ⟨rfl, rfl⟩
  | none => exact storeSymbols_frame st sender _

/-- The state after `sendFile`: the one before, or one whose sessions and registry are those
    after the session was registered under a key that is not empty. -/
theorem sendFile_state (env : Env) (st : Server) (sender : Nat) (doc : QJsonObject)
    (r : Server × List Event × QJsonObject) (h : sendFile env st sender doc = some r) :
    r.1 = st ∨ ∃ key : QString, key ≠ [] ∧
      r.1.workers = (registerSession st sender key).workers ∧
      r.1.mapFileWorkers = (registerSession st sender key).mapFileWorkers := by
  by_cases h1 : ((doc.value "filename").isNull || !(doc.value "filename").isString) = true
  · unfold sendFile at h
    simp only [h1, if_true] at h
    left
    cases h
    rfl
  have hname := isString_of_not_null_or h1
  by_cases h2 : (simplified (doc.value "filename").toQString).isEmpty = true
  · unfold sendFile at h
    simp only [h1, h2, if_true] at h
    left
    cases h
    rfl
  have hfile : simplified (doc.value "filename").toQString ≠ [] := fun e =>
    h2 (List.isEmpty_iff.mpr e)
  right
  refine ⟨_, hfile, ?_⟩
  rw [sendFile_eq env st sender doc hname hfile] at h
  simp only [] at h
  split at h
  · cases h
  · split at h
    · cases h
    · cases h
      exact loadSymbols_frame env _ sender _

/-- The state after `createNewFile`: the one before, or one in which the session is bound to
    a key that is not empty and is alone in the list registered under that key. -/
theorem createNewFile_state (env : Env) (st : Server) (sender : Nat) (doc : QJsonObject)
    (r : Server × QJsonObject) (h : createNewFile env st sender doc = some r) :
    r.1 = st ∨ ∃ key : QString, key ≠ [] ∧
      r.1.workers = (st.setFilename sender key).workers ∧
      r.1.mapFileWorkers = st.mapFileWorkers.insert key [sender] := by
  unfold createNewFile at h
  simp only [] at h
  split_ifs at h
  all_goals first
    | (left; cases h; rfl)
    | (right
       cases h
       refine ⟨simplified (doc.value "filename").toQString ++ QLatin1String "," ++
         simplified (doc.value "author").toQString, ?_, rfl, rfl⟩
       intro e
       have := congrArg List.length e
       simp [QLatin1String] at this)

/-- The outcomes of the leaving routine: nothing changes and the result is `false`, or the
    session was in the list of the key and is erased from it once, the key being removed
    when the list becomes empty; the sessions are as before. -/
theorem udpate_state (st : Server) (filename : QString) (sender : Nat)
    (r : Server × List Event × Bool)
    (h : udpateSymbolListAndCommunicateDisconnection st filename sender = some r) :
    (r.1 = st ∧ r.2.2 = false) ∨
      ∃ clients, st.mapFileWorkers.find filename = some clients ∧ sender ∈ clients ∧
        r.2.2 = true ∧ r.1.workers = st.workers ∧
        (r.1.mapFileWorkers = st.mapFileWorkers.update filename (fun c => c.erase sender) ∨
          r.1.mapFileWorkers =
            (st.mapFileWorkers.update filename (fun c => c.erase sender)).remove filename) := by
  unfold udpateSymbolListAndCommunicateDisconnection at h
  cases hf : st.mapFileWorkers.find filename with
  | none =>
    simp only [hf] at h
    cases h
    exact Or.inl ⟨rfl, rfl⟩
  | some clients =>
    simp only [hf] at h
    by_cases hmem : sender ∉ clients
    · rw [if_pos hmem] at h
      cases h
      exact Or.inl ⟨rfl, rfl⟩
    · rw [if_neg hmem] at h
      right
      refine ⟨clients, rfl, not_not.mp hmem, ?_⟩
      split_ifs at h
      · cases h
        refine ⟨rfl, ?_, Or.inr ?_⟩
        · exact saveFile_workers _
        · show (saveFile _).1.mapFileWorkers = _
          rw [saveFile_mapFileWorkers]
      · obtain ⟨events, _, hr⟩ := Option.map_eq_some'.mp h
        rw [← hr]
        exact ⟨rfl, rfl, Or.inl rfl⟩

theorem setFilename_workers_ne (st : Server) (sender w : Nat) (key : QString) (h : w ≠ sender) :
    (st.setFilename sender key).workers w = st.workers w := by
  simp [Server.setFilename, Function.update_noteq h]

theorem setFilename_workers_self (st : Server) (sender : Nat) (key : QString) :
    ((st.setFilename sender key).workers sender).filename = key := by
  simp [Server.setFilename]

/-- A session that is bound to no file is in no session list, when no list is registered
    under the empty key. -/
theorem not_mem_of_unbound (st : Server) (sender : Nat) (hinv : BoundToOne st)
    (hnone : st.mapFileWorkers.find [] = none)
    (hunbound : (st.workers sender).filename = []) (k : QString) (clients : List Nat)
    (hf : st.mapFileWorkers.find k = some clients) : sender ∉ clients := by
  intro hmem
  have hk : k = [] := ((hinv k clients hf).2 sender hmem).symm.trans hunbound
  rw [hk, hnone] at hf
  cases hf

theorem boundToOne_after_leaving (st st' : Server) (k : QString) (sender : Nat)
    (clients : List Nat) (hinv : BoundToOne st)
    (hf : st.mapFileWorkers.find k = some clients) (hmem : sender ∈ clients)
    (hw : ∀ w, w ≠ sender → st'.workers w = st.workers w)
    (hm : st'.mapFileWorkers = st.mapFileWorkers.update k (fun c => c.erase sender) ∨
      st'.mapFileWorkers = (st.mapFileWorkers.update k (fun c => c.erase sender)).remove k) :
    BoundToOne st' := by
  intro k' c' hc'
  have hu : (st.mapFileWorkers.update k (fun c => c.erase sender)).find k' = some c' := by
    rcases hm with hm | hm
    · rw [hm] at hc'; exact hc'
    · rw [hm, QMap.find_remove] at hc'
      by_cases hk : k' = k
      · rw [if_pos hk] at hc'; cases hc'
      · rw [if_neg hk] at hc'; exact hc'
  rw [QMap.find_update] at hu
  have hnodup := (hinv k clients hf).1
  by_cases hk : k' = k
  · subst hk
    rw [if_pos rfl, hf] at hu
    cases hu
    refine ⟨hnodup.erase sender, ?_⟩
    intro w hwm
    have hne : w ≠ sender := (hnodup.mem_erase_iff.mp hwm).1
    rw [hw w hne]
    exact (hinv k' clients hf).2 w (List.mem_of_mem_erase hwm)
  · rw [if_neg hk] at hu
    refine ⟨(hinv k' c' hu).1, ?_⟩
    intro w hwm
    have hne : w ≠ sender := by
      intro e
      subst e
      exact hk (((hinv k' c' hu).2 w hwm).symm.trans ((hinv k clients hf).2 w hmem))
    rw [hw w hne]
    exact (hinv k' c' hu).2 w hwm

theorem registerSession_find (st : Server) (sender : Nat) (key k : QString) :
    (registerSession st sender key).mapFileWorkers.find k =
      if k = key then some ((st.mapFileWorkers.find key).getD [] ++ [sender])
      else st.mapFileWorkers.find k := by
  unfold registerSession
  simp only []
  split_ifs with hc hk hk
  · subst hk
    simp only [Server.setFilename, QMap.contains] at hc
    obtain ⟨c, hcs⟩ := Option.isSome_iff_exists.mp hc
    show (st.mapFileWorkers.update k _).find k = _
    rw [QMap.find_update, if_pos rfl, hcs]
    rfl
  · show (st.mapFileWorkers.update key _).find k = _
    rw [QMap.find_update, if_neg hk]
  · subst hk
    simp only [Server.setFilename, QMap.contains] at hc
    have hn : st.mapFileWorkers.find k = none := by
      cases hfk : st.mapFileWorkers.find k with
      | none => rfl
      | some c => rw [hfk] at hc; simp at hc
    show (st.mapFileWorkers.insert k _).find k = _
    rw [QMap.find_insert_self, hn]
    rfl
  · show (st.mapFileWorkers.insert key _).find k = _
    rw [QMap.find_insert_ne _ _ hk]

theorem boundToOne_after_registering (st st' : Server) (key : QString) (sender : Nat)
    (hinv : BoundToOne st) (hnone : st.mapFileWorkers.find [] = none)
    (hunbound : (st.workers sender).filename = [])
    (hw : st'.workers = (st.setFilename sender key).workers)
    (hm : st'.mapFileWorkers = st.mapFileWorkers.insert key [sender] ∨
      st'.mapFileWorkers = (registerSession st sender key).mapFileWorkers) :
    BoundToOne st' := by
  have hout := not_mem_of_unbound st sender hinv hnone hunbound
  have hfind : ∀ k', ∃ old : List Nat, old.Nodup ∧ sender ∉ old ∧
      (∀ w ∈ old, (st.workers w).filename = key) ∧
      st'.mapFileWorkers.find k' =
        if k' = key then some (old ++ [sender]) else st.mapFileWorkers.find k' := by
    intro k'
    rcases hm with hm | hm
    · refine ⟨[], List.nodup_nil, List.not_mem_nil _, fun w hw => absurd hw (List.not_mem_nil _),
        ?_⟩
      rw [hm, QMap.find_insert]
      split_ifs <;> rfl
    · cases hfk : st.mapFileWorkers.find key with
      | none =>
        refine ⟨[], List.nodup_nil, List.not_mem_nil _,
          fun w hw => absurd hw (List.not_mem_nil _), ?_⟩
        rw [hm, registerSession_find, hfk]
        split_ifs <;> rfl
      | some old =>
        refine ⟨old, (hinv key old hfk).1, hout key old hfk, (hinv key old hfk).2, ?_⟩
        rw [hm, registerSession_find, hfk]
        split_ifs <;> rfl
  intro k' c' hc'
  obtain ⟨old, hnd, hnot, hold, hf⟩ := hfind k'
  rw [hf] at hc'
  by_cases hk : k' = key
  · rw [if_pos hk] at hc'
    cases hc'
    subst hk
    refine ⟨?_, ?_⟩
    · rw [List.nodup_append]
      refine ⟨hnd, List.nodup_singleton _, ?_⟩
      intro a ha hb
      rw [List.mem_singleton] at hb
      exact hnot (hb ▸ ha)
    · intro w hwm
      rw [hw]
      rcases List.mem_append.mp hwm with h1 | h1
      · have hne : w ≠ sender := fun e => hnot (e ▸ h1)
        rw [setFilename_workers_ne _ _ _ _ hne]
        exact hold w h1
      · rw [List.mem_singleton] at h1
        subst h1
        exact setFilename_workers_self _ _ _
  · rw [if_neg hk] at hc'
    refine ⟨(hinv k' c' hc').1, ?_⟩
    intro w hwm
    have hne : w ≠ sender := fun e => hout k' c' hc' (e ▸ hwm)
    rw [hw, setFilename_workers_ne _ _ _ _ hne]
    exact (hinv k' c' hc').2 w hwm

theorem find_nil_after_registering (st st' : Server) (key : QString) (sender : Nat)
    (hnone : st.mapFileWorkers.find [] = none) (hkey : key ≠ [])
    (hm : st'.mapFileWorkers = st.mapFileWorkers.insert key [sender] ∨
      st'.mapFileWorkers = (registerSession st sender key).mapFileWorkers) :
    st'.mapFileWorkers.find [] = none := by
  rcases hm with hm | hm
  · rw [hm, QMap.find_insert_ne _ _ (Ne.symm hkey)]
    exact hnone
  · rw [hm, registerSession_find, if_neg (Ne.symm hkey)]
    exact hnone

theorem find_nil_after_leaving (st st' : Server) (k : QString) (sender : Nat)
    (hnone : st.mapFileWorkers.find [] = none)
    (hm : st'.mapFileWorkers = st.mapFileWorkers.update k (fun c => c.erase sender) ∨
      st'.mapFileWorkers = (st.mapFileWorkers.update k (fun c => c.erase sender)).remove k) :
    st'.mapFileWorkers.find [] = none := by
  have hu : (st.mapFileWorkers.update k (fun c => c.erase sender)).find [] = none := by
    rw [QMap.find_update, hnone]
    split_ifs <;> rfl
  rcases hm with hm | hm
  · rw [hm]; exact hu
  · rw [hm, QMap.find_remove]
    split_ifs
    · rfl
    · exact hu

theorem closeFile_state (st : Server) (sender : Nat) (doc : QJsonObject)
    (r : Server × List Event × QJsonObject) (h : closeFile st sender doc = some r) :
    r.1 = st ∨ ∃ k clients, st.mapFileWorkers.find k = some clients ∧ sender ∈ clients ∧
      (∀ w, w ≠ sender → r.1.workers w = st.workers w) ∧
      (r.1.mapFileWorkers = st.mapFileWorkers.update k (fun c => c.erase sender) ∨
        r.1.mapFileWorkers = (st.mapFileWorkers.update k (fun c => c.erase sender)).remove k) := by
  unfold closeFile at h
  simp only [] at h
  split_ifs at h
  all_goals first
    | (left; cases h; rfl)
    | skip
  obtain ⟨u, hu, hr⟩ := Option.map_eq_some'.mp h
  rcases udpate_state st _ sender u hu with ⟨h1, h2⟩ | ⟨clients, hf, hmem, h2, hw, hm⟩
  · left
    rw [← hr, h2]
    exact h1
  · right
    refine ⟨_, clients, hf, hmem, ?_, ?_⟩
    · intro w hne
      rw [← hr, h2]
      show (u.1.closeWorkerFile sender).workers w = _
      rw [Server.closeWorkerFile, setFilename_workers_ne _ _ _ _ hne, hw]
    · rw [← hr, h2]
      exact hm

theorem userDisconnected_state (st : Server) (sender threadIdx : Nat)
    (r : Server × List Event) (h : userDisconnected st sender threadIdx = some r) :
    (r.1.workers = st.workers ∧ r.1.mapFileWorkers = st.mapFileWorkers) ∨
      ∃ k clients, st.mapFileWorkers.find k = some clients ∧ sender ∈ clients ∧
        (∀ w, w ≠ sender → r.1.workers w = st.workers w) ∧
        (r.1.mapFileWorkers = st.mapFileWorkers.update k (fun c => c.erase sender) ∨
          r.1.mapFileWorkers =
            (st.mapFileWorkers.update k (fun c => c.erase sender)).remove k) := by
  unfold userDisconnected at h
  cases hl : st.m_threadsLoad[threadIdx]? with
  | none => simp only [hl] at h; cases h
  | some load =>
    simp only [hl] at h
    split_ifs at h
    · obtain ⟨u, hu, hr⟩ := Option.map_eq_some'.mp h
      rcases udpate_state _ _ sender u hu with ⟨h1, _⟩ | ⟨clients, hf, hmem, _, hw, hm⟩
      · left
        rw [← hr]
        show u.1.workers = _ ∧ u.1.mapFileWorkers = _
        rw [h1]
        exact ⟨rfl, rfl⟩
      · right
        refine ⟨_, clients, hf, hmem, ?_, ?_⟩
        · intro w _
          rw [← hr]
          show u.1.workers w = _
          rw [hw]
        · rw [← hr]
          exact hm
    · cases h
      exact Or.inl ⟨rfl, rfl⟩

theorem boundToOne_congr (st st' : Server) (hw : st'.workers = st.workers)
    (hm : st'.mapFileWorkers = st.mapFileWorkers) (h : BoundToOne st) : BoundToOne st' := by
  intro k c hc
  rw [hm] at hc
  rw [hw]
  exact h k c hc

/-- One request keeps the sessions bound to one file, when a request that opens a file
    comes from a session that is bound to none. -/
theorem serve_keeps_boundToOne (env : Env) (st st' : Server) (sender : Nat) (request : Request)
    (hinv : BoundToOne st) (hnone : st.mapFileWorkers.find [] = none)
    (hopen : request.opens = true → (st.workers sender).filename = [])
    (h : serve env st sender request = some st') :
    BoundToOne st' ∧ st'.mapFileWorkers.find [] = none := by
  cases request with
  | newFile doc =>
    obtain ⟨r, hr, rfl⟩ := Option.map_eq_some'.mp h
    rcases createNewFile_state env st sender doc r hr with h1 | ⟨key, hkey, hw, hm⟩
    · rw [h1]; exact ⟨hinv, hnone⟩
    · exact ⟨boundToOne_after_registering st r.1 key sender hinv hnone (hopen rfl) hw (Or.inl hm),
        find_nil_after_registering st r.1 key sender hnone hkey (Or.inl hm)⟩
  | openFile doc =>
    obtain ⟨r, hr, rfl⟩ := Option.map_eq_some'.mp h
    rcases sendFile_state env st sender doc r hr with h1 | ⟨key, hkey, hw, hm⟩
    · rw [h1]; exact ⟨hinv, hnone⟩
    · have hw' : r.1.workers = (st.setFilename sender key).workers := by
        rw [hw]
        unfold registerSession
        simp only []
        split_ifs <;> rfl
      exact ⟨boundToOne_after_registering st r.1 key sender hinv hnone (hopen rfl) hw' (Or.inr hm),
        find_nil_after_registering st r.1 key sender hnone hkey (Or.inr hm)⟩
  | close doc =>
    obtain ⟨r, hr, rfl⟩ := Option.map_eq_some'.mp h
    rcases closeFile_state st sender doc r hr with h1 | ⟨k, clients, hf, hmem, hw, hm⟩
    · rw [h1]; exact ⟨hinv, hnone⟩
    · exact ⟨boundToOne_after_leaving st r.1 k sender clients hinv hf hmem hw hm,
        find_nil_after_leaving st r.1 k sender hnone hm⟩
  | disconnect threadIdx =>
    obtain ⟨r, hr, rfl⟩ := Option.map_eq_some'.mp h
    rcases userDisconnected_state st sender threadIdx r hr with
      ⟨hw, hm⟩ | ⟨k, clients, hf, hmem, hw, hm⟩
    · exact ⟨boundToOne_congr st r.1 hw hm hinv, by rw [hm]; exact hnone⟩
    · exact ⟨boundToOne_after_leaving st r.1 k sender clients hinv hf hmem hw hm,
        find_nil_after_leaving st r.1 k sender hnone hm⟩

/-- C20 (counterexample): the server lets a session that has a file open open another one, or
    the same one again.  Session 1 opens the sample file and then `todo,eve`: it is in the
    session lists of both keys, and the first is not its filename.  Session 1 opens the
    sample file twice: it is twice in the list of the key. -/
theorem session_registered_under_two_files :
    (serveAll freshServer [(sampleEnv, 1, .openFile sampleOpen),
        (sampleEnv, 1, .openFile sampleOpenTodo)]).map (fun st =>
        (st.mapFileWorkers.find sampleFile, st.mapFileWorkers.find (QLatin1String "todo,eve"),
          (st.workers 1).filename)) =
      some (some [1], some [1], QLatin1String "todo,eve") ∧
    (serveAll freshServer [(sampleEnv, 1, .openFile sampleOpen),
        (sampleEnv, 1, .openFile sampleOpen)]).map (fun st =>
        st.mapFileWorkers.find sampleFile) = some (some [1, 1]) := by
  refine ⟨by decide, by decide⟩

/-- C20 (amended): from a state in which every session list is free of repetitions and holds only
    sessions whose filename is the key of the list, and in which no list is registered under
    the empty key, every run of `new_file`, `file_to_open`, `close` and disconnect requests
    in which the requests that open a file come from sessions bound to no file at that
    moment ends in a state with the same properties: each session is in the list of at most
    one key, at most once, and that key is its filename. -/
theorem sessions_that_open_unbound_stay_bound_to_one_file (st : Server)
    (requests : List (Env × Nat × Request)) (st' : Server)
    (hinv : BoundToOne st) (hnone : st.mapFileWorkers.find [] = none)
    (hopen : opensUnbound st requests = true)
    (hrun : serveAll st requests = some st') :
    BoundToOne st' ∧ st'.mapFileWorkers.find [] = none := by
  induction requests generalizing st with
  | nil =>
    cases hrun
    exact ⟨hinv, hnone⟩
  | cons a rest ih =>
    obtain ⟨env, sender, request⟩ := a
    simp only [serveAll] at hrun
    obtain ⟨st1, h1, hrest⟩ := Option.bind_eq_some.mp hrun
    simp only [opensUnbound, h1, Bool.and_eq_true, Bool.or_eq_true, Bool.not_eq_true'] at hopen
    have hstep := serve_keeps_boundToOne env st st1 sender request hinv hnone (by
      intro ho
      rcases hopen.1 with h | h
      · rw [ho] at h; cases h
      · exact List.isEmpty_iff.mp h) h1
    exact ih st1 hstep.1 hstep.2 hopen.2 hrest

theorem sessions_that_open_unbound_stay_bound_to_one_file_witness :
    ∃ st', serveAll freshServer sampleRun = some st' ∧
      (BoundToOne st' ∧ st'.mapFileWorkers.find [] = none) :=
  have hsome : (serveAll freshServer sampleRun).isSome = true := by decide
  ⟨(serveAll freshServer sampleRun).get hsome, (Option.some_get hsome).symm,
    sessions_that_open_unbound_stay_bound_to_one_file freshServer sampleRun _
      (fun k c h => by simp [freshServer, QMap.find, QMap.empty, lookupEntry] at h)
      (by decide) (by decide) (Option.some_get hsome).symm⟩

/-- C18: the function `signup_updateImage` builds responses that have no `type`.  A `signup` request
    with an empty username is answered with `success` false and the reason `Empty email`,
    and a frame whose text is no JSON object with `success` false and the reason
    `JSON error`: both answers have the boolean `success` and the string `reason`, and no
    member `type`. -/
theorem signup_answers_without_a_type :
    (sentJson (signup_updateImage sampleFromJson (fun _ _ => .SUCCESS) 0
        (sampleFrame (toJson sampleSignup))).1).map (fun m =>
        ((m.value "type").isString, (m.value "success").isBool, (m.value "reason").toQString,
          wellShaped m)) =
      [(false, true, QLatin1String "Empty email", false)] ∧
    (sentJson (signup_updateImage sampleFromJson (fun _ _ => .SUCCESS) 0
        (sampleFrame (QLatin1String "signup"))).1).map (fun m =>
        ((m.value "type").isString, (m.value "success").isBool, (m.value "reason").toQString,
          wellShaped m)) =
      [(false, true, QLatin1String "JSON error", false)] := by
  refine ⟨by decide, by decide⟩

theorem wellShaped_failure (message : QJsonObject) (reason : String)
    (h : (message.value "type").isString = true) : wellShaped (failure message reason) = true := by
  unfold wellShaped
  rw [type_of_failure, success_of_failure, reason_of_failure, h]
  rfl

theorem wellShaped_failure_response (type reason : String) :
    wellShaped (failure (response type) reason) = true :=
  wellShaped_failure _ _ (by rw [type_of_response]; rfl)

theorem wellShaped_success (type : String) :
    wellShaped ((response type).set "success" (.bool true)) = true := by
  unfold wellShaped
  rw [value_set_ne _ _ (by decide), type_of_response, value_set_self]
  rfl

theorem wellShaped_set (message : QJsonObject) (key : String) (v : QJsonValue)
    (h1 : QLatin1String "type" ≠ QLatin1String key)
    (h2 : QLatin1String "success" ≠ QLatin1String key)
    (h3 : QLatin1String "reason" ≠ QLatin1String key) :
    wellShaped (message.set key v) = wellShaped message := by
  unfold wellShaped
  rw [value_set_ne _ _ h1, value_set_ne _ _ h2, value_set_ne _ _ h3]

theorem wellShaped_checkCredentials (env : Env) (st : Server) (sender : Nat)
    (doc : QJsonObject) : wellShaped (checkCredentials env st sender doc).2 = true := by
  unfold checkCredentials
  simp only []
  split_ifs <;>
    first
      | exact wellShaped_failure_response _ _
      | (show wellShaped (QJsonObject.set _ _ _) = true
         rw [wellShaped_set _ _ _ (by decide) (by decide) (by decide),
           wellShaped_set _ _ _ (by decide) (by decide) (by decide)]
         exact wellShaped_success _)

theorem wellShaped_updateNick (env : Env) (st : Server) (sender : Nat) (doc : QJsonObject) :
    wellShaped (updateNick env st sender doc).2 = true := by
  unfold updateNick
  simp only []
  split_ifs <;>
    first
      | exact wellShaped_failure_response _ _
      | exact wellShaped_success _

theorem wellShaped_updatePass (env : Env) (doc : QJsonObject) :
    wellShaped (updatePass env doc) = true := by
  unfold updatePass
  simp only []
  split_ifs <;>
    first
      | exact wellShaped_failure_response _ _
      | exact wellShaped_success _

theorem wellShaped_checkOldPass (env : Env) (doc : QJsonObject) :
    wellShaped (checkOldPass env doc) = true := by
  unfold checkOldPass
  simp only []
  split_ifs <;>
    first
      | exact wellShaped_failure_response _ _
      | exact wellShaped_success _

theorem wellShaped_getFiles (env : Env) (doc : QJsonObject) (shared : Bool) :
    wellShaped (getFiles env doc shared) = true := by
  unfold getFiles
  simp only []
  split_ifs <;>
    first
      | exact wellShaped_failure_response _ _
      | (rw [wellShaped_set _ _ _ (by decide) (by decide) (by decide)]
         unfold wellShaped
         rw [value_set_ne _ _ (by decide), value_set_ne _ _ (by decide), type_of_response,
           value_set_self]
         rfl)

theorem wellShaped_getFilenameFromSharedLink (env : Env) (doc : QJsonObject) (user : QString) :
    wellShaped (getFilenameFromSharedLink env doc user) = true := by
  unfold getFilenameFromSharedLink
  simp only []
  split_ifs <;>
    first
      | exact wellShaped_failure_response _ _
      | (rw [wellShaped_set _ _ _ (by decide) (by decide) (by decide)]
         exact wellShaped_success _)

theorem wellShaped_checkAlreadyExistingUsername (env : Env) (doc : QJsonObject)
    (m : QJsonObject) (h : checkAlreadyExistingUsername env doc = some m) :
    wellShaped m = true := by
  unfold checkAlreadyExistingUsername at h
  simp only [] at h
  split_ifs at h <;> cases h <;>
    first
      | exact wellShaped_failure_response _ _
      | (rw [wellShaped_set _ _ _ (by decide) (by decide) (by decide)]
         exact wellShaped_success _)

theorem wellShaped_createNewFile (env : Env) (st : Server) (sender : Nat) (doc : QJsonObject)
    (r : Server × QJsonObject) (h : createNewFile env st sender doc = some r) :
    wellShaped r.2 = true := by
  unfold createNewFile at h
  simp only [] at h
  split_ifs at h <;> cases h <;>
    first
      | (show wellShaped (failure _ _) = true
         exact wellShaped_failure_response _ _)
      | (show wellShaped (QJsonObject.set _ _ _) = true
         rw [wellShaped_set _ _ _ (by decide) (by decide) (by decide)]
         exact wellShaped_success _)

theorem wellShaped_closeFile (st : Server) (sender : Nat) (doc : QJsonObject)
    (r : Server × List Event × QJsonObject) (h : closeFile st sender doc = some r) :
    wellShaped r.2.2 = true := by
  unfold closeFile at h
  simp only [] at h
  split_ifs at h
  all_goals first
    | (cases h
       show wellShaped (failure _ _) = true
       exact wellShaped_failure_response _ _)
    | skip
  obtain ⟨u, _, hr⟩ := Option.map_eq_some'.mp h
  rw [← hr]
  split_ifs
  · exact wellShaped_failure_response _ _
  · exact wellShaped_success _

/-- The leaving routine for the only session of the key, when the key is the filename of the
    session: the key leaves the registry, the symbol table and the dirty flags, after
    `saveFile` has run on the symbol table that still holds the key. -/
theorem leave_of_the_last_bound_session (st : Server) (k : QString) (sender : Nat)
    (hf : st.mapFileWorkers.find k = some [sender])
    (hbound : (st.workers sender).filename = k) :
    ∃ st' : Server,
      udpateSymbolListAndCommunicateDisconnection st k sender =
        some (st', (saveFile { st with mapFileWorkers :=
          (st.mapFileWorkers.update k (fun c => c.erase sender)).remove k }).2, true) ∧
      st'.mapFileWorkers.find k = none ∧ st'.symbols_list.find k = none ∧
      st'.changed.find k = none ∧ st'.workers = st.workers := by
  unfold udpateSymbolListAndCommunicateDisconnection
  simp only [hf, List.mem_singleton, not_true_eq_false, if_false, List.erase_cons_head,
    List.isEmpty_nil, if_true]
  refine ⟨_, rfl, ?_, ?_, ?_, ?_⟩
  · show (saveFile _).1.mapFileWorkers.find k = none
    rw [saveFile_mapFileWorkers]
    exact (QMap.find_remove _ _ _).trans (if_pos rfl)
  · show (QMap.remove _ ((saveFile _).1.workers sender).filename).find k = none
    rw [saveFile_workers]
    show (QMap.remove _ (st.workers sender).filename).find k = none
    rw [hbound]
    exact (QMap.find_remove _ _ _).trans (if_pos rfl)
  · show (QMap.remove _ ((saveFile _).1.workers sender).filename).find k = none
    rw [saveFile_workers]
    show (QMap.remove _ (st.workers sender).filename).find k = none
    rw [hbound]
    exact (QMap.find_remove _ _ _).trans (if_pos rfl)
  · show (saveFile _).1.workers = _
    rw [saveFile_workers]

/-- The leaving routine for a session that leaves others behind, when the key is the
    filename of the session and the list of the key holds no session twice: the session is
    erased from the list, every session that stays is sent the notice once, and nothing
    else changes. -/
theorem leave_of_a_bound_session_with_others (st : Server) (k : QString) (sender : Nat)
    (clients : List Nat) (hf : st.mapFileWorkers.find k = some clients)
    (hmem : sender ∈ clients) (hnodup : clients.Nodup) (hothers : clients.erase sender ≠ [])
    (hbound : (st.workers sender).filename = k) :
    udpateSymbolListAndCommunicateDisconnection st k sender =
      some ({ st with mapFileWorkers := st.mapFileWorkers.update k (fun c => c.erase sender) },
        (clients.erase sender).map (fun w => Event.sendJson w
          ((((QJsonObject.set [] "type" (.string (QLatin1String "disconnection"))).set
            "filename" (.string k)).set "user" (.string (st.workers sender).username)).set
            "nickname" (.string (st.workers sender).nickname))), true) := by
  unfold udpateSymbolListAndCommunicateDisconnection
  simp only [hf, hmem, not_true_eq_false, if_false, isEmpty_eq_false_of_ne_nil hothers,
    Bool.false_eq_true]
  have hb : broadcast { st with mapFileWorkers :=
        st.mapFileWorkers.update k (fun c => c.erase sender) }
      ((((QJsonObject.set [] "type" (.string (QLatin1String "disconnection"))).set
        "filename" (.string k)).set "user" (.string (st.workers sender).username)).set
        "nickname" (.string (st.workers sender).nickname)) sender =
      some ((clients.erase sender).map (fun w => Event.sendJson w
        ((((QJsonObject.set [] "type" (.string (QLatin1String "disconnection"))).set
          "filename" (.string k)).set "user" (.string (st.workers sender).username)).set
          "nickname" (.string (st.workers sender).nickname)))) := by
    unfold broadcast
    simp only [hbound]
    rw [QMap.find_update, if_pos rfl, hf]
    simp only [Option.map_some']
    congr 1
    rw [flatMap_exclude]
    congr 1
    apply List.filter_eq_self.mpr
    intro w hw
    exact decide_eq_true (hnodup.mem_erase_iff.mp hw).1
  rw [hb]
  rfl

/-- C25: for every request whose `username`, `oldpass` and `newpass` are strings that are not empty
    after `simplified`, `updatePass` answers `success` true for every store result other
    than `NON_EXISTING_USER` and `WRONG_PASSWORD`; so when the store returns
    `CONNECTION_ERROR` or `QUERY_ERROR`, the answer is `success` true with no reason. -/
theorem updatePass_reports_a_store_failure_as_success (env : Env) (doc : QJsonObject)
    (huser : (doc.value "username").isString = true)
    (husername : simplified (doc.value "username").toQString ≠ [])
    (hold : (doc.value "oldpass").isString = true)
    (holdpass : simplified (doc.value "oldpass").toQString ≠ [])
    (hnew : (doc.value "newpass").isString = true)
    (hnewpass : simplified (doc.value "newpass").toQString ≠ [])
    (hstore : env.db.updatePassword (simplified (doc.value "username").toQString)
        (simplified (doc.value "oldpass").toQString)
        (simplified (doc.value "newpass").toQString) = .CONNECTION_ERROR ∨
      env.db.updatePassword (simplified (doc.value "username").toQString)
        (simplified (doc.value "oldpass").toQString)
        (simplified (doc.value "newpass").toQString) = .QUERY_ERROR) :
    updatePass env doc = (response "password").set "success" (.bool true) ∧
      (updatePass env doc).value "success" = .bool true ∧
      ((updatePass env doc).value "reason").isString = false := by
  have h : updatePass env doc = (response "password").set "success" (.bool true) := by
    unfold updatePass
    simp only [not_null_or_not_string huser, not_null_or_not_string hold,
      not_null_or_not_string hnew, isEmpty_eq_false_of_ne_nil husername,
      isEmpty_eq_false_of_ne_nil holdpass, isEmpty_eq_false_of_ne_nil hnewpass]
    rcases hstore with hs | hs <;> simp [hs]
  refine ⟨h, ?_, ?_⟩
  · rw [h, value_set_self]
  · rw [h, value_set_ne _ _ (by decide)]
    rfl

theorem updatePass_reports_a_store_failure_as_success_witness :
    updatePass brokenStoreEnv samplePassword = (response "password").set "success" (.bool true) ∧
      (updatePass brokenStoreEnv samplePassword).value "success" = .bool true ∧
      ((updatePass brokenStoreEnv samplePassword).value "reason").isString = false :=
  updatePass_reports_a_store_failure_as_success brokenStoreEnv samplePassword (by decide)
    (by decide) (by decide) (by decide) (by decide) (by decide) (Or.inl (by decide))

/-- C26: requests of a logged-in session that the server does not survive.  Session 0 logs in
    and, with no file open, sends an insertion: the handler goes through the pointer
    `symbols_list.value("")`, which is null.  Session 1, logged in with no file open,
    sends an erase with no symbols: the symbol map is not touched, and `broadcast` goes
    through the pointer `mapFileWorkers->value("")`, which is null.  Session 1 opens a file
    for which the store hands back no symbol and sends an insertion: no symbol map was
    created for the file, and the handler goes through the null pointer. -/
theorem operation_goes_through_a_null_pointer :
    (receiveAll loginEnv sampleServer [(0, sampleLogin)]).isSome = true ∧
    (receiveAll loginEnv sampleServer
      [(0, sampleLogin), (0, sampleOperation 0 (sampleSymbol 1 1 7))]).isNone = true ∧
    (jsonReceived sampleEnv freshServer 1
      (((QJsonObject.set [] "type" (.string (QLatin1String "operation"))).set "operation_type"
        (.double 1)))).isNone = true ∧
    (receiveAll sampleEnv freshServer [(1, sampleOpen)]).isSome = true ∧
    (receiveAll sampleEnv freshServer
      [(1, sampleOpen), (1, sampleOperation 0 (sampleSymbol 1 1 7))]).isNone = true := by
  refine ⟨by decide, by decide, by decide, by decide, by decide⟩

theorem value_touch_ne (o : QJsonObject) {k k' : String}
    (h : QLatin1String k' ≠ QLatin1String k) : (o.touch k).value k' = o.value k' := by
  unfold QJsonObject.touch
  cases lookupEntry (QLatin1String k) o with
  | none => exact value_set_ne _ _ h
  | some _ => rfl

theorem toArray_value_touch (o : QJsonObject) (k : String) :
    ((o.touch k).value k).toArray = (o.value k).toArray := by
  unfold QJsonObject.touch
  cases h : lookupEntry (QLatin1String k) o with
  | none =>
    simp only []
    rw [value_set_self]
    simp [QJsonObject.value, h, QJsonValue.toArray]
  | some _ => rfl

theorem positionKey_touch (o : QJsonObject) : positionKey (o.touch "position") = positionKey o := by
  unfold positionKey
  rw [toArray_value_touch]

theorem applyOperation_change (c : OperationCodes) (m : QMap QString QJsonObject)
    (docObj : QJsonObject)
    (hop : (docObj.value "operation_type").toInt = c.CHANGE ∨
      (docObj.value "operation_type").toInt = c.ALIGN) :
    applyOperation c m docObj =
      m.insert (positionKey (docObj.value "symbol").toObject)
        ((docObj.value "symbol").toObject.touch "position") := by
  obtain ⟨h1, h2, h3, h4, h5, h6, h7, h8, h9, h10⟩ := codes_ne c
  rcases hop with h | h
  · simp only [applyOperation, h, h2.symm, h5.symm, if_true, if_false]
  · simp only [applyOperation, h, h3.symm, h6.symm, h8.symm, if_true, if_false]

/-- C27 (counterexample): a `change` message in the wire format of the spec, whose symbol carries
    a position, a font and a colour, for a position that the file's map holds with a value:
    afterwards the stored symbol has the message's font and colour and no `value` member. -/
theorem change_drops_the_fields_the_message_lacks :
    ((sampleServerWithStored.symbols_list.find sampleFile).bind fun m =>
        (m.find (positionKey sampleStored)).map fun s =>
          ((s.value "value").toInt, (s.value "color").toInt, s.map Prod.fst)) =
      some (97, 7, [QLatin1String "color", QLatin1String "font", QLatin1String "position",
        QLatin1String "value"]) ∧
    ((jsonReceived sampleEnv sampleServerWithStored 1 sampleChange).bind fun r =>
        (r.1.symbols_list.find sampleFile).bind fun m =>
          (m.find (positionKey sampleStored)).map fun s =>
            ((s.value "value").toInt, (s.value "color").toInt, s.map Prod.fst)) =
      some (0, 9, [QLatin1String "color", QLatin1String "font", QLatin1String "position"]) := by
  refine ⟨by decide, by decide⟩

/-- C27 (amended): when the server handles a `change` or `align` message of a logged-in session whose
    file has its session list and its symbol map `m`, the symbol stored afterwards under
    the position of the message is the symbol of the message as a whole (with a `position`
    member, created when the message has none): every member other than `position` is the
    one the message carries, the position key is the one of the message, and the entries
    at the other positions of the map are the ones before. -/
theorem change_stores_the_symbol_of_the_message (env : Env) (st : Server) (sender : Nat)
    (docObj : QJsonObject) (L : List Nat) (m : QMap QString QJsonObject)
    (hnick : (st.workers sender).nickname ≠ [])
    (hstr : (docObj.value "type").isString = true)
    (htype : compareCI (docObj.value "type").toQString "operation" = true)
    (hop : (docObj.value "operation_type").toInt = env.codes.CHANGE ∨
      (docObj.value "operation_type").toInt = env.codes.ALIGN)
    (hL : st.mapFileWorkers.find (st.workers sender).filename = some L)
    (hm : st.symbols_list.find (st.workers sender).filename = some m) :
    ∃ (st' : Server) (events : List Event) (m' : QMap QString QJsonObject),
      jsonReceived env st sender docObj = some (st', events) ∧
      st'.symbols_list.find (st.workers sender).filename = some m' ∧
      m'.find (positionKey (docObj.value "symbol").toObject) =
        some ((docObj.value "symbol").toObject.touch "position") ∧
      (∀ p, p ≠ positionKey (docObj.value "symbol").toObject → m'.find p = m.find p) ∧
      (∀ key : String, QLatin1String key ≠ QLatin1String "position" →
        ((docObj.value "symbol").toObject.touch "position").value key =
          (docObj.value "symbol").toObject.value key) ∧
      positionKey ((docObj.value "symbol").toObject.touch "position") =
        positionKey (docObj.value "symbol").toObject := by
  have h1 := (jsonReceived_operation env st sender docObj hnick hstr htype).trans
    (handleOperation_of_find env st sender docObj L m hL hm)
  refine ⟨_, _, applyOperation env.codes m docObj, h1, ?_, ?_, ?_, ?_, positionKey_touch _⟩
  · show (st.symbols_list.update _ _).find _ = _
    rw [QMap.find_update, if_pos rfl, hm]
    rfl
  · rw [applyOperation_change env.codes m docObj hop]
    exact QMap.find_insert_self _ _ _
  · intro p hp
    rw [applyOperation_change env.codes m docObj hop]
    exact QMap.find_insert_ne _ _ hp
  · intro key hkey
    exact value_touch_ne _ hkey

theorem change_stores_the_symbol_of_the_message_witness :
    ∃ (st' : Server) (events : List Event) (m' : QMap QString QJsonObject),
      jsonReceived sampleEnv sampleServerWithStored 1 sampleChange = some (st', events) ∧
      st'.symbols_list.find (sampleServerWithStored.workers 1).filename = some m' ∧
      m'.find (positionKey (sampleChange.value "symbol").toObject) =
        some ((sampleChange.value "symbol").toObject.touch "position") ∧
      (∀ p, p ≠ positionKey (sampleChange.value "symbol").toObject →
        m'.find p = (QMap.empty.insert (positionKey sampleStored) sampleStored).find p) ∧
      (∀ key : String, QLatin1String key ≠ QLatin1String "position" →
        ((sampleChange.value "symbol").toObject.touch "position").value key =
          (sampleChange.value "symbol").toObject.value key) ∧
      positionKey ((sampleChange.value "symbol").toObject.touch "position") =
        positionKey (sampleChange.value "symbol").toObject :=
  change_stores_the_symbol_of_the_message sampleEnv sampleServerWithStored 1 sampleChange [1, 2]
    (QMap.empty.insert (positionKey sampleStored) sampleStored) (by decide) (by decide)
    (by decide) (Or.inl (by decide)) (by decide) (by rfl)

theorem keysOfPositions_empty : KeysOfPositions QMap.empty := by
  intro p hp
  cases hp

theorem keysOfPositions_insert (m : QMap QString QJsonObject) (k : QString) (s : QJsonObject)
    (hk : k = positionKey s) (h : KeysOfPositions m) : KeysOfPositions (m.insert k s) := by
  intro p hp
  rcases mem_insertEntry hp with rfl | hp'
  · exact hk
  · exact h p hp'

theorem keysOfPositions_remove (m : QMap QString QJsonObject) (k : QString)
    (h : KeysOfPositions m) : KeysOfPositions (m.remove k) := by
  intro p hp
  exact h p (mem_removeEntry hp)

theorem keysOfPositions_applyOperation (c : OperationCodes) (m : QMap QString QJsonObject)
    (docObj : QJsonObject) (h : KeysOfPositions m) :
    KeysOfPositions (applyOperation c m docObj) := by
  unfold applyOperation
  simp only []
  split_ifs
  · exact keysOfPositions_insert _ _ _ (positionKey_touch _).symm h
  · generalize (docObj.value "symbols").toArray = ss
    induction ss generalizing m with
    | nil => exact h
    | cons a t ih => exact ih _ (keysOfPositions_remove _ _ h)
  · exact keysOfPositions_insert _ _ _ (positionKey_touch _).symm h
  · exact keysOfPositions_insert _ _ _ (positionKey_touch _).symm h
  · generalize (docObj.value "symbols").toArray = ss
    induction ss generalizing m with
    | nil => exact h
    | cons a t ih =>
      exact ih _ (keysOfPositions_insert _ _ _ (positionKey_touch _).symm h)
  · exact h

theorem keysMatch_of_symbols_list (st st' : Server) (h : st'.symbols_list = st.symbols_list)
    (hk : KeysMatch st) : KeysMatch st' := by
  unfold KeysMatch
  rw [h]
  exact hk

theorem keysMatch_update (st st' : Server) (f : QString)
    (g : QMap QString QJsonObject → QMap QString QJsonObject)
    (hg : ∀ m, KeysOfPositions m → KeysOfPositions (g m))
    (h : st'.symbols_list = st.symbols_list.update f g) (hk : KeysMatch st) : KeysMatch st' := by
  intro e he
  rw [h] at he
  obtain ⟨e0, he0, rfl⟩ := List.mem_map.mp he
  by_cases hf : e0.1 = f
  · rw [if_pos hf]
    exact hg _ (hk e0 he0)
  · rw [if_neg hf]
    exact hk e0 he0

theorem keysMatch_insert (st st' : Server) (f : QString) (m : QMap QString QJsonObject)
    (hm : KeysOfPositions m) (h : st'.symbols_list = st.symbols_list.insert f m)
    (hk : KeysMatch st) : KeysMatch st' := by
  intro e he
  rw [h] at he
  rcases mem_insertEntry he with rfl | he'
  · exact hm
  · exact hk e he'

theorem keysMatch_remove (st st' : Server) (f : QString)
    (h : st'.symbols_list = st.symbols_list.remove f) (hk : KeysMatch st) : KeysMatch st' := by
  intro e he
  rw [h] at he
  exact hk e (mem_removeEntry he)

theorem keysMatch_storeSymbol (sender : Nat) (st : Server) (symbol : QJsonObject)
    (hk : KeysMatch st) : KeysMatch (storeSymbol sender st symbol) := by
  unfold storeSymbol
  simp only []
  split_ifs
  · refine keysMatch_update
      { st with symbols_list := st.symbols_list.insert (st.workers sender).filename QMap.empty }
      _ (st.workers sender).filename _
      (fun m hm => keysOfPositions_insert m _ _ rfl hm) rfl ?_
    exact keysMatch_insert st _ _ _ keysOfPositions_empty rfl hk
  · exact keysMatch_update st _ (st.workers sender).filename _
      (fun m hm => keysOfPositions_insert m _ _ rfl hm) rfl hk

theorem keysMatch_storeSymbolsServerMemory (st : Server) (sender : Nat)
    (array : List QJsonObject) (hk : KeysMatch st) :
    KeysMatch (storeSymbolsServerMemory st sender array) := by
  unfold storeSymbolsServerMemory
  induction array generalizing st with
  | nil => exact hk
  | cons s t ih => exact ih _ (keysMatch_storeSymbol sender st s hk)

theorem keysMatch_handleOperation (env : Env) (st : Server) (sender : Nat)
    (docObj : QJsonObject) (r : Server × List Event) (hk : KeysMatch st)
    (h : handleOperation env st sender docObj = some r) : KeysMatch r.1 := by
  unfold handleOperation at h
  simp only [] at h
  obtain ⟨st1, h1, h2⟩ := Option.bind_eq_some.mp h
  obtain ⟨events, _, hr⟩ := Option.map_eq_some'.mp h2
  rw [← hr]
  have hst1 : KeysMatch st1 := by
    cases hf : st.symbols_list.find (st.workers sender).filename with
    | none =>
      rw [hf] at h1
      simp only [] at h1
      split_ifs at h1
      cases h1
      exact hk
    | some m =>
      rw [hf] at h1
      simp only [] at h1
      cases h1
      exact keysMatch_update st _ (st.workers sender).filename _
        (fun m hm => keysOfPositions_applyOperation env.codes m docObj hm) rfl hk
  exact keysMatch_of_symbols_list st1 _ rfl hst1

theorem createNewFile_symbols (env : Env) (st : Server) (sender : Nat) (doc : QJsonObject)
    (r : Server × QJsonObject) (h : createNewFile env st sender doc = some r) :
    r.1.symbols_list = st.symbols_list ∨
      ∃ f, r.1.symbols_list = st.symbols_list.insert f QMap.empty := by
  unfold createNewFile at h
  simp only [] at h
  split_ifs at h
  all_goals first
    | (left; cases h; rfl)
    | (right; cases h; exact ⟨_, rfl⟩)

theorem sendFile_loaded (env : Env) (st : Server) (sender : Nat) (doc : QJsonObject)
    (r : Server × List Event × QJsonObject) (h : sendFile env st sender doc = some r) :
    r.1 = st ∨ ∃ key : QString,
      r.1 = (loadSymbols env (registerSession st sender key) sender key).1 := by
  by_cases h1 : ((doc.value "filename").isNull || !(doc.value "filename").isString) = true
  · unfold sendFile at h
    simp only [h1, if_true] at h
    left
    cases h
    rfl
  have hname := isString_of_not_null_or h1
  by_cases h2 : (simplified (doc.value "filename").toQString).isEmpty = true
  · unfold sendFile at h
    simp only [h1, h2, if_true] at h
    left
    cases h
    rfl
  have hfile : simplified (doc.value "filename").toQString ≠ [] := fun e =>
    h2 (List.isEmpty_iff.mpr e)
  right
  refine ⟨simplified (doc.value "filename").toQString, ?_⟩
  rw [sendFile_eq env st sender doc hname hfile] at h
  simp only [] at h
  split at h
  · cases h
  · split at h
    · cases h
    · cases h
      rfl

theorem keysMatch_loadSymbols (env : Env) (st : Server) (sender : Nat) (f : QString)
    (hk : KeysMatch st) : KeysMatch (loadSymbols env st sender f).1 := by
  unfold loadSymbols
  cases st.symbols_list.find f with
  | some m => exact hk
  | none => exact keysMatch_storeSymbolsServerMemory st sender _ hk

theorem keysMatch_sendFile (env : Env) (st : Server) (sender : Nat) (doc : QJsonObject)
    (r : Server × List Event × QJsonObject) (hk : KeysMatch st)
    (h : sendFile env st sender doc = some r) : KeysMatch r.1 := by
  rcases sendFile_loaded env st sender doc r h with h1 | ⟨key, h1⟩
  · rw [h1]; exact hk
  · rw [h1]
    exact keysMatch_loadSymbols env _ sender key
      (keysMatch_of_symbols_list st _ (registerSession_symbols st sender key) hk)

theorem keysMatch_createNewFile (env : Env) (st : Server) (sender : Nat) (doc : QJsonObject)
    (r : Server × QJsonObject) (hk : KeysMatch st)
    (h : createNewFile env st sender doc = some r) : KeysMatch r.1 := by
  rcases createNewFile_symbols env st sender doc r h with h1 | ⟨f, h1⟩
  · exact keysMatch_of_symbols_list st _ h1 hk
  · exact keysMatch_insert st _ f _ keysOfPositions_empty h1 hk

theorem keysMatch_saveFile (st : Server) (hk : KeysMatch st) : KeysMatch (saveFile st).1 :=
  keysMatch_of_symbols_list st _ (saveFile_symbols_list st) hk

theorem keysMatch_udpate (st : Server) (filename : QString) (sender : Nat)
    (r : Server × List Event × Bool) (hk : KeysMatch st)
    (h : udpateSymbolListAndCommunicateDisconnection st filename sender = some r) :
    KeysMatch r.1 := by
  unfold udpateSymbolListAndCommunicateDisconnection at h
  cases hf : st.mapFileWorkers.find filename with
  | none =>
    simp only [hf] at h
    cases h
    exact hk
  | some clients =>
    simp only [hf] at h
    split_ifs at h
    all_goals first
      | (cases h
         exact hk)
      | (cases h
         refine keysMatch_remove (saveFile { st with mapFileWorkers :=
           (st.mapFileWorkers.update filename (fun c => c.erase sender)).remove filename }).1
           _ _ rfl ?_
         exact keysMatch_saveFile _ (keysMatch_of_symbols_list st _ rfl hk))
      | (obtain ⟨events, _, hr⟩ := Option.map_eq_some'.mp h
         rw [← hr]
         exact keysMatch_of_symbols_list st _ rfl hk)

theorem keysMatch_closeFile (st : Server) (sender : Nat) (doc : QJsonObject)
    (r : Server × List Event × QJsonObject) (hk : KeysMatch st)
    (h : closeFile st sender doc = some r) : KeysMatch r.1 := by
  unfold closeFile at h
  simp only [] at h
  split_ifs at h
  all_goals first
    | (cases h; exact hk)
    | skip
  obtain ⟨u, hu, hr⟩ := Option.map_eq_some'.mp h
  have hku := keysMatch_udpate st _ sender u hk hu
  rw [← hr]
  split_ifs
  · exact hku
  · exact keysMatch_of_symbols_list u.1 _ rfl hku

theorem keysMatch_userDisconnected (st : Server) (sender threadIdx : Nat)
    (r : Server × List Event) (hk : KeysMatch st)
    (h : userDisconnected st sender threadIdx = some r) : KeysMatch r.1 := by
  unfold userDisconnected at h
  cases hl : st.m_threadsLoad[threadIdx]? with
  | none => simp only [hl] at h; cases h
  | some load =>
    simp only [hl] at h
    split_ifs at h
    · obtain ⟨u, hu, hr⟩ := Option.map_eq_some'.mp h
      rw [← hr]
      refine keysMatch_udpate _ _ sender u ?_ hu
      exact keysMatch_of_symbols_list st _ rfl hk
    · cases h
      exact keysMatch_of_symbols_list st _ rfl hk

theorem updateNick_symbols (env : Env) (st : Server) (sender : Nat) (doc : QJsonObject) :
    (updateNick env st sender doc).1.symbols_list = st.symbols_list := by
  unfold updateNick
  simp only []
  split_ifs <;> rfl

theorem checkCredentials_symbols (env : Env) (st : Server) (sender : Nat) (doc : QJsonObject) :
    (checkCredentials env st sender doc).1.symbols_list = st.symbols_list := by
  unfold checkCredentials
  simp only []
  split_ifs <;> rfl

theorem branch_keeps (P : Server → Prop) (c : Bool) (f : Server → Option (Server × List Event))
    (r : Option (Server × List Event))
    (hf : ∀ st q, P st → f st = some q → P q.1)
    (hr : ∀ p, r = some p → P p.1) :
    ∀ q, branch c f r = some q → P q.1 := by
  intro q hq
  unfold branch at hq
  obtain ⟨p, hp, hq⟩ := Option.bind_eq_some.mp hq
  cases c with
  | false =>
    simp only [Bool.false_eq_true, if_false] at hq
    rw [Option.some.injEq] at hq
    rw [← hq]
    exact hr p hp
  | true =>
    simp only [if_true] at hq
    obtain ⟨u, hu, hq⟩ := Option.map_eq_some'.mp hq
    rw [← hq]
    exact hf p.1 u (hr p hp) hu

theorem keysMatch_jsonFromLoggedIn (env : Env) (st : Server) (sender : Nat)
    (docObj : QJsonObject) (r : Server × List Event) (hk : KeysMatch st)
    (h : jsonFromLoggedIn env st sender docObj = some r) : KeysMatch r.1 := by
  unfold jsonFromLoggedIn at h
  simp only [] at h
  split_ifs at h
  · cases h
    exact hk
  · refine branch_keeps KeysMatch _ _ _ ?_ (branch_keeps KeysMatch _ _ _ ?_
      (branch_keeps KeysMatch _ _ _ ?_ (branch_keeps KeysMatch _ _ _ ?_
      (branch_keeps KeysMatch _ _ _ ?_ (branch_keeps KeysMatch _ _ _ ?_
      (branch_keeps KeysMatch _ _ _ ?_ (branch_keeps KeysMatch _ _ _ ?_
      (branch_keeps KeysMatch _ _ _ ?_ (branch_keeps KeysMatch _ _ _ ?_ ?_))))))))) r h
    · intro s q hs hq
      cases hq
      exact hs
    · intro s q hs hq
      obtain ⟨u, hu, hq⟩ := Option.map_eq_some'.mp hq
      rw [← hq]
      exact keysMatch_closeFile s sender docObj u hs hu
    · intro s q hs hq
      obtain ⟨u, hu, hq⟩ := Option.map_eq_some'.mp hq
      rw [← hq]
      exact keysMatch_sendFile env s sender docObj u hs hu
    · intro s q hs hq
      obtain ⟨u, hu, hq⟩ := Option.map_eq_some'.mp hq
      rw [← hq]
      exact keysMatch_createNewFile env s sender docObj u hs hu
    · intro s q hs hq
      exact keysMatch_handleOperation env s sender docObj q hs hq
    · intro s q hs hq
      cases hq
      exact hs
    · intro s q hs hq
      cases hq
      exact hs
    · intro s q hs hq
      cases hq
      exact hs
    · intro s q hs hq
      cases hq
      exact hs
    · intro s q hs hq
      cases hq
      exact keysMatch_of_symbols_list s _ (updateNick_symbols env s sender docObj) hs
    · intro p hp
      cases hp
      exact hk

theorem keysMatch_jsonFromLoggedOut (env : Env) (st : Server) (sender : Nat)
    (docObj : QJsonObject) (r : Server × List Event) (hk : KeysMatch st)
    (h : jsonFromLoggedOut env st sender docObj = some r) : KeysMatch r.1 := by
  unfold jsonFromLoggedOut at h
  simp only [] at h
  split_ifs at h
  all_goals first
    | (cases h
       exact hk)
    | (cases h
       exact keysMatch_of_symbols_list st _ (checkCredentials_symbols env st sender docObj) hk)
    | (obtain ⟨u, _, hq⟩ := Option.map_eq_some'.mp h
       rw [← hq]
       exact hk)

theorem keysMatch_jsonReceived (env : Env) (st : Server) (sender : Nat)
    (json : QJsonObject) (r : Server × List Event) (hk : KeysMatch st)
    (h : jsonReceived env st sender json = some r) : KeysMatch r.1 := by
  unfold jsonReceived at h
  split_ifs at h
  · exact keysMatch_jsonFromLoggedOut env st sender json r hk h
  · exact keysMatch_jsonFromLoggedIn env st sender json r hk h

theorem keysMatch_receiveAll (env : Env) (st : Server) (messages : List (Nat × QJsonObject))
    (r : Server × List Event) (hk : KeysMatch st) (h : receiveAll env st messages = some r) :
    KeysMatch r.1 := by
  induction messages generalizing st r with
  | nil =>
    cases h
    exact hk
  | cons a rest ih =>
    obtain ⟨sender, json⟩ := a
    simp only [receiveAll] at h
    obtain ⟨r1, h1, h2⟩ := Option.bind_eq_some.mp h
    obtain ⟨r2, h3, h4⟩ := Option.map_eq_some'.mp h2
    rw [← h4]
    exact ih r1.1 r2 (keysMatch_jsonReceived env st sender json r1 hk h1) h3

/-- C28: in a server state in which every entry `(k, s)` of every file's symbol map has
    `k = fromJsonArraytoString(s["position"].toArray())`, the same holds after the operation
    handler (insert, erase, change, align, paste and any other code), after
    `storeSymbolsServerMemory`, after any message handled by `jsonReceived`, after
    `userDisconnected`, after `saveFile`, and so after every run of messages; the state
    with no symbol map has the property. -/
theorem keys_are_the_positions_of_the_symbols (env : Env) (st : Server) (sender : Nat)
    (hk : KeysMatch st) :
    (∀ docObj r, handleOperation env st sender docObj = some r → KeysMatch r.1) ∧
    (∀ array, KeysMatch (storeSymbolsServerMemory st sender array)) ∧
    (∀ json r, jsonReceived env st sender json = some r → KeysMatch r.1) ∧
    (∀ threadIdx r, userDisconnected st sender threadIdx = some r → KeysMatch r.1) ∧
    KeysMatch (saveFile st).1 ∧
    (∀ messages r, receiveAll env st messages = some r → KeysMatch r.1) ∧
    KeysMatch freshServer :=
  ⟨fun docObj r h => keysMatch_handleOperation env st sender docObj r hk h,
    fun array => keysMatch_storeSymbolsServerMemory st sender array hk,
    fun json r h => keysMatch_jsonReceived env st sender json r hk h,
    fun threadIdx r h => keysMatch_userDisconnected st sender threadIdx r hk h,
    keysMatch_saveFile st hk,
    fun messages r h => keysMatch_receiveAll env st messages r hk h,
    fun e he => by cases he⟩

theorem keys_are_the_positions_of_the_symbols_witness :
    (∀ docObj r, handleOperation sampleEnv sampleServerWithSymbols 1 docObj = some r →
      KeysMatch r.1) ∧
    (∀ array, KeysMatch (storeSymbolsServerMemory sampleServerWithSymbols 1 array)) ∧
    (∀ json r, jsonReceived sampleEnv sampleServerWithSymbols 1 json = some r → KeysMatch r.1) ∧
    (∀ threadIdx r, userDisconnected sampleServerWithSymbols 1 threadIdx = some r →
      KeysMatch r.1) ∧
    KeysMatch (saveFile sampleServerWithSymbols).1 ∧
    (∀ messages r, receiveAll sampleEnv sampleServerWithSymbols messages = some r →
      KeysMatch r.1) ∧
    KeysMatch freshServer :=
  keys_are_the_positions_of_the_symbols sampleEnv sampleServerWithSymbols 1
    (by unfold KeysMatch KeysOfPositions; decide)

theorem receivedImage_eq (json_data : QByteArray) (username : QString) :
    receivedImage json_data (frameJsonSize json_data) username =
      if frameImageSize json_data ≠ 0 then some (username, frameImage json_data) else none :=
  rfl

theorem signup_updateImage_reads_frameJson (fromJson : QByteArray → Option QJsonObject)
    (signup : QString → QString → DatabaseError) (sender : Nat) (json_data : QByteArray)
    (h : fromJson (frameJson json_data) = none) :
    signup_updateImage fromJson signup sender json_data =
      ([Event.sendJson sender (failure [] "JSON error")], none) := by
  unfold signup_updateImage
  simp only []
  have h' : fromJson (mid json_data 4 (qFromLittleEndian (left json_data 4))) = none := h
  rw [h']

theorem length_quint32Bytes (n : Nat) : (quint32Bytes n).length = 4 := rfl

theorem left_four_append (a r : QByteArray) (ha : a.length = 4) : left (a ++ r) 4 = a := by
  unfold left
  split_ifs with h
  · rcases h with h | h
    · omega
    · have hl : (a ++ r).length ≤ 4 := by exact_mod_cast h
      rw [List.length_append, ha] at hl
      have hr : r = [] := List.length_eq_zero.mp (by omega)
      rw [hr, List.append_nil]
  · show (a ++ r).take 4 = a
    rw [← ha, List.take_left']
    rfl

/-- The bytes of a frame with one blob. -/
theorem createByteArrayJsonImage_one (m : QJsonObject) (b : QByteArray) :
    createByteArrayJsonImage m [b] =
      quint32Bytes ((toJson m).length % 2 ^ 32) ++ (toJson m ++
        (quint32Bytes (b.length % 2 ^ 32) ++ if b.length % 2 ^ 32 ≠ 0 then b else [])) := by
  unfold createByteArrayJsonImage
  simp only [List.length_singleton, one_ne_zero, if_false, List.foldl_cons, List.foldl_nil]
  split_ifs <;> simp

/-- The bytes of a frame with no blob. -/
theorem createByteArrayJsonImage_none (m : QJsonObject) :
    createByteArrayJsonImage m [] =
      quint32Bytes ((toJson m).length % 2 ^ 32) ++ (toJson m ++ (quint32Bytes 0 ++ [])) := by
  unfold createByteArrayJsonImage
  simp

/-- Reading a frame of the shape size, text, size, blob, whose sizes are the ones written. -/
theorem frame_read (json blob : QByteArray) (n : Nat) (hn : blob = [] ∨ n = blob.length)
    (hn0 : blob = [] → n = 0)
    (hlen : (quint32Bytes json.length ++ (json ++ (quint32Bytes n ++ blob))).length < 2 ^ 31) :
    frameJson (quint32Bytes json.length ++ (json ++ (quint32Bytes n ++ blob))) = json ∧
    frameImageSize (quint32Bytes json.length ++ (json ++ (quint32Bytes n ++ blob))) = n ∧
    frameImage (quint32Bytes json.length ++ (json ++ (quint32Bytes n ++ blob))) = blob := by
  simp only [List.length_append, length_quint32Bytes] at hlen
  have hsize : frameJsonSize (quint32Bytes json.length ++ (json ++ (quint32Bytes n ++ blob))) =
      json.length := by
    unfold frameJsonSize
    rw [left_four_append _ _ (length_quint32Bytes _)]
    exact qFromLittleEndian_quint32Bytes _ (by omega)
  have hn32 : n < 2 ^ 32 := by
    rcases hn with h | h
    · rw [hn0 h]; norm_num
    · rw [h]; omega
  have harr : frameImageArray (quint32Bytes json.length ++ (json ++ (quint32Bytes n ++ blob))) =
      quint32Bytes n ++ blob := by
    unfold frameImageArray
    simp only [hsize]
    have hpos : (4 + json.length) % 2 ^ 32 = 4 + json.length := Nat.mod_eq_of_lt (by omega)
    rw [hpos, if_pos (by omega)]
    unfold mid
    rw [← List.append_assoc, List.drop_left' (by
      rw [List.length_append, length_quint32Bytes])]
    apply List.take_of_length_le
    rw [List.length_append, length_quint32Bytes]
    omega
  have himg : frameImageSize (quint32Bytes json.length ++ (json ++ (quint32Bytes n ++ blob))) =
      n := by
    unfold frameImageSize
    rw [harr, left_four_append _ _ (length_quint32Bytes _)]
    exact qFromLittleEndian_quint32Bytes _ hn32
  refine ⟨?_, himg, ?_⟩
  · unfold frameJson
    rw [hsize]
    unfold mid
    rw [List.drop_left' (length_quint32Bytes _), List.take_left']
    rfl
  · unfold frameImage
    rw [himg, harr]
    unfold mid
    rw [List.drop_left' (length_quint32Bytes _)]
    rcases hn with h | h
    · rw [h]; simp
    · rw [h, List.take_length]

/-- C29: for every JSON object `m` and every blob `b`, the blob and the frame being `QByteArray`s
    (fewer than `2^31` bytes), what `signup_updateImage` reads from
    `createByteArrayJsonImage(m, [b])` is the serialized JSON of `m` as the JSON text, the
    size of `b` as the blob size and the bytes of `b` as the blob (which it reads when the
    size is not 0); from `createByteArrayJsonImage(m, [])` it reads the serialized JSON of
    `m` and the blob size 0. -/
theorem frame_decode_undoes_frame_encode (m : QJsonObject) (b : QByteArray)
    (hb : b.length < 2 ^ 31)
    (hlen : (createByteArrayJsonImage m [b]).length < 2 ^ 31) :
    frameJson (createByteArrayJsonImage m [b]) = toJson m ∧
    frameImageSize (createByteArrayJsonImage m [b]) = b.length ∧
    frameImage (createByteArrayJsonImage m [b]) = b ∧
    (∀ username, receivedImage (createByteArrayJsonImage m [b])
      (frameJsonSize (createByteArrayJsonImage m [b])) username =
        if b.length ≠ 0 then some (username, b) else none) ∧
    frameJson (createByteArrayJsonImage m []) = toJson m ∧
    frameImageSize (createByteArrayJsonImage m []) = 0 ∧
    (∀ username, receivedImage (createByteArrayJsonImage m [])
      (frameJsonSize (createByteArrayJsonImage m [])) username = none) := by
  have hbm : b.length % 2 ^ 32 = b.length := Nat.mod_eq_of_lt (by omega)
  have hblob : (if b.length % 2 ^ 32 ≠ 0 then b else []) = b := by
    rw [hbm]
    split_ifs with h
    · rfl
    · exact (List.length_eq_zero.mp (not_not.mp h)).symm
  have hone := createByteArrayJsonImage_one m b
  rw [hblob, hbm] at hone
  rw [hone] at hlen
  have hl := hlen
  simp only [List.length_append, length_quint32Bytes] at hl
  have hj : (toJson m).length % 2 ^ 32 = (toJson m).length := Nat.mod_eq_of_lt (by omega)
  rw [hj] at hone hlen
  have hnone := createByteArrayJsonImage_none m
  rw [hj] at hnone
  have h1 := frame_read (toJson m) b b.length (Or.inr rfl)
    (fun h => by rw [h]; rfl) hlen
  have h0 := frame_read (toJson m) [] 0 (Or.inl rfl) (fun _ => rfl) (by
    simp only [List.length_append, length_quint32Bytes, List.length_nil]
    omega)
  rw [hone, hnone]
  refine ⟨h1.1, h1.2.1, h1.2.2, ?_, h0.1, h0.2.1, ?_⟩
  · intro username
    rw [receivedImage_eq, h1.2.1, h1.2.2]
  · intro username
    rw [receivedImage_eq, h0.2.1]
    rfl

theorem frame_decode_undoes_frame_encode_witness :
    frameJson (createByteArrayJsonImage sampleLogin [[1, 2, 3]]) = toJson sampleLogin ∧
    frameImageSize (createByteArrayJsonImage sampleLogin [[1, 2, 3]]) = 3 ∧
    frameImage (createByteArrayJsonImage sampleLogin [[1, 2, 3]]) = [1, 2, 3] ∧
    (∀ username, receivedImage (createByteArrayJsonImage sampleLogin [[1, 2, 3]])
      (frameJsonSize (createByteArrayJsonImage sampleLogin [[1, 2, 3]])) username =
        if [1, 2, 3].length ≠ 0 then some (username, [1, 2, 3]) else none) ∧
    frameJson (createByteArrayJsonImage sampleLogin []) = toJson sampleLogin ∧
    frameImageSize (createByteArrayJsonImage sampleLogin []) = 0 ∧
    (∀ username, receivedImage (createByteArrayJsonImage sampleLogin [])
      (frameJsonSize (createByteArrayJsonImage sampleLogin [])) username = none) :=
  frame_decode_undoes_frame_encode sampleLogin [1, 2, 3] (by norm_num) (by decide)

theorem minElementFrom_spec (rest : List Int) (pre : List Int) (best : Nat) (bestVal : Int)
    (hbest : pre[best]? = some bestVal) (hmin : ∀ y ∈ pre, bestVal ≤ y) :
    ∃ v, (pre ++ rest)[minElementFrom best bestVal pre.length rest]? = some v ∧
      ∀ y ∈ pre ++ rest, v ≤ y := by
  induction rest generalizing pre best bestVal with
  | nil =>
    refine ⟨bestVal, ?_, ?_⟩
    · simpa [minElementFrom] using hbest
    · simpa using hmin
  | cons x t ih =>
    simp only [minElementFrom]
    have hpre : pre ++ x :: t = (pre ++ [x]) ++ t := by simp
    have hlen : pre.length + 1 = (pre ++ [x]).length := by simp
    split_ifs with hx
    · rw [hpre, hlen]
      apply ih (pre ++ [x]) pre.length x
      · simp
      · intro y hy
        rcases List.mem_append.mp hy with h | h
        · exact le_trans (le_of_lt hx) (hmin y h)
        · rw [List.mem_singleton] at h
          rw [h]
    · rw [hpre, hlen]
      apply ih (pre ++ [x]) best bestVal
      · have hb : best < pre.length := by
          by_contra hge
          rw [List.getElem?_eq_none (by omega)] at hbest
          cases hbest
        rw [List.getElem?_append_left hb]
        exact hbest
      · intro y hy
        rcases List.mem_append.mp hy with h | h
        · exact hmin y h
        · rw [List.mem_singleton] at h
          rw [h]
          exact not_lt.mp hx

theorem minElementIndex_spec (l : List Int) (hne : l ≠ []) :
    ∃ v, l[minElementIndex l]? = some v ∧ ∀ y ∈ l, v ≤ y := by
  cases l with
  | nil => exact absurd rfl hne
  | cons x t =>
    have h := minElementFrom_spec t [x] 0 x rfl (by simp)
    simpa [minElementIndex] using h

/-- C21: in a state whose pool has one load per thread, no more threads than `m_idealThreadCount`
    and no negative load, `incomingConnection` binds an accepted connection to a thread
    whose load before (0 for the thread it creates when the pool is not full) is less than
    or equal to the load of every thread, adds one to the load of that thread and leaves
    the other loads as they are; the pool afterwards has again one load per thread, no more
    than `m_idealThreadCount` threads and no negative load.  The constructor makes
    `m_idealThreadCount` at least 1 and starts with the empty pool. -/
theorem connection_goes_to_a_least_loaded_thread (st : Server) (worker : Nat)
    (hsize : st.m_availableThreads = st.m_threadsLoad.length)
    (hpool : st.m_availableThreads ≤ st.m_idealThreadCount)
    (hideal : 1 ≤ st.m_idealThreadCount)
    (hload : ∀ l ∈ st.m_threadsLoad, 0 ≤ l) :
    (∃ (st' : Server) (threadIdx : Nat) (load : Int),
      incomingConnection st worker true = some (st', some threadIdx) ∧
      (poolLoads st)[threadIdx]? = some load ∧
      (∀ l ∈ poolLoads st, load ≤ l) ∧
      st'.m_threadsLoad = (poolLoads st).set threadIdx (load + 1) ∧
      st'.m_availableThreads = st'.m_threadsLoad.length ∧
      st'.m_availableThreads ≤ st'.m_idealThreadCount ∧
      st'.m_idealThreadCount = st.m_idealThreadCount ∧
      (∀ l ∈ st'.m_threadsLoad, 0 ≤ l) ∧
      st'.m_clients = st.m_clients ++ [worker]) ∧
    (∀ qthreadIdeal : Int, 1 ≤ (newServer qthreadIdeal).m_idealThreadCount ∧
      (newServer qthreadIdeal).m_availableThreads = 0 ∧
      (newServer qthreadIdeal).m_threadsLoad = []) := by
  constructor
  · by_cases hnew : st.m_availableThreads < st.m_idealThreadCount
    · have hp : poolLoads st = st.m_threadsLoad ++ [0] := by
        unfold poolLoads
        rw [if_pos hnew]
      refine ⟨{ st with
          m_availableThreads := st.m_availableThreads + 1
          m_threadsLoad := st.m_threadsLoad ++ [1]
          m_clients := st.m_clients ++ [worker] },
        st.m_availableThreads, 0, ?_, ?_, ?_, ?_, ?_, ?_, ?_, ?_, ?_⟩
      · simp only [incomingConnection, Bool.not_true, Bool.false_eq_true, if_false, hnew,
          if_true]
      · rw [hp, hsize]
        simp
      · intro l hl
        rw [hp] at hl
        rcases List.mem_append.mp hl with h | h
        · exact hload l h
        · rw [List.mem_singleton] at h
          rw [h]
      · rw [hp, hsize]
        simp
      · simp [hsize]
      · show st.m_availableThreads + 1 ≤ st.m_idealThreadCount
        omega
      · rfl
      · intro l hl
        rcases List.mem_append.mp hl with h | h
        · exact hload l h
        · rw [List.mem_singleton] at h
          rw [h]
          norm_num
      · rfl
    · have hne : st.m_threadsLoad ≠ [] := by
        intro h
        rw [h] at hsize
        simp only [List.length_nil] at hsize
        omega
      obtain ⟨v, hv, hmin⟩ := minElementIndex_spec st.m_threadsLoad hne
      have hidx : minElementIndex st.m_threadsLoad < st.m_threadsLoad.length := by
        by_contra hge
        rw [List.getElem?_eq_none (by omega)] at hv
        cases hv
      refine ⟨{ st with
          m_threadsLoad := st.m_threadsLoad.set (minElementIndex st.m_threadsLoad) (v + 1)
          m_clients := st.m_clients ++ [worker] },
        minElementIndex st.m_threadsLoad, v, ?_, ?_, ?_, ?_, ?_, ?_, ?_, ?_, ?_⟩
      · simp only [incomingConnection, Bool.not_true, Bool.false_eq_true, if_false, hnew, hv]
        rw [if_pos (by rw [hsize]; exact hidx)]
      · simp only [poolLoads, hnew, if_false]
        exact hv
      · intro l hl
        simp only [poolLoads, hnew, if_false] at hl
        exact hmin l hl
      · simp only [poolLoads, hnew, if_false]
      · simp [hsize]
      · exact hpool
      · rfl
      · intro l hl
        rcases List.mem_or_eq_of_mem_set hl with h | h
        · exact hload l h
        · rw [h]
          have := hload v (List.getElem?_mem hv)
          omega
      · rfl
  · intro q
    refine ⟨?_, rfl, rfl⟩
    show 1 ≤ (max q 1).toNat
    have : (1 : Int) ≤ max q 1 := le_max_right _ _
    omega

theorem connection_goes_to_a_least_loaded_thread_witness :
    (∃ (st' : Server) (threadIdx : Nat) (load : Int),
      incomingConnection sampleServer 4 true = some (st', some threadIdx) ∧
      (poolLoads sampleServer)[threadIdx]? = some load ∧
      (∀ l ∈ poolLoads sampleServer, load ≤ l) ∧
      st'.m_threadsLoad = (poolLoads sampleServer).set threadIdx (load + 1) ∧
      st'.m_availableThreads = st'.m_threadsLoad.length ∧
      st'.m_availableThreads ≤ st'.m_idealThreadCount ∧
      st'.m_idealThreadCount = sampleServer.m_idealThreadCount ∧
      (∀ l ∈ st'.m_threadsLoad, 0 ≤ l) ∧
      st'.m_clients = sampleServer.m_clients ++ [4]) ∧
    (∀ qthreadIdeal : Int, 1 ≤ (newServer qthreadIdeal).m_idealThreadCount ∧
      (newServer qthreadIdeal).m_availableThreads = 0 ∧
      (newServer qthreadIdeal).m_threadsLoad = []) :=
  connection_goes_to_a_least_loaded_thread sampleServer 4 (by decide) (by decide) (by decide)
    (by decide)

theorem streamInt32_range (b : QByteArray) :
    -2 ^ 31 ≤ streamInt32 b ∧ streamInt32 b ≤ 2 ^ 31 - 1 := by
  unfold streamInt32
  split
  · simp only []
    split_ifs <;> constructor <;> omega
  · norm_num

/-- C22 (counterexample): the two usernames `Ā@mail` and `ā@mail` (first code units 256 and 257) are
    different and have the same site id whatever the hash function, because `toLatin1`
    turns both first characters into `?`; and the site id is a 32-bit integer, so whatever
    the hash function, there are also two different usernames written in Latin-1 with the
    same site id. -/
theorem two_usernames_share_a_site_id :
    (256 :: QLatin1String "@mail") ≠ (257 :: QLatin1String "@mail") ∧
    (∀ md5 : QByteArray → QByteArray,
      fromStringToIntegerHash md5 (256 :: QLatin1String "@mail") =
        fromStringToIntegerHash md5 (257 :: QLatin1String "@mail")) ∧
    (∀ md5 : QByteArray → QByteArray,
      ∃ a b : QString, a ≠ b ∧ (∀ u ∈ a, u < 256) ∧ (∀ u ∈ b, u < 256) ∧
        fromStringToIntegerHash md5 a = fromStringToIntegerHash md5 b) := by
  refine ⟨by decide, fun _ => rfl, fun md5 => ?_⟩
  · have hcard : (Finset.Icc (-2 ^ 31 : Int) (2 ^ 31 - 1)).card <
        (Finset.range (2 ^ 32 + 1)).card := by
      rw [Int.card_Icc, Finset.card_range]
      norm_num
    obtain ⟨x, _, y, _, hxy, hf⟩ := Finset.exists_ne_map_eq_of_card_lt_of_maps_to hcard
      (f := fun n => fromStringToIntegerHash md5 (List.replicate n 97))
      (fun n _ => Finset.mem_Icc.mpr (streamInt32_range _))
    refine ⟨List.replicate x 97, List.replicate y 97, ?_, ?_, ?_, hf⟩
    · intro h
      have := congrArg List.length h
      simp only [List.length_replicate] at this
      exact hxy this
    · intro u hu
      rw [List.eq_of_mem_replicate hu]
      norm_num
    · intro u hu
      rw [List.eq_of_mem_replicate hu]
      norm_num

/-- C22 (amended): the site id that the editor gives its CRDT, at login and after `exit()`, is
    `fromStringToIntegerHash` of the username, a signed 32-bit integer that depends on the
    username alone: two editors with the same username have the same site id. -/
theorem site_id_is_a_function_of_the_username (md5 : QByteArray → QByteArray)
    (editor other : Editor) :
    (editor.loggedIn md5).crdtId = fromStringToIntegerHash md5 editor.username ∧
    (editor.exit md5).crdtId = fromStringToIntegerHash md5 editor.username ∧
    ((editor.loggedIn md5).exit md5).crdtId = (editor.loggedIn md5).crdtId ∧
    (-2 ^ 31 ≤ fromStringToIntegerHash md5 editor.username ∧
      fromStringToIntegerHash md5 editor.username ≤ 2 ^ 31 - 1) ∧
    (other.username = editor.username →
      (other.loggedIn md5).crdtId = (editor.loggedIn md5).crdtId) :=
  ⟨rfl, rfl, rfl, streamInt32_range _, fun h => by
    show fromStringToIntegerHash md5 other.username = fromStringToIntegerHash md5 editor.username
    rw [h]⟩

theorem identifier_lt_append (a : Identifier) (c : Int × Int) (t : Identifier) :
    a.lt (a ++ c :: t) = true := by
  induction a with
  | nil => rfl
  | cons x ta ih =>
    simp only [List.cons_append, Identifier.lt, lt_irrefl, if_false]
    exact ih

theorem identifier_lt_trans (a b c : Identifier) (hab : a.lt b = true) (hbc : b.lt c = true) :
    a.lt c = true := by
  induction a generalizing b c with
  | nil =>
    cases b with
    | nil => cases hab
    | cons y tb =>
      cases c with
      | nil => cases hbc
      | cons z tc => rfl
  | cons x ta ih =>
    cases b with
    | nil => cases hab
    | cons y tb =>
      cases c with
      | nil => cases hbc
      | cons z tc =>
        simp only [Identifier.lt] at hab hbc ⊢
        split_ifs at hab hbc ⊢ <;> first
          | rfl
          | omega
          | exact ih tb tc hab hbc

theorem allocateBetween_between (lo hi : Identifier) (site : Int) (h : lo.lt hi = true) :
    lo.lt (allocateBetween lo hi site) = true ∧ (allocateBetween lo hi site).lt hi = true := by
  induction lo generalizing hi with
  | nil =>
    cases hi with
    | nil => cases h
    | cons y tb =>
      refine ⟨rfl, ?_⟩
      simp only [allocateBetween, Identifier.lt]
      rw [if_pos (by omega)]
  | cons x ta ih =>
    cases hi with
    | nil => cases h
    | cons y tb =>
      simp only [allocateBetween]
      split_ifs with hgap heq
      · constructor
        · simp only [Identifier.lt]
          rw [if_pos (by omega)]
        · simp only [Identifier.lt]
          rw [if_pos hgap]
      · subst heq
        simp only [Identifier.lt, lt_irrefl, if_false] at h ⊢
        exact ih tb h
      · constructor
        · simp only [Identifier.lt, lt_irrefl, if_false]
          exact identifier_lt_append ta _ _
        · simp only [Identifier.lt] at h ⊢
          split_ifs at h ⊢ <;> first
            | rfl
            | cases h
            | (exfalso
               apply heq
               apply Prod.ext <;> omega)

theorem allocateChain_between (lo hi : Identifier) (sites : List Int) (hne : sites ≠ [])
    (h : lo.lt hi = true) :
    lo.lt (allocateChain lo hi sites) = true ∧ (allocateChain lo hi sites).lt hi = true := by
  induction sites generalizing hi with
  | nil => exact absurd rfl hne
  | cons site rest ih =>
    have h1 := allocateBetween_between lo hi site h
    cases rest with
    | nil => exact h1
    | cons s2 r2 =>
      have h2 := ih (allocateBetween lo hi site) (by simp) h1.1
      exact ⟨h2.1, identifier_lt_trans _ _ _ h2.2 h1.2⟩

/-- C23: for every two Identifiers `lo < hi` and every site, the Identifier allocated between
    them is strictly greater than `lo` and strictly less than `hi`; and after any number
    of further allocations into the gap, each between `lo` and the Identifier allocated
    before it and each for any site, the Identifier allocated last is again strictly
    between `lo` and `hi`, and strictly below the one allocated before it. -/
theorem allocation_is_strictly_between (lo hi : Identifier) (h : lo.lt hi = true) :
    (∀ site, lo.lt (allocateBetween lo hi site) = true ∧
      (allocateBetween lo hi site).lt hi = true) ∧
    (∀ sites site,
      lo.lt (allocateChain lo hi (sites ++ [site])) = true ∧
      (allocateChain lo hi (sites ++ [site])).lt hi = true ∧
      (allocateChain lo hi (sites ++ [site])).lt (allocateChain lo hi sites) = true) := by
  refine ⟨fun site => allocateBetween_between lo hi site h, ?_⟩
  intro sites site
  refine ⟨(allocateChain_between lo hi (sites ++ [site]) (by simp) h).1,
    (allocateChain_between lo hi (sites ++ [site]) (by simp) h).2, ?_⟩
  have hstep : ∀ (hi' : Identifier), lo.lt hi' = true →
      (allocateChain lo hi' (sites ++ [site])).lt (allocateChain lo hi' sites) = true := by
    induction sites with
    | nil =>
      intro hi' h'
      exact (allocateBetween_between lo hi' site h').2
    | cons s rest ih =>
      intro hi' h'
      exact ih (allocateBetween lo hi' s) (allocateBetween_between lo hi' s h').1
  exact hstep hi h

theorem allocation_is_strictly_between_witness :
    (∀ site, Identifier.lt [(1, 5)] (allocateBetween [(1, 5)] [(1, 5), (0, 2)] site) = true ∧
      (allocateBetween [(1, 5)] [(1, 5), (0, 2)] site).lt [(1, 5), (0, 2)] = true) ∧
    (∀ sites site,
      Identifier.lt [(1, 5)] (allocateChain [(1, 5)] [(1, 5), (0, 2)] (sites ++ [site])) = true ∧
      (allocateChain [(1, 5)] [(1, 5), (0, 2)] (sites ++ [site])).lt [(1, 5), (0, 2)] = true ∧
      (allocateChain [(1, 5)] [(1, 5), (0, 2)] (sites ++ [site])).lt
        (allocateChain [(1, 5)] [(1, 5), (0, 2)] sites) = true) :=
  allocation_is_strictly_between [(1, 5)] [(1, 5), (0, 2)] (by decide)

section Groups
variable {F C A : Type}

theorem charactersRead_succ (view : EditorView F C A) (line : Int) (added : QString) (i : Nat) :
    charactersRead view line added (i + 1) =
      charactersRead view line added i ++
        [(added.getD i 0, view.fontRight (i + 1), view.colorRight (i + 1),
          view.blockAlignment (lineOfAdded line added i))] := by
  unfold charactersRead
  rw [List.range_succ, List.map_append]
  rfl

theorem lineOfAdded_succ (line : Int) (added : QString) (i : Nat) (ch : Nat)
    (h : added[i]? = some ch) :
    lineOfAdded line added (i + 1) =
      if ch = 10 then lineOfAdded line added i + 1 else lineOfAdded line added i := by
  unfold lineOfAdded
  rw [List.take_succ, h]
  by_cases hc : ch = 10
  · simp [hc]
    ring
  · have h10 : ¬ 10 = ch := fun e => hc e.symm
    simp [hc, h10]

variable [DecidableEq F] [DecidableEq C] [DecidableEq A]

theorem insertGroupStep_holds (view : EditorView F C A) (line index : Int) (added : QString)
    (i : Nat) (s : GroupLoop F C A) (h : s.Holds view line index added i)
    (hi : i < added.length) :
    ∃ s', insertGroupStep view line index added i s = some s' ∧
      s'.Holds view line index added (i + 1) := by
  have hch : added[i]? = some (added.getD i 0) := by
    rw [List.getD_eq_getElem?_getD, List.getElem?_eq_getElem hi]
    rfl
  have halign : (if s.numLines ≠ s.linePrec then view.blockAlignment s.numLines
      else s.alignPrec) = view.blockAlignment (lineOfAdded line added i) := by
    split_ifs with hne
    · rw [h.numLines]
    · rw [h.alignPrec, ← not_not.mp hne, h.numLines]
  have hnum : (if added.getD i 0 = 10 then s.numLines + 1 else s.numLines) =
      lineOfAdded line added (i + 1) := by
    rw [lineOfAdded_succ line added i _ hch, h.numLines]
  unfold insertGroupStep
  simp only [hch, halign, hnum]
  by_cases hcond : view.fontRight (i + 1) = (if i = 0 then view.fontRight (i + 1)
      else s.fontPrec) ∧ view.colorRight (i + 1) = (if i = 0 then view.colorRight (i + 1)
      else s.colorPrec) ∧ view.blockAlignment (lineOfAdded line added i) = s.alignPrec
  · rw [if_pos hcond]
    refine ⟨_, rfl, ?_⟩
    obtain ⟨hf, hc, ha⟩ := hcond
    constructor
    · show s.calls.flatMap CrdtCall.characters ++ (s.text ++ [added.getD i 0]).map _ = _
      rw [charactersRead_succ, ← h.read]
      by_cases h0 : i = 0
      · rw [h.first h0]
        subst h0
        simp only [List.map_nil, List.append_nil, List.nil_append, List.map_cons, if_true]
        rw [← ha]
      · simp only [h0, if_false] at hf hc ⊢
        rw [List.map_append, List.append_assoc]
        simp only [List.map_cons, List.map_nil]
        rw [← hf, ← hc, ← ha]
    · exact h.groups
    · rfl
    · show s.numLines = lineOfAdded line added (i + 1 - 1)
      rw [Nat.add_sub_cancel]
      exact h.numLines
    · show s.alignPrec = view.blockAlignment s.numLines
      rw [h.numLines]
      exact ha.symm
    · intro h0
      omega
    · intro _
      exact ⟨by simp, hf, hc, ha⟩
  · rw [if_neg hcond]
    refine ⟨_, rfl, ?_⟩
    have hpos : 0 < i := by
      by_contra h0
      have hz : i = 0 := by omega
      apply hcond
      refine ⟨by rw [if_pos hz], by rw [if_pos hz], ?_⟩
      rw [h.alignPrec, h.linePrec, hz]
    have hne : i ≠ 0 := by omega
    obtain ⟨htext, _, _, _⟩ := h.later hpos
    constructor
    · show (s.calls ++ [CrdtCall.localInsertGroup line index s.text _ _ s.alignPrec]).flatMap
        CrdtCall.characters ++ [added.getD i 0].map _ = _
      rw [charactersRead_succ, ← h.read]
      simp only [hne, if_false, List.flatMap_append, List.flatMap_cons, List.flatMap_nil,
        List.append_nil, CrdtCall.characters, List.map_cons, List.map_nil]
    · intro c hc
      rcases List.mem_append.mp hc with h1 | h1
      · exact h.groups c h1
      · rw [List.mem_singleton] at h1
        rw [h1]
        simp [CrdtCall.isGroupAt, htext]
    · rfl
    · show s.numLines = lineOfAdded line added (i + 1 - 1)
      rw [Nat.add_sub_cancel]
      exact h.numLines
    · show view.blockAlignment (lineOfAdded line added i) = view.blockAlignment s.numLines
      rw [h.numLines]
    · intro h0
      omega
    · intro _
      exact ⟨by simp, rfl, rfl, rfl⟩

theorem insertGroupLoop_holds (view : EditorView F C A) (line index : Int) (added : QString)
    (k i : Nat) (s : GroupLoop F C A) (h : s.Holds view line index added i)
    (hi : i + k ≤ added.length) :
    ∃ s', insertGroupLoop view line index added k i s = some s' ∧
      s'.Holds view line index added (i + k) := by
  induction k generalizing i s with
  | zero => exact ⟨s, rfl, h⟩
  | succ k ih =>
    obtain ⟨s1, hs1, h1⟩ := insertGroupStep_holds view line index added i s h (by omega)
    obtain ⟨s2, hs2, h2⟩ := ih (i + 1) s1 h1 (by omega)
    refine ⟨s2, ?_, ?_⟩
    · simp only [insertGroupLoop, hs1, Option.some_bind]
      exact hs2
    · have : i + (k + 1) = i + 1 + k := by omega
      rw [this]
      exact h2

/-- The calls of the insertion of `n` characters, all of them in `added`: group insertions
    at the line and index of the insertion, with texts that are not empty, whose characters
    with the attributes passed are the added characters with the attributes read. -/
theorem insertGroups_spec (view : EditorView F C A) (line index : Int) (added : QString)
    (n : Nat) (hn : 0 < n) (hlen : n ≤ added.length) :
    ∃ groups, insertGroups view line index added n = some groups ∧
      (∀ c ∈ groups, c.isGroupAt line index = true) ∧
      groups.flatMap CrdtCall.characters = charactersRead view line added n := by
  have h0 : GroupLoop.Holds view line index added 0
      ({ calls := [], fontPrec := view.defaultFont, colorPrec := view.defaultColor, text := []
         font := view.defaultFont, color := view.defaultColor, align := view.defaultAlignment
         alignPrec := view.blockAlignment line, linePrec := line, numLines := line } :
        GroupLoop F C A) := by
    constructor
    · rfl
    · intro c hc
      cases hc
    · simp [lineOfAdded]
    · simp [lineOfAdded]
    · rfl
    · intro _
      rfl
    · intro h
      omega
  obtain ⟨s, hs, h⟩ := insertGroupLoop_holds view line index added n 0 _ h0 (by omega)
  rw [Nat.zero_add] at h
  obtain ⟨htext, hf, hc, ha⟩ := h.later hn
  unfold insertGroups
  rw [hs]
  simp only [Option.map_some', isEmpty_eq_false_of_ne_nil htext, Bool.not_false, if_true]
  refine ⟨_, rfl, ?_, ?_⟩
  · intro c hc'
    rcases List.mem_append.mp hc' with h1 | h1
    · exact h.groups c h1
    · rw [List.mem_singleton] at h1
      rw [h1]
      simp [CrdtCall.isGroupAt, htext]
  · rw [← h.read, hf, hc, ha]
    simp only [List.flatMap_append, List.flatMap_cons, List.flatMap_nil, List.append_nil,
      CrdtCall.characters]

end Groups

theorem length_mid (l : List Nat) (p n : Nat) (h : p + n ≤ l.length) : (mid l p n).length = n := by
  unfold mid
  rw [List.length_take, List.length_drop]
  omega

theorem mid_getElem?_zero (l : List Nat) (p n : Nat) (hn : 0 < n) (h : p + n ≤ l.length) :
    (mid l p n)[0]? = some (l.getD p 0) := by
  unfold mid
  rw [List.getElem?_take_of_lt hn, List.getElem?_drop, Nat.add_zero,
    List.getD_eq_getElem?_getD, List.getElem?_eq_getElem (by omega)]
  rfl

theorem map_getD_range (l : List Nat) (n : Nat) (h : l.length = n) :
    (List.range n).map (fun i => l.getD i 0) = l := by
  apply List.ext_getElem
  · simp [h]
  · intro i h1 h2
    simp only [List.getElem_map, List.getElem_range]
    rw [List.getD_eq_getElem?_getD, List.getElem?_eq_getElem h2]
    rfl

theorem charactersRead_fst {F C A : Type} (view : EditorView F C A) (line : Int) (added : QString) (n : Nat)
    (h : added.length = n) : (charactersRead view line added n).map Prod.fst = added := by
  unfold charactersRead
  rw [List.map_map]
  exact map_getD_range added n h

/-- The insertion of at least two characters that the document holds and whose first one is
    not the null character: the calls are those of the loop. -/
theorem localInsertion_spec {F C A : Type} [DecidableEq F] [DecidableEq C] [DecidableEq A]
    (view : EditorView F C A) (position n : Nat) (hn : 2 ≤ n)
    (htext : position + n ≤ view.toPlainText.length)
    (hfirst : view.toPlainText.getD position 0 ≠ 0) :
    ∃ groups, localInsertion view position n = some (groups, false) ∧
      (∀ c ∈ groups, c.isGroupAt view.cursorLine view.cursorIndex = true) ∧
      groups.flatMap CrdtCall.characters =
        charactersRead view view.cursorLine (mid view.toPlainText position n) n := by
  obtain ⟨groups, hg, h1, h2⟩ := insertGroups_spec view view.cursorLine view.cursorIndex
    (mid view.toPlainText position n) n (by omega)
    (le_of_eq (length_mid _ _ _ htext).symm)
  refine ⟨groups, ?_, h1, h2⟩
  unfold localInsertion
  simp only [mid_getElem?_zero _ _ _ (show 0 < n by omega) htext, hfirst, if_false,
    show n ≠ 1 by omega, hg, Option.map_some']

/-- C24: a notification of an insertion (more characters added than removed) that finds the text
    of the widget no longer than the CRDT, and a notification of a removal (more characters
    removed than added) that finds it no shorter, make `on_contentsChange` return at once:
    no call goes to the CRDT, whatever the other branches would do, and the flags of the
    editor stay as they are. -/
theorem remote_change_is_not_echoed {F C A : Type} [DecidableEq F] [DecidableEq C]
    [DecidableEq A] (view : EditorView F C A)
    (position charsRemoved charsAdded : Nat)
    (h : ((charsAdded : Int) - charsRemoved > 0 ∧
        (view.toPlainText.length : Int) ≤ view.crdtSize) ∨
      ((charsRemoved : Int) - charsAdded > 0 ∧
        (view.toPlainText.length : Int) ≥ view.crdtSize)) :
    on_contentsChange view position charsRemoved charsAdded =
        some ⟨[], view.undoFlag, view.redoFlag, view.inserted⟩ ∧
      (on_contentsChange view position charsRemoved charsAdded).map (fun o => o.calls) =
        some [] := by
  have h1 : on_contentsChange view position charsRemoved charsAdded =
      some ⟨[], view.undoFlag, view.redoFlag, view.inserted⟩ := by
    unfold on_contentsChange
    simp only []
    rw [if_pos h]
  exact ⟨h1, by rw [h1]; rfl⟩

theorem remote_change_is_not_echoed_witness :
    on_contentsChange remoteView 4 0 1 =
        some ⟨[], remoteView.undoFlag, remoteView.redoFlag, remoteView.inserted⟩ ∧
      (on_contentsChange remoteView 4 0 1).map (fun o => o.calls) = some [] :=
  remote_change_is_not_echoed remoteView 4 0 1 (Or.inl (by decide))

/-- C30 (counterexample): a pasted text of three characters whose first one is the null character:
    `on_contentsChange` returns at the test of the first character, and no text is passed
    to the CRDT. -/
theorem insertion_that_starts_with_the_null_character_is_dropped :
    mid nulView.toPlainText 0 3 = [0, 97, 98] ∧
    (on_contentsChange nulView 0 0 3).map (fun o => o.calls) = some [] := by
  refine ⟨by decide, by decide⟩

/-- C30 (amended): for a notification that `on_contentsChange` takes as a local insertion of `n`
    characters, `n` at least 2 (the substitution of a selection, where `n` is `charsAdded`,
    or an insertion, where `n` is `charsAdded - charsRemoved`), when the document holds the
    `n` characters from the position on and the first of them is not the null character:
    the function returns, and its calls are the erasure of the selection, if any, followed
    by calls of `localInsertGroup` at the line and index of the position, whose texts are
    not empty, whose concatenation is the added text, and whose characters, each with the
    font, colour and alignment passed with its call, are the added characters, each with
    the font and colour read for it from the document and the alignment of its line. -/
theorem pasted_text_is_split_into_uniform_groups {F C A : Type} [DecidableEq F] [DecidableEq C]
    [DecidableEq A] (view : EditorView F C A) (position charsRemoved charsAdded n : Nat)
    (hlocal : ¬ (((charsAdded : Int) - charsRemoved > 0 ∧
        (view.toPlainText.length : Int) ≤ view.crdtSize) ∨
      ((charsRemoved : Int) - charsAdded > 0 ∧
        (view.toPlainText.length : Int) ≥ view.crdtSize)))
    (hbranch : (view.selected = true ∧ charsAdded > 0 ∧ charsRemoved > 0 ∧
        view.inserted = true ∧ n = charsAdded) ∨
      (¬ (view.selected = true ∧ charsAdded > 0 ∧ charsRemoved > 0 ∧ view.inserted = true) ∧
        charsAdded > 0 ∧ (charsAdded : Int) - charsRemoved > 0 ∧
        n = charsAdded - charsRemoved))
    (hmulti : 2 ≤ n)
    (htext : position + n ≤ view.toPlainText.length)
    (hfirst : view.toPlainText.getD position 0 ≠ 0) :
    ∃ (outcome : Outcome F C A) (erased groups : List (CrdtCall F C A)),
      on_contentsChange view position charsRemoved charsAdded = some outcome ∧
      outcome.calls = erased ++ groups ∧
      (∀ c ∈ erased, ∃ line index lenght, c = CrdtCall.localErase line index lenght) ∧
      (∀ c ∈ groups, c.isGroupAt view.cursorLine view.cursorIndex = true) ∧
      groups.flatMap CrdtCall.characters =
        charactersRead view view.cursorLine (mid view.toPlainText position n) n ∧
      (groups.flatMap CrdtCall.characters).map Prod.fst = mid view.toPlainText position n := by
  obtain ⟨groups, hg, h1, h2⟩ := localInsertion_spec view position n hmulti htext hfirst
  have h3 : (groups.flatMap CrdtCall.characters).map Prod.fst = mid view.toPlainText position n := by
    rw [h2]
    exact charactersRead_fst view _ _ n (length_mid _ _ _ htext)
  rcases hbranch with ⟨hs, ha, hr, hi, hn⟩ | ⟨hnot, ha, hnet, hn⟩
  · subst hn
    refine ⟨⟨(if (mid view.undoneText position charsRemoved).length ≠ 0 then
        [CrdtCall.localErase view.cursorLine view.cursorIndex
          (mid view.undoneText position charsRemoved).length] else []) ++ groups, false,
        view.redoFlag, false⟩, (if (mid view.undoneText position charsRemoved).length ≠ 0 then
        [CrdtCall.localErase view.cursorLine view.cursorIndex
          (mid view.undoneText position charsRemoved).length] else []), groups, ?_, rfl, ?_,
      h1, h2, h3⟩
    · unfold on_contentsChange
      simp only []
      rw [if_neg hlocal, if_pos ⟨hs, ha, hr, hi⟩, hg]
      rfl
    · intro c hc
      split_ifs at hc
      · rw [List.mem_singleton] at hc
        exact ⟨_, _, _, hc⟩
      · cases hc
  · subst hn
    refine ⟨⟨groups, false, view.redoFlag, false⟩, [], groups, ?_, rfl, ?_, h1, h2, h3⟩
    · unfold on_contentsChange
      simp only []
      rw [if_neg hlocal, if_neg hnot, if_pos ⟨ha, hnet⟩, hg]
      rfl
    · intro c hc
      cases hc

theorem pasted_text_is_split_into_uniform_groups_witness :
    ∃ (outcome : Outcome Nat Nat Nat) (erased groups : List (CrdtCall Nat Nat Nat)),
      on_contentsChange sampleView 0 0 5 = some outcome ∧
      outcome.calls = erased ++ groups ∧
      (∀ c ∈ erased, ∃ line index lenght, c = CrdtCall.localErase line index lenght) ∧
      (∀ c ∈ groups, c.isGroupAt sampleView.cursorLine sampleView.cursorIndex = true) ∧
      groups.flatMap CrdtCall.characters =
        charactersRead sampleView sampleView.cursorLine (mid sampleView.toPlainText 0 5) 5 ∧
      (groups.flatMap CrdtCall.characters).map Prod.fst = mid sampleView.toPlainText 0 5 :=
  pasted_text_is_split_into_uniform_groups sampleView 0 0 5 5 (by decide)
    (Or.inr ⟨by decide, by decide, by decide, by decide⟩) (by decide) (by decide) (by decide)

/-- The calls for the sample paste: three groups, split where the font changes and where a
    line with another alignment begins. -/
theorem sample_paste_groups :
    (on_contentsChange sampleView 0 0 5).map (fun o => o.calls) =
      some [CrdtCall.localInsertGroup 0 0 (QLatin1String "ab") 1 0 0,
        CrdtCall.localInsertGroup 0 0 [10] 2 0 0,
        CrdtCall.localInsertGroup 0 0 (QLatin1String "cd") 2 0 1] := by
  decide

end SharedEditor
